import Mathlib

/-! # The code generator `codegen/main.go`: normaliser, structs, serializers, builders

A shallow embedding of the code generator.  Go strings are modelled as lists of
Unicode scalar values (`List Char`): every string the generator handles comes out
of `json.Unmarshal` or out of the template text, so it is valid UTF-8, and a
`range` loop over it yields exactly its runes.  Byte-level operations
(`input[0]`, the byte offset `k` of a `range` loop) are computed from the UTF-8
encoding of the runes.

The template is modelled piece by piece, with the whitespace trimming of its
actions applied; the Rust code it emits is kept as statements with their exact
text, and the serializer, the query assembly and the path substitution are also
given the meaning the statements have when they run.
-/

namespace Codegen

/-! ## The Go library functions the generator calls -/

/-- Unicode data consulted by the Go runtime for runes outside the ranges that
are spelled out below: the case table beyond U+00FF, the title-case table and
the letter, digit and space classes beyond U+007F.  The development is
parametric in this data. -/
structure UnicodeTables where
  upper : Char → Char
  lower : Char → Char
  title : Char → Char
  isLetter : Char → Bool
  isDigit : Char → Bool
  isSpace : Char → Bool

/-- Rows U+0080..U+00FF of `unicode.CaseRanges`, upper-case column. -/
def latin1Upper (r : Char) : Char :=
  if r.toNat = 0xB5 then Char.ofNat 0x39C
  else if (0xE0 ≤ r.toNat ∧ r.toNat ≤ 0xF6) ∨ (0xF8 ≤ r.toNat ∧ r.toNat ≤ 0xFE) then
    Char.ofNat (r.toNat - 32)
  else if r.toNat = 0xFF then Char.ofNat 0x178
  else r

/-- Rows U+0080..U+00FF of `unicode.CaseRanges`, lower-case column. -/
def latin1Lower (r : Char) : Char :=
  if (0xC0 ≤ r.toNat ∧ r.toNat ≤ 0xD6) ∨ (0xD8 ≤ r.toNat ∧ r.toNat ≤ 0xDE) then
    Char.ofNat (r.toNat + 32)
  else r

/-- Go `unicode.ToUpper`: an ASCII fast path, then the case table. -/
def unicodeToUpper (u : UnicodeTables) (r : Char) : Char :=
  if r.toNat ≤ 0x7F then
    if 0x61 ≤ r.toNat ∧ r.toNat ≤ 0x7A then Char.ofNat (r.toNat - 32) else r
  else if r.toNat ≤ 0xFF then latin1Upper r
  else u.upper r

/-- Go `unicode.ToLower`: an ASCII fast path, then the case table. -/
def unicodeToLower (u : UnicodeTables) (r : Char) : Char :=
  if r.toNat ≤ 0x7F then
    if 0x41 ≤ r.toNat ∧ r.toNat ≤ 0x5A then Char.ofNat (r.toNat + 32) else r
  else if r.toNat ≤ 0xFF then latin1Lower r
  else u.lower r

/-- Go `unicode.ToTitle`: an ASCII fast path, then the case table. -/
def unicodeToTitle (u : UnicodeTables) (r : Char) : Char :=
  if r.toNat ≤ 0x7F then
    if 0x61 ≤ r.toNat ∧ r.toNat ≤ 0x7A then Char.ofNat (r.toNat - 32) else r
  else u.title r

/-- Go `strings.ToUpper`: maps `unicode.ToUpper` over the runes. -/
def stringsToUpper (u : UnicodeTables) (s : List Char) : List Char :=
  s.map (unicodeToUpper u)

/-- Go `strings.ToLower`: maps `unicode.ToLower` over the runes. -/
def stringsToLower (u : UnicodeTables) (s : List Char) : List Char :=
  s.map (unicodeToLower u)

/-- Go `strings.isSeparator`: ASCII alphanumerics and the underscore are not
separators, other ASCII runes are; beyond ASCII, letters and digits are not and
otherwise spaces are. -/
def isSeparator (u : UnicodeTables) (r : Char) : Bool :=
  if r.toNat ≤ 0x7F then
    if 0x30 ≤ r.toNat ∧ r.toNat ≤ 0x39 then false
    else if 0x61 ≤ r.toNat ∧ r.toNat ≤ 0x7A then false
    else if 0x41 ≤ r.toNat ∧ r.toNat ≤ 0x5A then false
    else if r = '_' then false
    else true
  else if u.isLetter r || u.isDigit r then false
  else u.isSpace r

/-- The closure of Go `strings.Title`, with the previous rune `prev` as explicit
state: a rune that follows a separator is title-cased. -/
def titleFrom (u : UnicodeTables) (prev : Char) : List Char → List Char
  | [] => []
  | r :: rest =>
    (if isSeparator u prev then unicodeToTitle u r else r) :: titleFrom u r rest

/-- Go `strings.Title`: the closure starts with `prev` a space. -/
def stringsTitle (u : UnicodeTables) (s : List Char) : List Char :=
  titleFrom u ' ' s

/-- Go `strings.TrimPrefix`. -/
def stringsTrimPrefix (s pre : List Char) : List Char :=
  if pre.isPrefixOf s then s.drop pre.length else s

/-- The UTF-8 encoding of a rune, as byte values. -/
def utf8Bytes (r : Char) : List Nat :=
  if r.toNat < 0x80 then [r.toNat]
  else if r.toNat < 0x800 then [0xC0 + r.toNat / 64, 0x80 + r.toNat % 64]
  else if r.toNat < 0x10000 then
    [0xE0 + r.toNat / 4096, 0x80 + r.toNat / 64 % 64, 0x80 + r.toNat % 64]
  else
    [0xF0 + r.toNat / 262144, 0x80 + r.toNat / 4096 % 64, 0x80 + r.toNat / 64 % 64,
      0x80 + r.toNat % 64]

/-- The bytes of a Go string. -/
def goBytes (s : List Char) : List Nat :=
  s.flatMap utf8Bytes

/-- The index expression `s[i]` of Go: the byte at offset `i`, and a run-time
panic (`none`) when `i` is out of range. -/
def index (s : List Char) (i : Nat) : Option Nat :=
  (goBytes s)[i]?

/-- The conversion `string(b)` of a byte: the one-rune string of that value. -/
def byteToString (b : Nat) : List Char :=
  [Char.ofNat b]

/-- The pairs `(k, v)` of a `range` loop over a string: each rune with the byte
offset at which it starts. -/
def rangeFrom (k : Nat) : List Char → List (Nat × Char)
  | [] => []
  | r :: rest => (k, r) :: rangeFrom (k + (utf8Bytes r).length) rest

/-- The iterations of `for k, v := range input`. -/
def range (input : List Char) : List (Nat × Char) :=
  rangeFrom 0 input

/-! ## The identifier normaliser (main.go, lines 307-388) -/

/-- The function `convertRefToClassName` of main.go. -/
def convertRefToClassName (u : UnicodeTables) (input : List Char) : List Char :=
  stringsTitle u (stringsTrimPrefix input "#/definitions/".toList)

/-- One iteration of the loop of `snakeCaseToCamelCase`; the state is the pair
of `camelCase` and `isToUpper`. -/
def camelCaseBody (u : UnicodeTables) (input : List Char) (st : List Char × Bool)
    (kv : Nat × Char) : Option (List Char × Bool) :=
  if kv.1 = 0 then
    (index input 0).map fun b => (stringsToLower u (byteToString b), st.2)
  else if st.2 then some (st.1 ++ stringsToUpper u [kv.2], false)
  else if kv.2 = '_' then some (st.1, true)
  else some (st.1 ++ [kv.2], st.2)

/-- The function `snakeCaseToCamelCase` of main.go; `none` is a run-time panic. -/
def snakeCaseToCamelCase (u : UnicodeTables) (input : List Char) : Option (List Char) :=
  ((range input).foldlM (camelCaseBody u input) ([], false)).map Prod.fst

/-- One iteration of the loop of `snakeCaseToPascalCase`; the state is the pair
of `output` and `isToUpper`. -/
def pascalCaseBody (u : UnicodeTables) (input : List Char) (st : List Char × Bool)
    (kv : Nat × Char) : Option (List Char × Bool) :=
  if kv.1 = 0 then
    (index input 0).map fun b => (stringsToUpper u (byteToString b), st.2)
  else if st.2 then some (st.1 ++ stringsToUpper u [kv.2], false)
  else if kv.2 = '_' then some (st.1, true)
  else some (st.1 ++ [kv.2], st.2)

/-- The function `snakeCaseToPascalCase` of main.go; `none` is a run-time panic. -/
def snakeCaseToPascalCase (u : UnicodeTables) (input : List Char) : Option (List Char) :=
  ((range input).foldlM (pascalCaseBody u input) ([], false)).map Prod.fst

/-- The function `isSnakeCase` of main.go. -/
def isSnakeCase (u : UnicodeTables) (input : List Char) : Bool :=
  input.foldl
    (fun output v =>
      if [v] ≠ "_".toList ∧ stringsToUpper u [v] = [v] then false else output)
    true

/-- The function `camelCaseToSnakeCase` of main.go. -/
def camelCaseToSnakeCase (u : UnicodeTables) (input : List Char) : List Char :=
  if isSnakeCase u input then input
  else
    input.foldl
      (fun output v =>
        if [v] = stringsToUpper u [v] then output ++ ("_".toList ++ stringsToLower u [v])
        else output ++ [v])
      []

/-- Unicode tables that leave every rune alone; ASCII text never consults the
tables, so any choice evaluates ASCII examples. -/
def noTables : UnicodeTables :=
  ⟨id, id, id, fun _ => false, fun _ => false, fun _ => false⟩

/-- The function `stripNewlines` of main.go: `strings.Replace(input, "\n", " ", -1)`. -/
def stripNewlines (input : List Char) : List Char :=
  input.map fun c => if c = '\n' then ' ' else c

/-! ## The schema model (main.go, lines 459-474) -/

/-- The `Items` field of a property: element type and element reference of an
array. -/
structure Items where
  Type_ : List Char := []
  Ref : List Char := []
  deriving DecidableEq

/-- The `AdditionalProperties` field of a property: value type of a map. -/
structure AdditionalProperties where
  Type_ : List Char := []
  deriving DecidableEq

/-- One entry of `Definitions[..].Properties`; a field absent from the JSON
document keeps its zero value, the empty string. -/
structure Property where
  Type_ : List Char := []
  Ref : List Char := []
  Items : Items := {}
  AdditionalProperties : AdditionalProperties := {}
  Format : List Char := []
  Description : List Char := []
  deriving DecidableEq

/-! ## Struct emission (the template, lines 65-116) -/

/-- Outcome of executing a piece of the template: `done text` when execution
ran to the end of the piece having written `text`, `stopped text` when
`text/template` aborted with an execution error after `text` was written. -/
inductive Emit where
  | done (text : List Char)
  | stopped (text : List Char)
  deriving DecidableEq

/-- The template variable `$classname := $defname | title` (line 66). -/
def className (u : UnicodeTables) (defname : List Char) : List Char :=
  stringsTitle u defname

/-- The text written for a definition up to the opening brace of its struct
(lines 66-71). -/
def structOpen (u : UnicodeTables) (defname description : List Char) : List Char :=
  "\n\n/// ".toList ++ stripNewlines description
    ++ "\n#[derive(Debug, DeJson, Default)]\n#[nserde(default)]\npub struct ".toList
    ++ className u defname ++ " \x7b".toList

/-- The text written for one property inside the struct (lines 72-115).  The
last alternative of the `object` branch pipes the struct
`$property.AdditionalProperties` into `cleanRef`, which takes a string:
`text/template` stops there with an execution error. -/
def structField (u : UnicodeTables) (propname : List Char) (property : Property) : Emit :=
  let fieldname := camelCaseToSnakeCase u propname
  let pub := "\n    pub ".toList ++ fieldname
  if property.Type_ = "integer".toList then .done (pub ++ ": i32,".toList)
  else if property.Type_ = "number".toList then .done (pub ++ ": f32,".toList)
  else if property.Type_ = "boolean".toList then .done (pub ++ ": bool,".toList)
  else if property.Type_ = "string".toList then .done (pub ++ ": String,".toList)
  else if property.Type_ = "array".toList then
    if property.Items.Type_ = "string".toList then .done (pub ++ ": Vec<String>,".toList)
    else if property.Items.Type_ = "integer".toList then .done (pub ++ ": Vec<i32>,".toList)
    else if property.Items.Type_ = "number".toList then .done (pub ++ ": Vec<f32>,".toList)
    else if property.Items.Type_ = "boolean".toList then .done (pub ++ ": Vec<bool>,".toList)
    else
      .done (pub ++ ": Vec<".toList ++ convertRefToClassName u property.Items.Ref ++ ">,".toList)
  else if property.Type_ = "object".toList then
    if property.AdditionalProperties.Type_ = "string".toList then
      .done (pub ++ ": HashMap<String, String>,".toList)
    else if property.Items.Type_ = "integer".toList then
      .done (pub ++ ": HashMap<String, i32>,".toList)
    else if property.Items.Type_ = "number".toList then
      .done (pub ++ ": HashMap<String, f32>,".toList)
    else if property.Items.Type_ = "boolean".toList then
      .done (pub ++ ": HashMap<string, bool>,".toList)
    else .stopped (pub ++ ": HashMap<string, ".toList)
  else .done (pub ++ ": ".toList ++ convertRefToClassName u property.Ref ++ ",".toList)

/-! ## The kinds of the data model, from the words of the specification -/

/-- The primitive kinds of the mapping table. -/
inductive Primitive where
  | integer
  | number
  | boolean
  | string
  deriving DecidableEq

/-- The name of a primitive kind in the schema. -/
def Primitive.schemaName : Primitive → List Char
  | .integer => "integer".toList
  | .number => "number".toList
  | .boolean => "boolean".toList
  | .string => "string".toList

/-- The target type of a primitive kind in the mapping table. -/
def Primitive.targetType : Primitive → List Char
  | .integer => "i32".toList
  | .number => "f32".toList
  | .boolean => "bool".toList
  | .string => "String".toList

/-- The kinds of a property in the data model. -/
inductive Kind where
  | primitive (p : Primitive)
  | arrayOf (p : Primitive)
  | arrayOfRef (r : List Char)
  | mapOf (p : Primitive)
  | reference (r : List Char)
  deriving DecidableEq

/-- The kind is a map (`object`). -/
def Kind.isMap : Kind → Bool
  | .mapOf _ => true
  | _ => false

/-- How a decoded property carries a kind: the `type` names a primitive, or is
`array` with the element in `items`, or is `object` with the value type in
`additionalProperties`, or is absent with a `$ref` to the definition. -/
def Property.hasKind (p : Property) : Kind → Prop
  | .primitive q => p.Type_ = q.schemaName
  | .arrayOf q => p.Type_ = "array".toList ∧ p.Items.Type_ = q.schemaName
  | .arrayOfRef r =>
    p.Type_ = "array".toList ∧ p.Items.Type_ = [] ∧ p.Items.Ref = "#/definitions/".toList ++ r
  | .mapOf q => p.Type_ = "object".toList ∧ p.AdditionalProperties.Type_ = q.schemaName
  | .reference r => p.Type_ = [] ∧ p.Ref = "#/definitions/".toList ++ r

instance (p : Property) (k : Kind) : Decidable (p.hasKind k) := by
  cases k <;> unfold Property.hasKind <;> infer_instance

/-- The target type of a kind in the mapping table; a reference resolves to the
struct emitted for the definition. -/
def Kind.targetType (u : UnicodeTables) : Kind → List Char
  | .primitive q => q.targetType
  | .arrayOf q => "Vec<".toList ++ q.targetType ++ ">".toList
  | .arrayOfRef r => "Vec<".toList ++ className u r ++ ">".toList
  | .mapOf q => "HashMap<String, ".toList ++ q.targetType ++ ">".toList
  | .reference r => className u r

/-! ## Example properties -/

/-- An array of references: `{"type": "array", "items": {"$ref": "#/definitions/apiUser"}}`. -/
def usersProperty : Property :=
  { Type_ := "array".toList, Items := { Ref := "#/definitions/apiUser".toList } }

/-- A map with integer values:
`{"type": "object", "additionalProperties": {"type": "integer"}}`. -/
def countsProperty : Property :=
  { Type_ := "object".toList, AdditionalProperties := { Type_ := "integer".toList } }

/-- A map with boolean values:
`{"type": "object", "additionalProperties": {"type": "boolean"}}`. -/
def flagsProperty : Property :=
  { Type_ := "object".toList, AdditionalProperties := { Type_ := "boolean".toList } }

/-- A map with string values:
`{"type": "object", "additionalProperties": {"type": "string"}}`. -/
def labelsProperty : Property :=
  { Type_ := "object".toList, AdditionalProperties := { Type_ := "string".toList } }

/-! ## Loop-free forms of the normaliser loops -/

/-- The first byte of the UTF-8 encoding of a rune. -/
def firstByte (r : Char) : Nat :=
  (utf8Bytes r).headD 0

/-- What the loops of `snakeCaseToCamelCase` and `snakeCaseToPascalCase` append
after the first rune, started with `isToUpper = b`. -/
def camelTail (u : UnicodeTables) : Bool → List Char → List Char
  | _, [] => []
  | true, v :: rest => unicodeToUpper u v :: camelTail u false rest
  | false, v :: rest =>
    if v = '_' then camelTail u true rest else v :: camelTail u false rest

/-- What the loop of `camelCaseToSnakeCase` appends for one rune. -/
def snakeRune (u : UnicodeTables) (v : Char) : List Char :=
  if unicodeToUpper u v = v then ['_', unicodeToLower u v] else [v]

/-- The output of the loop of `camelCaseToSnakeCase`. -/
def snakeExpand (u : UnicodeTables) (s : List Char) : List Char :=
  s.flatMap (snakeRune u)

/-- The ASCII fast path of `unicode.ToUpper`. -/
def asciiUpper (r : Char) : Char :=
  if 0x61 ≤ r.toNat ∧ r.toNat ≤ 0x7A then Char.ofNat (r.toNat - 32) else r

/-- The ASCII fast path of `unicode.ToLower`. -/
def asciiLower (r : Char) : Char :=
  if 0x41 ≤ r.toNat ∧ r.toNat ≤ 0x5A then Char.ofNat (r.toNat + 32) else r

/-- The case mapping `unicode.ToUpper` on U+0000..U+00FF, where no table outside
this file is consulted. -/
def byteUpper (r : Char) : Char :=
  if r.toNat ≤ 0x7F then asciiUpper r else latin1Upper r

/-- The case mapping `unicode.ToLower` on U+0000..U+00FF. -/
def byteLower (r : Char) : Char :=
  if r.toNat ≤ 0x7F then asciiLower r else latin1Lower r

/-! ## Character classes of identifiers -/

/-- ASCII lower-case letter. -/
def isLowerLetter (c : Char) : Bool :=
  decide (0x61 ≤ c.toNat ∧ c.toNat ≤ 0x7A)

/-- ASCII upper-case letter. -/
def isUpperLetter (c : Char) : Bool :=
  decide (0x41 ≤ c.toNat ∧ c.toNat ≤ 0x5A)

/-- ASCII digit. -/
def isDigitChar (c : Char) : Bool :=
  decide (0x30 ≤ c.toNat ∧ c.toNat ≤ 0x39)

/-- ASCII letter. -/
def isLetterChar (c : Char) : Bool :=
  isLowerLetter c || isUpperLetter c

/-- ASCII letter, digit or underscore. -/
def isIdentChar (c : Char) : Bool :=
  isLowerLetter c || isUpperLetter c || isDigitChar c || c == '_'

/-- The string begins with an ASCII lower-case letter. -/
def startsLower : List Char → Bool
  | [] => false
  | c :: _ => isLowerLetter c

/-! ## The identifier classes the properties are stated over -/

/-- No two adjacent ASCII upper-case letters. -/
def noAdjacentUpper : List Char → Bool
  | a :: b :: rest => !(isUpperLetter a && isUpperLetter b) && noAdjacentUpper (b :: rest)
  | _ => true

/-- A camelCase identifier: ASCII letters only, the first one lower-case, no two
adjacent upper-case letters. -/
def isCamelIdent (c : List Char) : Bool :=
  c.all isLetterChar && startsLower c && noAdjacentUpper c

/-- Runs of lower-case letters in which every underscore stands between two
letters: read from the left, a letter may be followed by anything allowed, an
underscore must be followed by a letter. -/
def snakeRuns : List Char → Bool
  | [] => true
  | [c] => isLowerLetter c
  | c :: d :: rest =>
    if isLowerLetter c then snakeRuns (d :: rest)
    else c == '_' && isLowerLetter d && snakeRuns rest

/-- A snake_case identifier: non-empty runs of ASCII lower-case letters joined
by single underscores. -/
def isSnakeIdent (t : List Char) : Bool :=
  startsLower t && snakeRuns t

/-- Every underscore of the string is followed by a letter or a digit (so none
ends the string and no two are adjacent). -/
def underscoresFollowed : List Char → Bool
  | [] => true
  | [c] => c != '_'
  | c :: d :: rest =>
    (c != '_' || isLetterChar d || isDigitChar d) && underscoresFollowed (d :: rest)

/-- The first character is not an underscore (the empty string included). -/
def noLeadingUnderscore : List Char → Bool
  | [] => true
  | c :: _ => c != '_'

/-- No two adjacent underscores. -/
def noDoubleUnderscore : List Char → Bool
  | a :: b :: rest => !(a == '_' && b == '_') && noDoubleUnderscore (b :: rest)
  | _ => true

/-! ## Reference functions, written from the words of the specification -/

/-- Splitting on a one-rune separator, as Go `strings.Split` does: the empty
string gives one empty segment, and `n` separators give `n + 1` segments. -/
def splitOn (sep : Char) : List Char → List (List Char)
  | [] => [[]]
  | c :: rest =>
    if c = sep then [] :: splitOn sep rest
    else
      match splitOn sep rest with
      | seg :: segs => (c :: seg) :: segs
      | [] => [[c]]

/-- Upper-case the first character of a segment. -/
def upperFirst (u : UnicodeTables) : List Char → List Char
  | [] => []
  | c :: rest => unicodeToUpper u c :: rest

/-- Lower-case the first character of a segment. -/
def lowerFirst (u : UnicodeTables) : List Char → List Char
  | [] => []
  | c :: rest => unicodeToLower u c :: rest

/-- The specification of `toCamelCase`: split on the underscore, lower-case the
first segment entirely, upper-case the first letter of each later segment,
concatenate. -/
def camelCaseReference (u : UnicodeTables) (s : List Char) : List Char :=
  match splitOn '_' s with
  | [] => []
  | first :: later => stringsToLower u first ++ later.flatMap (upperFirst u)

/-- The specification of `toCamelCase` with the first segment treated as the
code treats it: only its first character is lower-cased. -/
def camelCaseFirstLetters (u : UnicodeTables) (s : List Char) : List Char :=
  match splitOn '_' s with
  | [] => []
  | first :: later => lowerFirst u first ++ later.flatMap (upperFirst u)

/-- The specification of `toSnakeCase` as claim C5 words it: the string itself
when it has no upper-case letter, otherwise every upper-case letter replaced by
an underscore and its lower-case form, every other character kept. -/
def snakeCaseReference (u : UnicodeTables) (s : List Char) : List Char :=
  if s.any isUpperLetter then
    s.flatMap fun c => if isUpperLetter c then ['_', unicodeToLower u c] else [c]
  else s

/-- The variants of the `Method` enum that the template declares (line 48). -/
def methodVariants : List (List Char) :=
  ["Post".toList, "Get".toList, "Put".toList, "Delete".toList]

/-! ## Maps and their iteration by the template -/

/-- Go string comparison `a <= b` on valid UTF-8: lexicographic on the runes. -/
def strLE : List Char → List Char → Bool
  | [], _ => true
  | _ :: _, [] => false
  | a :: as, b :: bs => decide (a.toNat < b.toNat) || (a == b && strLE as bs)

/-- A Go `map[string]α`, given by its entries (the keys are distinct). -/
abbrev GoMap (α : Type) := List (List Char × α)

/-- The iterations of `range` over a map in `text/template`: the entries with
their keys in sorted order. -/
def rangeMap {α : Type} (m : GoMap α) : List (List Char × α) :=
  List.insertionSort (fun a b => strLE a.1 b.1 = true) m

/-- Go `strings.Replace(s, old, new, n)` for a non-empty `old`, read from the
left: `n` is the number of replacements still allowed (`none` for a negative `n`,
no limit) and `skip` the number of runes of a matched `old` still to pass. -/
def replaceFrom (old new : List Char) : Option Nat → Nat → List Char → List Char
  | _, _, [] => []
  | n, skip + 1, _ :: rest => replaceFrom old new n skip rest
  | n, 0, c :: rest =>
    if n ≠ some 0 ∧ old.isPrefixOf (c :: rest) = true then
      new ++ replaceFrom old new (n.map fun k => k - 1) (old.length - 1) rest
    else c :: replaceFrom old new n 0 rest

/-- The function `stripOperationPrefix` of main.go:
`strings.Replace(input, "Nakama_", "", 1)`. -/
def stripOperationPrefix (input : List Char) : List Char :=
  replaceFrom "Nakama_".toList [] (some 1) 0 input

/-! ## The rest of the schema model (main.go, lines 430-475) -/

/-- A schema definition: its properties by name, and its description. -/
structure Definition where
  Properties : GoMap Property := []
  Description : List Char := []

/-- The `Items` field of a parameter: element type of an array. -/
structure ParameterItems where
  Type_ : List Char := []
  deriving DecidableEq

/-- The `Schema` field of a parameter, used with a body parameter. -/
structure ParameterSchema where
  Type_ : List Char := []
  Ref : List Char := []
  deriving DecidableEq

/-- One entry of an operation's `Parameters`. -/
structure Parameter where
  Name : List Char := []
  In : List Char := []
  Required : Bool := false
  Type_ : List Char := []
  Items : ParameterItems := {}
  Schema : ParameterSchema := {}
  Format : List Char := []
  deriving DecidableEq

/-- The `Schema` of the `200` response. -/
structure ResponseSchema where
  Ref : List Char := []

/-- The `200` response. -/
structure Response where
  Schema : ResponseSchema := {}

/-- The `Responses` of an operation. -/
structure Responses where
  Ok : Response := {}

/-- One operation: a method of a path.  `Security` is a list of maps from scheme
name to a list of empty structs. -/
structure Operation where
  Summary : List Char := []
  OperationId : List Char := []
  Responses : Responses := {}
  Parameters : List Parameter := []
  Security : List (GoMap (List Unit)) := []

/-- The decoded input document. -/
structure Schema where
  SubNamespace : List Char := []
  Paths : GoMap (GoMap Operation) := []
  Definitions : GoMap Definition := []

/-! ## Sequencing of template output -/

/-- The text written, whether or not execution went on. -/
def Emit.text : Emit → List Char
  | .done t => t
  | .stopped t => t

/-- Executing one piece after another: a stopped piece stops the rest. -/
def Emit.seq (a b : Emit) : Emit :=
  match a with
  | .stopped t => .stopped t
  | .done t =>
    match b with
    | .done t2 => .done (t ++ t2)
    | .stopped t2 => .stopped (t ++ t2)

/-- A `range` over a list: the piece of each element in turn. -/
def emitRange {α : Type} (f : α → Emit) : List α → Emit
  | [] => .done []
  | x :: rest => (f x).seq (emitRange f rest)

/-! ## The emitted serializer (the template, lines 116-154) -/

/-- The statements the template writes into the body of `to_string`, and the
layout between them.  `key` is the text placed in the format string, `field` the
field of `self` that is read. -/
inductive SerStmt where
  | blank
  | pushStr (lit : List Char)
  | pushArray (key field : List Char)
  | pushMap (key field : List Char)
  | pushQuoted (key field : List Char)
  | pushShown (key field : List Char)
  deriving DecidableEq

/-- The text the template writes for a statement. -/
def SerStmt.text : SerStmt → List Char
  | .blank => "\n        ".toList
  | .pushStr lit => "\n        output.push_str(\"".toList ++ lit ++ "\");".toList
  | .pushArray key field =>
    "\n        output.push_str(&format!(\"\\\"".toList ++ key
      ++ "\\\": [\x7b\x7d],\", \x7b\n            let vec_string = self.".toList ++ field
      ++ ".iter().map(|x| x.to_string()).collect::<Vec<_>>();\n            vec_string.join(\", \")\n        \x7d));".toList
  | .pushMap key field =>
    "\n  \toutput.push_str(&format!(\"\\\"".toList ++ key ++ "\\\": ".toList ++ "\x7b\x7b".toList ++ " \x7b\x7d ".toList
      ++ "\x7d\x7d".toList ++ "\", \x7b\n\t    let map_string = self\n\t\t.".toList ++ field
      ++ "\n\t\t.iter()\n\t\t.map(|(key, value)| format!(\"\\\"\x7b\x7d\\\" = \x7b\x7d\", key.to_string(), value.to_string()))\n\t\t.collect::<Vec<_>>();\n\t    map_string.join(\", \")\n\t\x7d));".toList
  | .pushQuoted key field =>
    "\n\toutput.push_str(&format!(\"\\\"".toList ++ key ++ "\\\": \\\"\x7b\x7d\\\"\", self.".toList ++ field
      ++ "));".toList
  | .pushShown key field =>
    "\n\toutput.push_str(&format!(\"\\\"".toList ++ key ++ "\\\": \x7b\x7d\", self.".toList ++ field
      ++ ".to_string()));".toList

/-- The statement that serialises one property (lines 131-149). -/
def valueStmt (u : UnicodeTables) (propname : List Char) (property : Property) : SerStmt :=
  let fieldname := camelCaseToSnakeCase u propname
  if property.Type_ = "array".toList then .pushArray propname fieldname
  else if property.Type_ = "object".toList then .pushMap propname fieldname
  else if property.Type_ = "string".toList then .pushQuoted propname fieldname
  else .pushShown propname fieldname

/-- The statements of the property loop of the serializer, with the template
variable `$isPreviousField` as explicit state (lines 124-150). -/
def propertyStmts (u : UnicodeTables) : Bool → List (List Char × Property) → List SerStmt
  | _, [] => []
  | isPreviousField, (propname, property) :: rest =>
    [SerStmt.blank] ++ (if isPreviousField = true then [SerStmt.pushStr ",".toList] else [])
      ++ [valueStmt u propname property] ++ propertyStmts u true rest

/-- The statements of the body of `to_string` between `String::new()` and
`return output` (lines 122-151). -/
def serializerStmts (u : UnicodeTables) (definition : Definition) : List SerStmt :=
  [SerStmt.pushStr "\x7b".toList] ++ propertyStmts u false (rangeMap definition.Properties)
    ++ [SerStmt.pushStr "\x7d".toList]

/-- The text of the serializer of a definition (lines 116-154). -/
def serializerText (u : UnicodeTables) (defname : List Char) (definition : Definition) :
    List Char :=
  "\n\x7d\n\nimpl ToRestString for ".toList ++ className u defname
    ++ " \x7b\n    fn to_string(&self) -> String \x7b\n\tlet mut output = String::new();\n\n        ".toList
    ++ (serializerStmts u definition).flatMap SerStmt.text
    ++ "\n\treturn output;\n    \x7d\n\x7d".toList

/-- The text written for one definition: the struct and its serializer
(lines 65-155). -/
def emitDefinition (u : UnicodeTables) (defname : List Char) (definition : Definition) : Emit :=
  ((Emit.done (structOpen u defname definition.Description)).seq
    (emitRange (fun kv => structField u kv.1 kv.2) (rangeMap definition.Properties))).seq
    (.done (serializerText u defname definition))

/-! ## What the emitted serializer computes -/

/-- A field of `self` as the serializer sees it: a scalar by its `to_string()`
text, a vector by the texts of its elements, a map by the texts of its keys and
values in the order the map iterates. -/
inductive Value where
  | shown (text : List Char)
  | list (items : List (List Char))
  | dict (entries : List (List Char × List Char))

/-- Text that stands for itself both in a Rust string literal and in a format
string: no quote, backslash or brace. -/
def plainText (s : List Char) : Bool :=
  s.all fun c => c != '"' && c != '\\' && c != '\x7b' && c != '\x7d'

/-- The strict and the reserved keywords of Rust, of every edition: none of them
can name a field, an argument, a function or a type. -/
def rustKeywords : List (List Char) :=
  ["as".toList, "break".toList, "const".toList, "continue".toList, "crate".toList,
    "else".toList, "enum".toList, "extern".toList, "false".toList, "fn".toList, "for".toList,
    "if".toList, "impl".toList, "in".toList, "let".toList, "loop".toList, "match".toList,
    "mod".toList, "move".toList, "mut".toList, "pub".toList, "ref".toList, "return".toList,
    "self".toList, "Self".toList, "static".toList, "struct".toList, "super".toList,
    "trait".toList, "true".toList, "type".toList, "unsafe".toList, "use".toList,
    "where".toList, "while".toList, "async".toList, "await".toList, "dyn".toList,
    "abstract".toList, "become".toList, "box".toList, "do".toList, "final".toList,
    "macro".toList, "override".toList, "priv".toList, "typeof".toList, "unsized".toList,
    "virtual".toList, "yield".toList, "try".toList, "gen".toList]

/-- A name that Rust accepts for a field, an argument, a function or a type,
among the ASCII names: letters, digits and underscores, not starting with a
digit, not the single underscore, not a keyword.  Names beyond ASCII are left
out. -/
def isRustIdent : List Char → Bool
  | [] => false
  | c :: rest =>
    !isDigitChar c && (c :: rest).all isIdentChar && (c :: rest) != ['_']
      && !rustKeywords.contains (c :: rest)

/-- What one statement appends to `output`; `none` when the statement is not
well-formed Rust for the given field (a key that is not plain text, a field
whose name Rust does not accept, a field of another shape). -/
def SerStmt.appended (self : List Char → Value) : SerStmt → Option (List Char)
  | .blank => some []
  | .pushStr lit => if lit.all (fun c => c != '"' && c != '\\') then some lit else none
  | .pushArray key field =>
    match self field with
    | .list items =>
      if plainText key && isRustIdent field then
        some ("\"".toList ++ key ++ "\": [".toList ++ ", ".toList.intercalate items
          ++ "],".toList)
      else none
    | _ => none
  | .pushMap key field =>
    match self field with
    | .dict entries =>
      if plainText key && isRustIdent field then
        some ("\"".toList ++ key ++ "\": \x7b ".toList
          ++ ", ".toList.intercalate
              (entries.map fun kv => "\"".toList ++ kv.1 ++ "\" = ".toList ++ kv.2)
          ++ " \x7d".toList)
      else none
    | _ => none
  | .pushQuoted key field =>
    match self field with
    | .shown text =>
      if plainText key && isRustIdent field then some ("\"".toList ++ key ++ "\": \"".toList ++ text ++ "\"".toList)
      else none
    | _ => none
  | .pushShown key field =>
    match self field with
    | .shown text =>
      if plainText key && isRustIdent field then some ("\"".toList ++ key ++ "\": ".toList ++ text) else none
    | _ => none

/-- Running the statements of `to_string` on `self`: `output` starts empty and
each statement appends to it. -/
def runSerializer (self : List Char → Value) (stmts : List SerStmt) : Option (List Char) :=
  stmts.foldlM (fun output s => (s.appended self).map fun t => output ++ t) []

/-! ## The emitted request builder (the template, lines 157-304) -/

/-- Text that stands for itself in a Rust string literal: no quote or
backslash. -/
def plainLiteral (s : List Char) : Bool :=
  s.all fun c => c != '"' && c != '\\'

/-- The type of an argument in the signature of a builder: `base`, inside
`Option<...>` when `wrapped`. -/
structure ArgType where
  wrapped : Bool
  base : List Char
  deriving DecidableEq

/-- The text of an argument type. -/
def ArgType.text (t : ArgType) : List Char :=
  if t.wrapped = true then "Option<".toList ++ t.base ++ ">".toList else t.base

/-- The type the template gives to the argument of a parameter (lines 177-212);
`none` where execution stops: a parameter of type `object` outside path and body
makes the template read `$parameter.AdditionalProperties`, a field the decoded
parameter does not have. -/
def argType (u : UnicodeTables) (p : Parameter) : Option ArgType :=
  if p.In = "path".toList then
    if p.Type_ = "string".toList then some ⟨!p.Required, "&str".toList⟩
    else some ⟨!p.Required, p.Type_⟩
  else if p.In = "body".toList then
    if p.Schema.Type_ = "string".toList then some ⟨!p.Required, "&str".toList⟩
    else some ⟨!p.Required, convertRefToClassName u p.Schema.Ref⟩
  else if p.Type_ = "array".toList then
    if p.Items.Type_ = "string".toList then some ⟨false, "&[String]".toList⟩
    else some ⟨false, "&[".toList ++ p.Items.Type_ ++ "]".toList⟩
  else if p.Type_ = "object".toList then none
  else if p.Type_ = "integer".toList then some ⟨true, "i32".toList⟩
  else if p.Type_ = "boolean".toList then some ⟨true, "bool".toList⟩
  else if p.Type_ = "string".toList then some ⟨true, "&str".toList⟩
  else some ⟨true, p.Type_⟩

/-- The template variable `$argname := $parameter.Name | snakeCase`. -/
def argName (u : UnicodeTables) (p : Parameter) : List Char :=
  camelCaseToSnakeCase u p.Name

/-- The text written for one parameter in the signature (lines 175-213). -/
def paramDecl (u : UnicodeTables) (p : Parameter) : Emit :=
  match argType u p with
  | some t => .done ("\n    ".toList ++ argName u p ++ ": ".toList ++ t.text ++ ",".toList)
  | none => .stopped []

/-- The authentication parameters of the signature (lines 161-174). -/
def authParams (op : Operation) : List Char :=
  match op.Security with
  | [] => "\n    bearer_token: &str,".toList
  | first :: _ =>
    (rangeMap first).flatMap fun kv =>
      if kv.1 = "BasicAuth".toList then
        "\n    basic_auth_username: &str,\n    basic_auth_password: &str,".toList
      else if kv.1 = "HttpKeyAuth".toList then "\n    bearer_token: &str,".toList
      else []

/-- The value bound to `authentication` (lines 259-278). -/
def authValue (op : Operation) : List Char :=
  match op.Security with
  | [] => "\n    Authentication::Bearer \x7b\n\ttoken: bearer_token.to_owned()\n    \x7d;".toList
  | first :: _ =>
    (rangeMap first).flatMap fun kv =>
      if kv.1 = "BasicAuth".toList then
        "\nAuthentication::Basic \x7b\n\tusername: basic_auth_username.to_owned(),\n\tpassword: basic_auth_password.to_owned()\n    \x7d;".toList
      else if kv.1 = "HttpKeyAuth".toList then
        "\n    Authentication::Bearer \x7b\n\ttoken: bearer_token.to_owned()\n    \x7d;".toList
      else []

/-- A statement `urlpath = urlpath.replace("placeholder", arg);`. -/
structure PathStmt where
  placeholder : List Char
  arg : List Char
  deriving DecidableEq

/-- The text the template writes for a replacement (line 226). -/
def PathStmt.text (s : PathStmt) : List Char :=
  "\n    urlpath = urlpath.replace(\"".toList ++ s.placeholder ++ "\",".toList ++ " ".toList ++ s.arg
    ++ ");".toList

/-- The replacements of a builder (lines 223-228): one for each parameter whose
`In` is `path`; the placeholder is `print "{" $parameter.Name "}"`. -/
def pathStmts (u : UnicodeTables) (op : Operation) : List PathStmt :=
  op.Parameters.filterMap fun p =>
    if p.In = "path".toList then some ⟨"\x7b".toList ++ p.Name ++ "\x7d".toList, argName u p⟩ else none

/-- The blocks of the query assembly: `if let Some(param) = arg` around one
append with `key` in the format string (`debug` for the `{:?}` form), a `for`
loop over `arg` around one append, or the line the template writes for a
parameter type it does not handle.  `elem` is the element type the signature
declares for the slice `arg` (lines 191, 193); it is not part of the text of
the block. -/
inductive QueryStmt where
  | ifSome (arg key : List Char) (debug : Bool)
  | forElem (arg key elem : List Char)
  | error (shown : List Char)
  deriving DecidableEq

/-- The text the template writes for a block (lines 236-255). -/
def QueryStmt.text : QueryStmt → List Char
  | .ifSome arg key false =>
    "\nif let Some(param) = ".toList ++ arg ++ " \x7b\n    query_params.push_str(&format!(\"".toList ++ key
      ++ "=\x7b\x7d&\", param));\n\x7d".toList
  | .ifSome arg key true =>
    "\nif let Some(param) = ".toList ++ arg ++ " \x7b\n    query_params.push_str(&format!(\"".toList ++ key
      ++ "=\x7b:?\x7d&\", param));\n\x7d".toList
  | .forElem arg key _ =>
    "\nfor elem in ".toList ++ arg ++ "\n\x7b\n    query_params.push_str(&format!(\"".toList ++ key
      ++ "=\x7b:?\x7d&\", elem));\n\x7d".toList
  | .error shown => "\n".toList ++ shown ++ " // ERROR".toList

/-- The text of `{{ $parameter }}`: the decoded parameter as `fmt` prints a
struct, its fields in order between braces, separated by spaces. -/
def printParameter (p : Parameter) : List Char :=
  "\x7b".toList ++ p.Name ++ " ".toList ++ p.In ++ " ".toList
    ++ (if p.Required = true then "true".toList else "false".toList) ++ " ".toList ++ p.Type_
    ++ " \x7b".toList ++ p.Items.Type_ ++ "\x7d \x7b".toList ++ p.Schema.Type_ ++ " ".toList ++ p.Schema.Ref
    ++ "\x7d ".toList ++ p.Format ++ "\x7d".toList

/-- The element type the signature declares for an array parameter outside path
and body (lines 190-193): `String` for items of type `string`, else the items
type as it stands. -/
def elemType (p : Parameter) : List Char :=
  if p.Items.Type_ = "string".toList then "String".toList else p.Items.Type_

/-- The block written for one parameter, none unless its `In` is `query`
(lines 233-257). -/
def queryStmt (u : UnicodeTables) (p : Parameter) : Option QueryStmt :=
  if p.In = "query".toList then
    if p.Type_ = "integer".toList then some (.ifSome (argName u p) (argName u p) false)
    else if p.Type_ = "string".toList then some (.ifSome (argName u p) (argName u p) false)
    else if p.Type_ = "boolean".toList then some (.ifSome (argName u p) (argName u p) true)
    else if p.Type_ = "array".toList then
      some (.forElem (argName u p) (argName u p) (elemType p))
    else some (.error (printParameter p))
  else none

/-- The query assembly of a builder: the blocks of its parameters in order. -/
def queryStmts (u : UnicodeTables) (op : Operation) : List QueryStmt :=
  op.Parameters.filterMap (queryStmt u)

/-- The statements that bind `body_json`, and the layout between them. -/
inductive BodyStmt where
  | fromArg (ident : List Char)
  | blank
  | empty
  deriving DecidableEq

/-- The text the template writes for a body statement (lines 284-288). -/
def BodyStmt.text : BodyStmt → List Char
  | .fromArg ident => "\n    let body_json = ".toList ++ ident ++ ".to_string();".toList
  | .blank => "\n    ".toList
  | .empty => "\n    let body_json = String::new();".toList

/-- The body construction of a builder (lines 280-289): one binding from
`$parameter.Name` for each parameter whose `In` is `body`, and the empty string
when `$hasBody` stayed false. -/
def bodyStmts (op : Operation) : List BodyStmt :=
  (op.Parameters.filterMap fun p =>
      if p.In = "body".toList then some (BodyStmt.fromArg p.Name) else none)
    ++ [BodyStmt.blank]
    ++ (if (op.Parameters.any fun p => decide (p.In = "body".toList)) = false then
          [BodyStmt.empty]
        else [])

/-- The name of a builder (line 160):
`$operation.OperationId | stripOperationPrefix | camelCase | snakeCase`. -/
def operationName (u : UnicodeTables) (op : Operation) : Option (List Char) :=
  (snakeCaseToCamelCase u (stripOperationPrefix op.OperationId)).map (camelCaseToSnakeCase u)

/-- The text written up to the opening parenthesis of the signature
(lines 159-160). -/
def operationOpen (u : UnicodeTables) (op : Operation) : Emit :=
  match operationName u op with
  | some name =>
    .done ("\n/// ".toList ++ stripNewlines op.Summary ++ "\npub fn ".toList ++ name ++ "(".toList)
  | none => .stopped ("\n/// ".toList ++ stripNewlines op.Summary ++ "\npub fn ".toList)

/-- The end of the signature (lines 215-219). -/
def returnType (u : UnicodeTables) (op : Operation) : List Char :=
  if op.Responses.Ok.Schema.Ref ≠ [] then
    "\n) -> RestRequest<".toList ++ convertRefToClassName u op.Responses.Ok.Schema.Ref ++ "> \x7b".toList
  else "\n) -> RestRequest<()> \x7b".toList

/-- The initialisation of `urlpath` from the URL template (lines 220-221). -/
def urlpathInit (url : List Char) : List Char :=
  "\n    #[allow(unused_mut)]\n    let mut urlpath = \"".toList ++ url ++ "\".to_string();".toList

/-- The end of a builder (lines 291-301). -/
def operationClose (u : UnicodeTables) (method : List Char) : Emit :=
  match snakeCaseToPascalCase u method with
  | some variant =>
    .done ("\n\n    let method = Method::".toList ++ variant
      ++ ";\n\n    RestRequest \x7b\n       authentication,\n       urlpath,\n       query_params,\n       body: body_json,\n       method,\n       _marker: std::marker::PhantomData\n    \x7d\n\x7d".toList)
  | none => .stopped "\n\n    let method = Method::".toList

/-- The text written for one operation (lines 159-301). -/
def emitOperation (u : UnicodeTables) (url method : List Char) (op : Operation) : Emit :=
  (operationOpen u op).seq <|
    (Emit.done (authParams op)).seq <|
    (emitRange (paramDecl u) op.Parameters).seq <|
    (Emit.done (returnType u op ++ urlpathInit url
      ++ (pathStmts u op).flatMap PathStmt.text
      ++ "\n\n    #[allow(unused_mut)]\n    let mut query_params = String::new();".toList
      ++ (queryStmts u op).flatMap QueryStmt.text
      ++ "\n\n    let authentication =".toList ++ authValue op
      ++ (bodyStmts op).flatMap BodyStmt.text)).seq <|
    operationClose u method

/-- The text of the template before the first action (lines 28-64). -/
def banner : List Char :=
  "/* Code generated by codegen/main.go. DO NOT EDIT. */\n\nuse std::collections::HashMap;\n\nuse nanoserde::DeJson;\n\n\n#[derive(Debug, Clone)]\npub enum Authentication \x7b\n  Basic \x7b\n    username: String,\n    password: String\n  \x7d,\n  Bearer \x7b\n    token: String\n  \x7d\n\x7d\n\n#[derive(Debug, Clone, PartialEq, Copy)]\npub enum Method \x7b\n    Post, Get, Put, Delete\n\x7d\n\n#[derive(Debug, Clone)]\npub struct RestRequest<Response> \x7b\n  pub authentication: Authentication,\n  pub urlpath: String,\n  pub query_params: String,\n  pub body: String,\n  pub method: Method,\n  _marker: std::marker::PhantomData<Response>\n\x7d\n\ntrait ToRestString \x7b\n    fn to_string(&self) -> String;\n\x7d".toList

/-- The operations of one URL, by method: the inner `range $method, $operation`
of the template (lines 158-303). -/
def emitPath (u : UnicodeTables) (path : List Char × GoMap Operation) : Emit :=
  emitRange (fun mo => emitOperation u path.1 mo.1 mo.2) (rangeMap path.2)

/-- Executing `codeTemplate` on a schema (lines 28-305): the banner, the
definitions by name, the operations by URL and then by method, a final
newline. -/
def executeTemplate (u : UnicodeTables) (schema : Schema) : Emit :=
  (Emit.done banner).seq <|
    (emitRange (fun kv => emitDefinition u kv.1 kv.2) (rangeMap schema.Definitions)).seq <|
    (emitRange (emitPath u) (rangeMap schema.Paths)).seq <|
    Emit.done "\n".toList

/-- What `main` writes for a decoded schema (lines 495-515): the output of
`tmpl.Execute`, whose error result is not looked at. -/
def generate (u : UnicodeTables) (schema : Schema) : List Char :=
  (executeTemplate u schema).text

/-! ## What the emitted builder computes -/

/-- A run-time value by its two renderings: `{}` (Display) and `{:?}` (Debug). -/
structure Shown where
  display : List Char
  debug : List Char

/-- An argument passed to a builder: a plain value, an `Option` that is `None`
or `Some`, or a slice. -/
inductive Arg where
  | plain (v : Shown)
  | absent
  | present (v : Shown)
  | slice (vs : List Shown)

/-- The element types of a slice that Rust knows and can print: `String` and the
primitive types.  A slice declared with another element type, such as the
`&[integer]` that line 193 writes for items of type `integer`, is not accepted. -/
def sliceElemTypes : List (List Char) :=
  ["String".toList, "&str".toList, "bool".toList, "char".toList, "f32".toList, "f64".toList,
    "i8".toList, "i16".toList, "i32".toList, "i64".toList, "i128".toList, "isize".toList,
    "u8".toList, "u16".toList, "u32".toList, "u64".toList, "u128".toList, "usize".toList]

/-- What one block appends to `query_params`; `none` when the block is not
well-formed Rust for the given arguments, or loops over a slice whose declared
element type Rust does not know. -/
def QueryStmt.appended (args : List Char → Arg) : QueryStmt → Option (List Char)
  | .ifSome arg key debug =>
    if plainText key then
      match args arg with
      | .absent => some []
      | .present v =>
        some (key ++ "=".toList ++ (if debug = true then v.debug else v.display) ++ "&".toList)
      | _ => none
    else none
  | .forElem arg key elem =>
    if plainText key && sliceElemTypes.contains elem then
      match args arg with
      | .slice vs => some (vs.flatMap fun v => key ++ "=".toList ++ v.debug ++ "&".toList)
      | _ => none
    else none
  | .error _ => none

/-- Running the query assembly: `query_params` starts empty and each block
appends to it. -/
def runQuery (args : List Char → Arg) (stmts : List QueryStmt) : Option (List Char) :=
  stmts.foldlM (fun query s => (s.appended args).map fun t => query ++ t) []

/-- What one replacement makes of `urlpath`: every occurrence of the
placeholder replaced by the argument, a plain string. -/
def PathStmt.applied (args : List Char → Arg) (s : PathStmt) (urlpath : List Char) :
    Option (List Char) :=
  if plainLiteral s.placeholder && !s.placeholder.isEmpty then
    match args s.arg with
    | .plain v => some (replaceFrom s.placeholder v.display none 0 urlpath)
    | _ => none
  else none

/-- Running the path substitution from the URL template. -/
def runPath (args : List Char → Arg) (url : List Char) (stmts : List PathStmt) :
    Option (List Char) :=
  stmts.foldlM (fun urlpath s => s.applied args urlpath) url

/-! ## Reference texts of the serializer, and example schemas -/

/-- The scalar kinds of a property: string, integer, number, boolean. -/
def isScalarType (t : List Char) : Bool :=
  decide (t = "string".toList) || decide (t = "integer".toList)
    || decide (t = "number".toList) || decide (t = "boolean".toList)

/-- The pair the specification gives a scalar property: `"name": "value"` for a
string and `"name": value` otherwise, the value being the text of the field
declared for the property. -/
def scalarPair (u : UnicodeTables) (values : List Char → List Char)
    (kv : List Char × Property) : List Char :=
  "\"".toList ++ kv.1 ++ "\": ".toList
    ++ (if kv.2.Type_ = "string".toList then
          "\"".toList ++ values (camelCaseToSnakeCase u kv.1) ++ "\"".toList
        else values (camelCaseToSnakeCase u kv.1))

/-- The definition `Account` of scenario A: `display_name: string`,
`wins: integer`. -/
def accountDefinition : Definition :=
  { Properties :=
      [("wins".toList, { Type_ := "integer".toList }),
        ("display_name".toList, { Type_ := "string".toList })] }

/-- A definition with one array property: `ids: array of string`. -/
def idsDefinition : Definition :=
  { Properties := [("ids".toList, { Type_ := "array".toList, Items := { Type_ := "string".toList } })] }

/-- A definition with an array property followed by a scalar one. -/
def idsWinsDefinition : Definition :=
  { Properties :=
      [("ids".toList, { Type_ := "array".toList, Items := { Type_ := "string".toList } }),
        ("wins".toList, { Type_ := "integer".toList })] }

/-- A definition with one map property: `vars: map of string`. -/
def varsDefinition : Definition :=
  { Properties := [("vars".toList, labelsProperty)] }

/-- Field values for `Account`: `display_name` is `Ann`, `wins` is `3`. -/
def accountValues (field : List Char) : List Char :=
  if field = "wins".toList then "3".toList else "Ann".toList

/-- Field values for the array examples: `ids` holds `a` and `b`, any other
field shows as `3`. -/
def idsValues (field : List Char) : Value :=
  if field = "ids".toList then .list ["a".toList, "b".toList] else .shown "3".toList

/-- Field values for the map example: `vars` maps `a` to `b` and `c` to `d`. -/
def varsValues (_field : List Char) : Value :=
  .dict [("a".toList, "b".toList), ("c".toList, "d".toList)]


/-- The key a block puts before `=` in its format string; none for the line of
an unhandled type. -/
def QueryStmt.key : QueryStmt → Option (List Char)
  | .ifSome _ key _ => some key
  | .forElem _ key _ => some key
  | .error _ => none

/-- An optional query parameter `userId: string`. -/
def userIdOptional : Parameter :=
  { Name := "userId".toList, In := "query".toList, Type_ := "string".toList }

/-! ## Security schemes, block shapes and stopping conditions -/

/-- The two authentication schemes of the data model. -/
inductive Scheme where
  | basic
  | bearer
  deriving DecidableEq

/-- The scheme names of the first security requirement of an operation. -/
def schemeKeys (op : Operation) : List (List Char) :=
  match op.Security with
  | [] => []
  | first :: _ => first.map Prod.fst

/-- The scheme an operation selects.  Basic: its first security requirement
names `BasicAuth` (once) and not `HttpKeyAuth`.  Bearer: it declares no security
requirement, or the first one names `HttpKeyAuth` (once), the key the template
maps to the bearer token, and not `BasicAuth`. -/
def Operation.selects (op : Operation) : Scheme → Prop
  | .basic =>
    op.Security ≠ [] ∧ (schemeKeys op).count "BasicAuth".toList = 1
      ∧ "HttpKeyAuth".toList ∉ schemeKeys op
  | .bearer =>
    op.Security = [] ∨
      ((schemeKeys op).count "HttpKeyAuth".toList = 1 ∧ "BasicAuth".toList ∉ schemeKeys op)

/-- The authentication parameters of a scheme: username and password, or the
token. -/
def Scheme.params : Scheme → List Char
  | .basic => "\n    basic_auth_username: &str,\n    basic_auth_password: &str,".toList
  | .bearer => "\n    bearer_token: &str,".toList

/-- The `Authentication` value of a scheme, built from its parameters. -/
def Scheme.value : Scheme → List Char
  | .basic =>
    "\nAuthentication::Basic \x7b\n\tusername: basic_auth_username.to_owned(),\n\tpassword: basic_auth_password.to_owned()\n    \x7d;".toList
  | .bearer => "\n    Authentication::Bearer \x7b\n\ttoken: bearer_token.to_owned()\n    \x7d;".toList

/-- The block is an append block (not the line for an unhandled type). -/
def QueryStmt.isAppend : QueryStmt → Bool
  | .ifSome _ _ _ => true
  | .forElem _ _ _ => true
  | .error _ => false

/-- The query parameter kinds the template has an append block for. -/
def isQueryType (t : List Char) : Bool :=
  decide (t = "integer".toList) || decide (t = "string".toList)
    || decide (t = "boolean".toList) || decide (t = "array".toList)

/-- The struct field of the property stops template execution: a map whose value
type is found neither as the string in `AdditionalProperties` nor as integer,
number or boolean in `Items`. -/
def Property.stops (p : Property) : Bool :=
  decide (p.Type_ = "object".toList) && !decide (p.AdditionalProperties.Type_ = "string".toList)
    && !decide (p.Items.Type_ = "integer".toList) && !decide (p.Items.Type_ = "number".toList)
    && !decide (p.Items.Type_ = "boolean".toList)

/-- The declaration of the parameter stops template execution: an `object`
outside path and body. -/
def Parameter.stops (p : Parameter) : Bool :=
  !decide (p.In = "path".toList) && !decide (p.In = "body".toList)
    && !decide (p.Type_ = "array".toList) && decide (p.Type_ = "object".toList)

/-- The schema declares a definition of that name. -/
def Schema.declares (schema : Schema) (name : List Char) : Bool :=
  schema.Definitions.any fun kv => decide (kv.1 = name)

/-! ## Example parameters, operations and schemas -/

/-- A required query parameter `limit: integer`. -/
def limitRequired : Parameter :=
  { Name := "limit".toList, In := "query".toList, Required := true, Type_ := "integer".toList }

/-- An optional query parameter `ids: array of string`. -/
def idsOptional : Parameter :=
  { Name := "ids".toList, In := "query".toList, Type_ := "array".toList,
    Items := { Type_ := "string".toList } }

/-- An optional path parameter `id: string`. -/
def idOptional : Parameter :=
  { Name := "id".toList, In := "path".toList, Type_ := "string".toList }

/-- An operation with one query parameter `ratio: number`. -/
def ratioOperation : Operation :=
  { OperationId := "Nakama_ListRatios".toList,
    Parameters := [{ Name := "ratio".toList, In := "query".toList, Type_ := "number".toList }] }

/-- The operation of scenario C: optional query parameters `limit: integer` and
`cursor: string`. -/
def listOperation : Operation :=
  { OperationId := "Nakama_ListThings".toList,
    Parameters :=
      [{ Name := "limit".toList, In := "query".toList, Type_ := "integer".toList },
        { Name := "cursor".toList, In := "query".toList, Type_ := "string".toList }] }

/-- Arguments of scenario C: `limit` is present with the given value, every
other argument is absent. -/
def limitOnly (v : Shown) (arg : List Char) : Arg :=
  if arg = "limit".toList then .present v else .absent

/-- An operation with one optional query parameter `userId: string`. -/
def userIdOperation : Operation :=
  { OperationId := "Nakama_GetUser".toList,
    Parameters := [{ Name := "userId".toList, In := "query".toList, Type_ := "string".toList }] }

/-- Arguments in which every `Option` is `Some` of the value shown as `7`. -/
def allSeven (_arg : List Char) : Arg :=
  .present ⟨"7".toList, "7".toList⟩

/-- The operation of scenario B, `GET /v2/account/{id}`: one required path
parameter `id: string`, no security requirement. -/
def accountByIdOperation : Operation :=
  { OperationId := "Nakama_GetAccountById".toList,
    Parameters :=
      [{ Name := "id".toList, In := "path".toList, Required := true,
          Type_ := "string".toList }] }

/-- Arguments of scenario B: every argument is the plain value shown. -/
def allPlain (v : Shown) (_arg : List Char) : Arg :=
  .plain v

/-- An operation with one required body parameter `friendRequest`, a reference
to the definition `apiFriend`. -/
def friendOperation : Operation :=
  { OperationId := "Nakama_AddFriend".toList,
    Parameters :=
      [{ Name := "friendRequest".toList, In := "body".toList, Required := true,
          Schema := { Ref := "#/definitions/apiFriend".toList } }] }

/-- An operation that selects the Basic scheme. -/
def basicOperation : Operation :=
  { OperationId := "Nakama_AuthenticateCustom".toList,
    Security := [[("BasicAuth".toList, [])]] }

/-- A schema whose only definition, `Account`, has the property `owner`
referencing the definition `Missing`, which the schema does not declare. -/
def danglingSchema : Schema :=
  { Definitions :=
      [("Account".toList,
          { Properties := [("owner".toList, { Ref := "#/definitions/Missing".toList })] })] }

/-! ## Which emitted structs Rust accepts, and what their serializer returns -/

/-- The field names the emitted struct declares (lines 72-115), in the order
written. -/
def structFields (u : UnicodeTables) (d : Definition) : List (List Char) :=
  (rangeMap d.Properties).map fun kv => camelCaseToSnakeCase u kv.1

/-- The type names that have a meaning in the generated file before any
definition: the ones it declares or imports (lines 30-63) and those of the
standard prelude of Rust.  A struct of one of these names clashes with the
declaration or hides the name. -/
def generatedNames : List (List Char) :=
  ["Authentication".toList, "Method".toList, "RestRequest".toList, "ToRestString".toList,
    "HashMap".toList, "DeJson".toList, "String".toList, "ToString".toList, "Vec".toList,
    "Option".toList, "Some".toList, "None".toList, "Result".toList, "Ok".toList, "Err".toList,
    "Box".toList, "Copy".toList, "Send".toList, "Sized".toList, "Sync".toList, "Unpin".toList,
    "Drop".toList, "Fn".toList, "FnMut".toList, "FnOnce".toList, "ToOwned".toList,
    "Clone".toList, "PartialEq".toList, "PartialOrd".toList, "Eq".toList, "Ord".toList,
    "AsRef".toList, "AsMut".toList, "Into".toList, "From".toList, "TryInto".toList,
    "TryFrom".toList, "Default".toList, "Debug".toList, "Iterator".toList, "Extend".toList,
    "IntoIterator".toList, "FromIterator".toList, "DoubleEndedIterator".toList,
    "ExactSizeIterator".toList]

/-- The text can follow `///` on one line: after `stripNewlines` no line feed is
left, and Rust rejects a carriage return in a doc comment. -/
def docLine (s : List Char) : Bool :=
  !s.contains '\r'

/-- The model of what Rust accepts of the struct and the impl the template
writes for a definition with scalar fields: the description fits the doc
comment, the struct name is an identifier that has no meaning in the generated
file already, every field name is an identifier, and no two fields have the
same name.  The rest of the generated file is taken to be accepted. -/
def structAccepted (u : UnicodeTables) (defname : List Char) (d : Definition) : Bool :=
  docLine d.Description
    && isRustIdent (className u defname) && !generatedNames.contains (className u defname)
    && (structFields u d).all isRustIdent && decide (structFields u d).Nodup

/-- What `to_string` of the emitted impl returns on `self`: the statements run on
the fields of `self`; `none` when Rust does not accept the struct or one of the
statements. -/
def toStringResult (u : UnicodeTables) (defname : List Char) (d : Definition)
    (self : List Char → Value) : Option (List Char) :=
  if structAccepted u defname d then runSerializer self (serializerStmts u d) else none

/-- The Rust type of the field of a scalar property (lines 76-86). -/
def scalarRustType (t : List Char) : List Char :=
  if t = "integer".toList then "i32".toList
  else if t = "number".toList then "f32".toList
  else if t = "boolean".toList then "bool".toList
  else "String".toList

/-- The field the struct declares for a scalar property: `pub`, the snake form
of the name, the type, a comma. -/
def scalarFieldText (u : UnicodeTables) (kv : List Char × Property) : List Char :=
  "\n    pub ".toList ++ camelCaseToSnakeCase u kv.1 ++ ": ".toList ++ scalarRustType kv.2.Type_
    ++ ",".toList

/-- The statement that writes the pair of a scalar property: the name as the
key, and the field between quotes for a string (line 146), through
`to_string()` otherwise (line 148). -/
def scalarStmtText (u : UnicodeTables) (kv : List Char × Property) : List Char :=
  if kv.2.Type_ = "string".toList then
    "\n\toutput.push_str(&format!(\"\\\"".toList ++ kv.1 ++ "\\\": \\\"\x7b\x7d\\\"\", self.".toList
      ++ camelCaseToSnakeCase u kv.1 ++ "));".toList
  else
    "\n\toutput.push_str(&format!(\"\\\"".toList ++ kv.1 ++ "\\\": \x7b\x7d\", self.".toList
      ++ camelCaseToSnakeCase u kv.1 ++ ".to_string()));".toList

/-- The statements that write the pairs of scalar properties: the first pair
as it is, every later one after the statement that writes the comma. -/
def scalarStmtsText (u : UnicodeTables) : List (List Char × Property) → List Char
  | [] => []
  | kv :: rest =>
    "\n        ".toList ++ scalarStmtText u kv
      ++ rest.flatMap fun kv2 =>
          "\n        ".toList ++ "\n        output.push_str(\",\");".toList ++ scalarStmtText u kv2

/-- A definition with the single property `type: string`. -/
def typeDefinition : Definition :=
  { Properties := [("type".toList, { Type_ := "string".toList })] }

/-- A definition with the properties `userId: string` and `user_id: string`,
which have the same snake form. -/
def clashDefinition : Definition :=
  { Properties :=
      [("userId".toList, { Type_ := "string".toList }),
        ("user_id".toList, { Type_ := "string".toList })] }

/-! ## The query parameters with an append block Rust accepts -/

/-- The kinds of query parameter for which the template writes an append block
and declares the argument with a type Rust knows: integer, string, boolean, and
array of string. -/
def isQueryKind (p : Parameter) : Bool :=
  decide (p.Type_ = "integer".toList) || decide (p.Type_ = "string".toList)
    || decide (p.Type_ = "boolean".toList)
    || (decide (p.Type_ = "array".toList) && decide (p.Items.Type_ = "string".toList))

/-- The append block of a query parameter of such a kind: it reads the argument
the signature declares and writes the same text as the key; a scalar under
`if let Some` (a boolean in debug form), an array of string in a `for` loop. -/
def appendBlock (u : UnicodeTables) (p : Parameter) : QueryStmt :=
  if p.Type_ = "array".toList then .forElem (argName u p) (argName u p) "String".toList
  else .ifSome (argName u p) (argName u p) (decide (p.Type_ = "boolean".toList))

/-- The type the signature gives the argument of a query parameter of such a
kind (lines 189-210): a slice of `String` for an array of string, `Option` of
`i32`, `bool` or `&str` for a scalar. -/
def queryArgText (p : Parameter) : List Char :=
  if p.Type_ = "array".toList then "&[String]".toList
  else if p.Type_ = "integer".toList then "Option<i32>".toList
  else if p.Type_ = "boolean".toList then "Option<bool>".toList
  else "Option<&str>".toList

/-- The names of the authentication arguments of the signature (lines 161-174). -/
def authNames (op : Operation) : List (List Char) :=
  match op.Security with
  | [] => ["bearer_token".toList]
  | first :: _ =>
    (rangeMap first).flatMap fun kv =>
      if kv.1 = "BasicAuth".toList then
        ["basic_auth_username".toList, "basic_auth_password".toList]
      else if kv.1 = "HttpKeyAuth".toList then ["bearer_token".toList]
      else []

/-- The argument names of the signature, in the order declared (lines 161-213). -/
def argNames (u : UnicodeTables) (op : Operation) : List (List Char) :=
  authNames op ++ op.Parameters.map (argName u)

/-- The names the body of a builder binds with `let` (lines 221-291): an argument
of one of these names is hidden by the binding. -/
def localNames : List (List Char) :=
  ["urlpath".toList, "query_params".toList, "authentication".toList, "body_json".toList,
    "method".toList]

/-- Rust accepts the argument names of the builder, and the body leaves them
visible: every name is an identifier, none is bound again in the body, and no two
arguments have the same name.  Some builders that Rust accepts are left out (an
argument hidden only after its last use). -/
def argsAccepted (u : UnicodeTables) (op : Operation) : Bool :=
  (argNames u op).all (fun n => isRustIdent n && !localNames.contains n)
    && decide (argNames u op).Nodup

/-- The first security requirement of the operation, if any, names exactly one of
the two schemes the template knows, so that `authentication` is bound to one
value (lines 259-278). -/
def schemeSelected (op : Operation) : Bool :=
  match op.Security with
  | [] => true
  | first :: _ =>
    ((first.map Prod.fst).filter fun k =>
        decide (k = "BasicAuth".toList) || decide (k = "HttpKeyAuth".toList)).length == 1

/-- The declaration and the use of one parameter are accepted.  A path parameter
is a required string (`urlpath.replace` takes a `&str`); a body parameter is
required, keeps its name in snake form (line 284 uses the name as it stands), and
is a string or a struct among the `declared` ones; any other parameter is of a
kind the template declares with a type Rust knows. -/
def paramAccepted (u : UnicodeTables) (declared : List (List Char)) (p : Parameter) : Bool :=
  if p.In = "path".toList then decide (p.Type_ = "string".toList) && p.Required
  else if p.In = "body".toList then
    p.Required && decide (argName u p = p.Name)
      && (decide (p.Schema.Type_ = "string".toList)
          || declared.contains (convertRefToClassName u p.Schema.Ref))
  else isQueryKind p

/-- The model of what Rust accepts of the builder the template writes for an
operation under `url` and `method`, in a generated file that declares the
structs `declared`: the summary fits the doc comment, the builder name is an
identifier, the URL stands for itself in a string literal, the method is a
variant of the `Method` enum, the response type is `()` or a declared struct,
one scheme is selected, the argument names are accepted and so is every
parameter.  The rest of the generated file is taken to be accepted. -/
def builderAccepted (u : UnicodeTables) (declared : List (List Char)) (url method : List Char)
    (op : Operation) : Bool :=
  docLine op.Summary
    && (match operationName u op with
        | some name => isRustIdent name
        | none => false)
    && plainLiteral url
    && (match snakeCaseToPascalCase u method with
        | some variant => methodVariants.contains variant
        | none => false)
    && (decide (op.Responses.Ok.Schema.Ref = [])
        || declared.contains (convertRefToClassName u op.Responses.Ok.Schema.Ref))
    && schemeSelected op
    && argsAccepted u op
    && op.Parameters.all (paramAccepted u declared)

/-- The query string the emitted builder assembles when called with `args`: the
blocks run in order; `none` when the builder is not accepted or a block is not
well-formed Rust for the arguments. -/
def queryResult (u : UnicodeTables) (declared : List (List Char)) (url method : List Char)
    (op : Operation) (args : List Char → Arg) : Option (List Char) :=
  if builderAccepted u declared url method op then runQuery args (queryStmts u op) else none

/-- An operation with one optional query parameter `type: string`. -/
def typeOperation : Operation :=
  { OperationId := "Nakama_ListByType".toList,
    Parameters := [{ Name := "type".toList, In := "query".toList, Type_ := "string".toList }] }

/-- An optional query parameter `ids: array of integer`. -/
def idsInteger : Parameter :=
  { Name := "ids".toList, In := "query".toList, Type_ := "array".toList,
    Items := { Type_ := "integer".toList } }

/-- An operation whose only parameter is the query parameter
`ids: array of integer`. -/
def idsIntegerOperation : Operation :=
  { OperationId := "Nakama_ListByIds".toList, Parameters := [idsInteger] }

/-- Arguments in which every slice holds the single value shown as `1`. -/
def allOnes (_arg : List Char) : Arg :=
  .slice [⟨"1".toList, "1".toList⟩]
end Codegen

namespace Codegen

/-! ## ASCII and Latin-1 facts, by enumeration -/

theorem forall_ascii (P : Char → Prop) (h : ∀ n : Fin 128, P (Char.ofNat n)) :
    ∀ c : Char, c.toNat < 128 → P c := by
  intro c hc
  have := h ⟨c.toNat, hc⟩
  simpa using this

theorem unicodeToUpper_ascii (u : UnicodeTables) (c : Char) (h : c.toNat < 128) :
    unicodeToUpper u c = asciiUpper c := by
  have h2 : c.toNat ≤ 0x7F := by omega
  simp [unicodeToUpper, asciiUpper, h2]

theorem unicodeToLower_ascii (u : UnicodeTables) (c : Char) (h : c.toNat < 128) :
    unicodeToLower u c = asciiLower c := by
  have h2 : c.toNat ≤ 0x7F := by omega
  simp [unicodeToLower, asciiLower, h2]

theorem unicodeToUpper_byte (u : UnicodeTables) (c : Char) (h : c.toNat < 256) :
    unicodeToUpper u c = byteUpper c := by
  have h2 : c.toNat ≤ 0xFF := by omega
  unfold unicodeToUpper byteUpper asciiUpper
  split <;> simp [h2]

theorem unicodeToLower_byte (u : UnicodeTables) (c : Char) (h : c.toNat < 256) :
    unicodeToLower u c = byteLower c := by
  have h2 : c.toNat ≤ 0xFF := by omega
  unfold unicodeToLower byteLower asciiLower
  split <;> simp [h2]

set_option maxRecDepth 100000 in
theorem ascii_lower_facts : ∀ c : Char, c.toNat < 128 → isLowerLetter c = true →
    (asciiUpper c ≠ c ∧ asciiLower c = c ∧ asciiLower (asciiUpper c) = c ∧
      isUpperLetter (asciiUpper c) = true ∧ c ≠ '_' ∧ (asciiUpper c).toNat < 128 ∧
      asciiUpper (asciiUpper c) = asciiUpper c ∧ asciiUpper c ≠ '_') := by
  apply forall_ascii
  decide

set_option maxRecDepth 100000 in
theorem ascii_other_facts : ∀ c : Char, c.toNat < 128 → isLowerLetter c = false →
    (asciiUpper c = c ∧ asciiUpper (asciiLower c) = c ∧ (asciiLower c).toNat < 128) := by
  apply forall_ascii
  decide

theorem isIdentChar_ascii (c : Char) (h : isIdentChar c = true) : c.toNat < 128 := by
  simp only [isIdentChar, isLowerLetter, isUpperLetter, isDigitChar, Bool.or_eq_true,
    decide_eq_true_eq, beq_iff_eq] at h
  rcases h with ((h | h) | h) | h
  · omega
  · omega
  · omega
  · subst h; decide

theorem isLowerLetter_ident (c : Char) (h : isLowerLetter c = true) : isIdentChar c = true := by
  simp [isIdentChar, h]

/-! ## The loops in closed form -/

theorem char_toNat_lt (c : Char) : c.toNat < 0x110000 := by
  have h := c.valid
  simp only [UInt32.isValidChar, Nat.isValidChar] at h
  have : c.toNat = c.val.toNat := rfl
  omega

theorem utf8Bytes_length_pos (c : Char) : 0 < (utf8Bytes c).length := by
  unfold utf8Bytes
  split
  · simp
  · split
    · simp
    · split <;> simp

theorem index_zero_cons (c : Char) (rest : List Char) :
    index (c :: rest) 0 = some (firstByte c) := by
  have h := utf8Bytes_length_pos c
  unfold index goBytes firstByte
  rw [List.flatMap_cons]
  cases hb : utf8Bytes c with
  | nil => rw [hb] at h; simp at h
  | cons b bs => simp

theorem firstByte_lt (c : Char) : firstByte c < 256 := by
  have h := char_toNat_lt c
  unfold firstByte utf8Bytes
  split
  · simp; omega
  · split
    · simp; omega
    · split
      · simp; omega
      · simp; omega

theorem firstByte_ascii (c : Char) (h : c.toNat < 128) : Char.ofNat (firstByte c) = c := by
  unfold firstByte utf8Bytes
  simp [h]

theorem camel_loop (u : UnicodeTables) (input : List Char) :
    ∀ (l : List Char) (k : Nat) (acc : List Char) (b : Bool), 0 < k →
      ((rangeFrom k l).foldlM (camelCaseBody u input) (acc, b)).map Prod.fst
        = some (acc ++ camelTail u b l) := by
  intro l
  induction l with
  | nil => intro k acc b _; simp [rangeFrom, camelTail]
  | cons v rest ih =>
    intro k acc b hk
    have hk0 : k ≠ 0 := by omega
    have hk2 : 0 < k + (utf8Bytes v).length := by omega
    cases b with
    | true =>
      simp only [rangeFrom, List.foldlM_cons, camelCaseBody, hk0, if_false, if_true,
        Option.some_bind, Option.bind_eq_bind]
      rw [ih _ _ _ hk2]
      simp [camelTail, stringsToUpper]
    | false =>
      by_cases hv : v = '_'
      · subst hv
        simp only [rangeFrom, List.foldlM_cons, camelCaseBody, hk0, if_false, if_true,
          Option.some_bind, Option.bind_eq_bind, Bool.false_eq_true]
        rw [ih _ _ _ hk2]
        simp [camelTail]
      · simp only [rangeFrom, List.foldlM_cons, camelCaseBody, hk0, hv, if_false,
          Option.some_bind, Option.bind_eq_bind, Bool.false_eq_true]
        rw [ih _ _ _ hk2]
        simp [camelTail, hv]

theorem pascal_loop (u : UnicodeTables) (input : List Char) :
    ∀ (l : List Char) (k : Nat) (acc : List Char) (b : Bool), 0 < k →
      ((rangeFrom k l).foldlM (pascalCaseBody u input) (acc, b)).map Prod.fst
        = some (acc ++ camelTail u b l) := by
  intro l
  induction l with
  | nil => intro k acc b _; simp [rangeFrom, camelTail]
  | cons v rest ih =>
    intro k acc b hk
    have hk0 : k ≠ 0 := by omega
    have hk2 : 0 < k + (utf8Bytes v).length := by omega
    cases b with
    | true =>
      simp only [rangeFrom, List.foldlM_cons, pascalCaseBody, hk0, if_false, if_true,
        Option.some_bind, Option.bind_eq_bind]
      rw [ih _ _ _ hk2]
      simp [camelTail, stringsToUpper]
    | false =>
      by_cases hv : v = '_'
      · subst hv
        simp only [rangeFrom, List.foldlM_cons, pascalCaseBody, hk0, if_false, if_true,
          Option.some_bind, Option.bind_eq_bind, Bool.false_eq_true]
        rw [ih _ _ _ hk2]
        simp [camelTail]
      · simp only [rangeFrom, List.foldlM_cons, pascalCaseBody, hk0, hv, if_false,
          Option.some_bind, Option.bind_eq_bind, Bool.false_eq_true]
        rw [ih _ _ _ hk2]
        simp [camelTail, hv]

theorem snakeCaseToCamelCase_nil (u : UnicodeTables) : snakeCaseToCamelCase u [] = some [] := by
  simp [snakeCaseToCamelCase, range, rangeFrom]

theorem snakeCaseToPascalCase_nil (u : UnicodeTables) :
    snakeCaseToPascalCase u [] = some [] := by
  simp [snakeCaseToPascalCase, range, rangeFrom]

theorem snakeCaseToCamelCase_cons (u : UnicodeTables) (c : Char) (rest : List Char) :
    snakeCaseToCamelCase u (c :: rest)
      = some (unicodeToLower u (Char.ofNat (firstByte c)) :: camelTail u false rest) := by
  have hk : 0 < 0 + (utf8Bytes c).length := by
    have := utf8Bytes_length_pos c
    omega
  unfold snakeCaseToCamelCase range
  simp only [rangeFrom, List.foldlM_cons, camelCaseBody, if_true, index_zero_cons,
    Option.map_some', Option.some_bind, Option.bind_eq_bind]
  rw [camel_loop u (c :: rest) rest _ _ _ hk]
  simp [stringsToLower, byteToString]

theorem snakeCaseToPascalCase_cons (u : UnicodeTables) (c : Char) (rest : List Char) :
    snakeCaseToPascalCase u (c :: rest)
      = some (unicodeToUpper u (Char.ofNat (firstByte c)) :: camelTail u false rest) := by
  have hk : 0 < 0 + (utf8Bytes c).length := by
    have := utf8Bytes_length_pos c
    omega
  unfold snakeCaseToPascalCase range
  simp only [rangeFrom, List.foldlM_cons, pascalCaseBody, if_true, index_zero_cons,
    Option.map_some', Option.some_bind, Option.bind_eq_bind]
  rw [pascal_loop u (c :: rest) rest _ _ _ hk]
  simp [stringsToUpper, byteToString]

theorem snake_loop (u : UnicodeTables) :
    ∀ (l acc : List Char),
      l.foldl
        (fun output v =>
          if [v] = stringsToUpper u [v] then output ++ ("_".toList ++ stringsToLower u [v])
          else output ++ [v])
        acc = acc ++ snakeExpand u l := by
  intro l
  induction l with
  | nil => intro acc; simp [snakeExpand]
  | cons v rest ih =>
    intro acc
    rw [List.foldl_cons, ih]
    by_cases hv : unicodeToUpper u v = v
    · have hv2 : v = unicodeToUpper u v := hv.symm
      simp [snakeExpand, snakeRune, stringsToUpper, stringsToLower, hv, ← hv2]
    · have hv2 : ¬ v = unicodeToUpper u v := fun h => hv h.symm
      simp [snakeExpand, snakeRune, stringsToUpper, stringsToLower, hv, hv2]

theorem isSnakeCase_loop (u : UnicodeTables) :
    ∀ (l : List Char) (acc : Bool),
      l.foldl
        (fun output v =>
          if [v] ≠ "_".toList ∧ stringsToUpper u [v] = [v] then false else output)
        acc = (acc && l.all fun v => v == '_' || unicodeToUpper u v != v) := by
  intro l
  induction l with
  | nil => intro acc; simp
  | cons v rest ih =>
    intro acc
    rw [List.foldl_cons, ih]
    by_cases h1 : v = '_'
    · simp [h1]
    · by_cases h2 : unicodeToUpper u v = v
      · simp [h1, h2, stringsToUpper]
      · have h3 : (unicodeToUpper u v != v) = true := bne_iff_ne.mpr h2
        simp [h1, h2, h3, stringsToUpper]

theorem isSnakeCase_eq (u : UnicodeTables) (s : List Char) :
    isSnakeCase u s = s.all fun v => v == '_' || unicodeToUpper u v != v := by
  unfold isSnakeCase
  rw [isSnakeCase_loop]
  simp

theorem camelCaseToSnakeCase_eq (u : UnicodeTables) (s : List Char) :
    camelCaseToSnakeCase u s = if isSnakeCase u s then s else snakeExpand u s := by
  unfold camelCaseToSnakeCase
  rw [snake_loop]
  simp

/-! ## Round trips between the normalisers -/

theorem snakeRune_lower (u : UnicodeTables) (c : Char) (h : isLowerLetter c = true) :
    snakeRune u c = [c] := by
  have ha := isIdentChar_ascii c (isLowerLetter_ident c h)
  have hf := ascii_lower_facts c ha h
  simp [snakeRune, unicodeToUpper_ascii u c ha, hf.1]

theorem snakeRune_other (u : UnicodeTables) (c : Char) (hc : isIdentChar c = true)
    (h : isLowerLetter c = false) : snakeRune u c = ['_', asciiLower c] := by
  have ha := isIdentChar_ascii c hc
  have hf := ascii_other_facts c ha h
  simp [snakeRune, unicodeToUpper_ascii u c ha, unicodeToLower_ascii u c ha, hf.1]

theorem snakeExpand_cons (u : UnicodeTables) (c : Char) (rest : List Char) :
    snakeExpand u (c :: rest) = snakeRune u c ++ snakeExpand u rest := by
  simp [snakeExpand]

theorem snakeCond_ident (u : UnicodeTables) (c : Char) (hc : isIdentChar c = true) :
    (c == '_' || unicodeToUpper u c != c) = (isLowerLetter c || c == '_') := by
  have ha := isIdentChar_ascii c hc
  rw [unicodeToUpper_ascii u c ha]
  cases h : isLowerLetter c with
  | true =>
    have hf := ascii_lower_facts c ha h
    have h3 : (asciiUpper c != c) = true := bne_iff_ne.mpr hf.1
    simp [h3]
  | false =>
    have hf := ascii_other_facts c ha h
    simp [hf.1]

/-- Expanding and then re-joining gives the characters back. -/
theorem camelTail_snakeExpand (u : UnicodeTables) :
    ∀ rest : List Char, rest.all isIdentChar = true →
      camelTail u false (snakeExpand u rest) = rest := by
  intro rest
  induction rest with
  | nil => intro _; simp [snakeExpand, camelTail]
  | cons c rest ih =>
    intro h
    rw [List.all_cons, Bool.and_eq_true] at h
    have ha := isIdentChar_ascii c h.1
    rw [snakeExpand_cons]
    cases hl : isLowerLetter c with
    | true =>
      have hf := ascii_lower_facts c ha hl
      rw [snakeRune_lower u c hl]
      simp [camelTail, hf.2.2.2.2.1, ih h.2]
    | false =>
      have hf := ascii_other_facts c ha hl
      rw [snakeRune_other u c h.1 hl]
      simp [camelTail, unicodeToUpper_ascii u _ hf.2.2, hf.2.1, ih h.2]

theorem camel_of_snakeExpand (u : UnicodeTables) (a : Char) (rest : List Char)
    (ha : isLowerLetter a = true) (hr : rest.all isIdentChar = true) :
    snakeCaseToCamelCase u (snakeExpand u (a :: rest)) = some (a :: rest) := by
  have hasc := isIdentChar_ascii a (isLowerLetter_ident a ha)
  have hf := ascii_lower_facts a hasc ha
  rw [snakeExpand_cons, snakeRune_lower u a ha]
  simp only [List.singleton_append]
  rw [snakeCaseToCamelCase_cons, firstByte_ascii a hasc, unicodeToLower_ascii u a hasc, hf.2.1,
    camelTail_snakeExpand u rest hr]

theorem camelTail_no_underscore (u : UnicodeTables) :
    ∀ l : List Char, (∀ c ∈ l, c ≠ '_') → camelTail u false l = l := by
  intro l
  induction l with
  | nil => intro _; simp [camelTail]
  | cons c rest ih =>
    intro h
    have hc : c ≠ '_' := h c (List.mem_cons_self _ _)
    have hr : ∀ d ∈ rest, d ≠ '_' := fun d hd => h d (List.mem_cons_of_mem _ hd)
    simp [camelTail, hc, ih hr]

theorem snakeRuns_cons_lower (a : Char) (rest : List Char) (ha : isLowerLetter a = true) :
    snakeRuns (a :: rest) = snakeRuns rest := by
  cases rest with
  | nil => simp [snakeRuns, ha]
  | cons d rest => simp [snakeRuns, ha]

theorem upper_of_lower (u : UnicodeTables) (d : Char) (hd : isLowerLetter d = true) :
    unicodeToUpper u d = asciiUpper d ∧ snakeRune u (asciiUpper d) = ['_', d] ∧
      asciiUpper d ≠ '_' ∧
      (asciiUpper d == '_' || unicodeToUpper u (asciiUpper d) != asciiUpper d) = false := by
  have hasc := isIdentChar_ascii d (isLowerLetter_ident d hd)
  have hf := ascii_lower_facts d hasc hd
  have hup := unicodeToUpper_ascii u (asciiUpper d) hf.2.2.2.2.2.1
  have hlo := unicodeToLower_ascii u (asciiUpper d) hf.2.2.2.2.2.1
  refine ⟨unicodeToUpper_ascii u d hasc, ?_, hf.2.2.2.2.2.2.2, ?_⟩
  · simp [snakeRune, hup, hlo, hf.2.2.2.2.2.2.1, hf.2.2.1]
  · simp [hup, hf.2.2.2.2.2.2.1, hf.2.2.2.2.2.2.2]

/-- Joining a snake_case tail and expanding it again gives the tail back. -/
theorem snakeExpand_camelTail (u : UnicodeTables) :
    ∀ l : List Char, snakeRuns l = true → snakeExpand u (camelTail u false l) = l := by
  intro l
  induction l using snakeRuns.induct with
  | case1 => intro _; simp [camelTail, snakeExpand]
  | case2 c =>
    intro h
    simp only [snakeRuns] at h
    have hf := ascii_lower_facts c (isIdentChar_ascii c (isLowerLetter_ident c h)) h
    simp [camelTail, hf.2.2.2.2.1, snakeExpand_cons, snakeRune_lower u c h, snakeExpand]
  | case3 c d rest hc ih =>
    intro h
    simp only [snakeRuns, hc, if_true] at h
    have hf := ascii_lower_facts c (isIdentChar_ascii c (isLowerLetter_ident c hc)) hc
    have hne : c ≠ '_' := hf.2.2.2.2.1
    rw [camelTail]
    simp only [hne, if_false]
    rw [snakeExpand_cons, snakeRune_lower u c hc, ih h]
    simp
  | case4 c d rest hc ih =>
    intro h
    simp only [snakeRuns, hc, Bool.false_eq_true, if_false, Bool.and_eq_true, beq_iff_eq] at h
    obtain ⟨⟨h1, h2⟩, h3⟩ := h
    subst h1
    have hu := upper_of_lower u d h2
    rw [camelTail]
    simp only [if_true]
    rw [camelTail, hu.1, snakeExpand_cons, hu.2.1, ih h3]
    simp

/-- A joined snake_case tail that still passes `isSnakeCase` had no underscore. -/
theorem camelTail_fixed (u : UnicodeTables) :
    ∀ l : List Char, snakeRuns l = true →
      (camelTail u false l).all (fun v => v == '_' || unicodeToUpper u v != v) = true →
      camelTail u false l = l := by
  intro l
  induction l using snakeRuns.induct with
  | case1 => intro _ _; simp [camelTail]
  | case2 c =>
    intro h _
    simp only [snakeRuns] at h
    have hf := ascii_lower_facts c (isIdentChar_ascii c (isLowerLetter_ident c h)) h
    simp [camelTail, hf.2.2.2.2.1]
  | case3 c d rest hc ih =>
    intro h hall
    simp only [snakeRuns, hc, if_true] at h
    have hf := ascii_lower_facts c (isIdentChar_ascii c (isLowerLetter_ident c hc)) hc
    have hne : c ≠ '_' := hf.2.2.2.2.1
    rw [camelTail] at hall ⊢
    simp only [hne, if_false] at hall ⊢
    rw [List.all_cons, Bool.and_eq_true] at hall
    rw [ih h hall.2]
  | case4 c d rest hc ih =>
    intro h hall
    simp only [snakeRuns, hc, Bool.false_eq_true, if_false, Bool.and_eq_true, beq_iff_eq] at h
    obtain ⟨⟨h1, h2⟩, _⟩ := h
    subst h1
    have hu := upper_of_lower u d h2
    rw [camelTail] at hall
    simp only [if_true] at hall
    rw [camelTail, hu.1, List.all_cons, Bool.and_eq_true, hu.2.2.2] at hall
    exact absurd hall.1 (by simp)

/-- The snake form of a joined snake_case identifier is the identifier. -/
theorem snake_of_camelTail (u : UnicodeTables) (a : Char) (rest : List Char)
    (ha : isLowerLetter a = true) (hr : snakeRuns rest = true) :
    camelCaseToSnakeCase u (a :: camelTail u false rest) = a :: rest := by
  rw [camelCaseToSnakeCase_eq]
  split
  · rename_i hs
    rw [isSnakeCase_eq, List.all_cons, Bool.and_eq_true] at hs
    rw [camelTail_fixed u rest hr hs.2]
  · rw [snakeExpand_cons, snakeRune_lower u a ha, snakeExpand_camelTail u rest hr]
    simp

theorem camel_of_snakeIdent (u : UnicodeTables) (a : Char) (rest : List Char)
    (ha : isLowerLetter a = true) :
    snakeCaseToCamelCase u (a :: rest) = some (a :: camelTail u false rest) := by
  have hasc := isIdentChar_ascii a (isLowerLetter_ident a ha)
  have hf := ascii_lower_facts a hasc ha
  rw [snakeCaseToCamelCase_cons, firstByte_ascii a hasc, unicodeToLower_ascii u a hasc, hf.2.1]

theorem underscoresFollowed_tail (d : Char) (rest : List Char)
    (h : underscoresFollowed (d :: rest) = true) : underscoresFollowed rest = true := by
  cases rest with
  | nil => simp [underscoresFollowed]
  | cons e rest =>
    simp only [underscoresFollowed, Bool.and_eq_true] at h
    exact h.2

theorem snakeRuns_of_followed :
    ∀ l : List Char, l.all (fun c => isLowerLetter c || c == '_') = true →
      underscoresFollowed l = true → snakeRuns l = true := by
  intro l
  induction l using snakeRuns.induct with
  | case1 => intro _ _; simp [snakeRuns]
  | case2 c =>
    intro hall hf
    simp only [underscoresFollowed, bne_iff_ne, ne_eq] at hf
    simp only [List.all_cons, List.all_nil, Bool.and_true, Bool.or_eq_true, beq_iff_eq] at hall
    rcases hall with h | h
    · simpa [snakeRuns] using h
    · exact absurd h hf
  | case3 c d rest hc ih =>
    intro hall hf
    rw [List.all_cons, Bool.and_eq_true] at hall
    simp only [underscoresFollowed, Bool.and_eq_true] at hf
    simp only [snakeRuns, hc, if_true]
    exact ih hall.2 hf.2
  | case4 c d rest hc ih =>
    intro hall hf
    have hc2 : isLowerLetter c = false := by simpa using hc
    simp only [List.all_cons, Bool.and_eq_true, Bool.or_eq_true, beq_iff_eq, hc2,
      Bool.false_eq_true, false_or] at hall
    obtain ⟨h1, h2, h3⟩ := hall
    subst h1
    simp only [underscoresFollowed, Bool.and_eq_true, Bool.or_eq_true, bne_iff_ne, ne_eq,
      not_true_eq_false, false_or] at hf
    have hd : isLowerLetter d = true := by
      rcases h2 with h | h
      · exact h
      · subst h
        exact absurd hf.1 (by decide)
    have hrest := ih (by simpa using h3) (underscoresFollowed_tail d rest hf.2)
    simp only [snakeRuns, hc2, Bool.false_eq_true, if_false, hd, hrest, beq_self_eq_true,
      Bool.and_self]

theorem camelTail_mem_ne (u : UnicodeTables) :
    ∀ l : List Char, snakeRuns l = true → ∀ c ∈ camelTail u false l, c ≠ '_' := by
  intro l
  induction l using snakeRuns.induct with
  | case1 => intro _ c hc; simp [camelTail] at hc
  | case2 c =>
    intro h x hx
    simp only [snakeRuns] at h
    have hf := ascii_lower_facts c (isIdentChar_ascii c (isLowerLetter_ident c h)) h
    simp only [camelTail, hf.2.2.2.2.1, if_false, List.mem_singleton] at hx
    rw [hx]
    exact hf.2.2.2.2.1
  | case3 c d rest hc ih =>
    intro h x hx
    simp only [snakeRuns, hc, if_true] at h
    have hf := ascii_lower_facts c (isIdentChar_ascii c (isLowerLetter_ident c hc)) hc
    have hne : c ≠ '_' := hf.2.2.2.2.1
    rw [camelTail] at hx
    simp only [hne, if_false, List.mem_cons] at hx
    rcases hx with hx | hx
    · rw [hx]; exact hne
    · exact ih h x hx
  | case4 c d rest hc ih =>
    intro h x hx
    simp only [snakeRuns, hc, Bool.false_eq_true, if_false, Bool.and_eq_true, beq_iff_eq] at h
    obtain ⟨⟨h1, h2⟩, h3⟩ := h
    subst h1
    have hu := upper_of_lower u d h2
    rw [camelTail] at hx
    simp only [if_true] at hx
    rw [camelTail, hu.1, List.mem_cons] at hx
    rcases hx with hx | hx
    · rw [hx]; exact hu.2.2.1
    · exact ih h3 x hx

set_option maxRecDepth 100000 in
theorem ascii_capital_digit_facts : ∀ c : Char, c.toNat < 128 →
    (isUpperLetter c || isDigitChar c) = true → (isLowerLetter c || c == '_') = false := by
  apply forall_ascii
  decide

theorem followed_of_snake (s : List Char) (hs : s.all isIdentChar = true)
    (hall : s.all (fun c => isLowerLetter c || c == '_') = true)
    (h : (s.any (fun c => isUpperLetter c || isDigitChar c) || underscoresFollowed s) = true) :
    underscoresFollowed s = true := by
  rw [Bool.or_eq_true] at h
  rcases h with h | h
  · rw [List.any_eq_true] at h
    obtain ⟨x, hx, hx2⟩ := h
    have h1 := (List.all_eq_true.mp hall) x hx
    have h2 := ascii_capital_digit_facts x
      (isIdentChar_ascii x ((List.all_eq_true.mp hs) x hx)) hx2
    rw [h2] at h1
    exact absurd h1 (by decide)
  · exact h

/-! ## The properties of the identifier normaliser -/

/-- C1 (as amended): for every identifier made only of ASCII letters, digits and
underscores that begins with a lower-case letter and that contains an upper-case
letter or a digit, or else has every underscore followed by a letter,
converting to snake case, to camel case and to snake case again gives the same
string as converting to snake case once. -/
theorem snake_camel_snake (u : UnicodeTables) (s : List Char)
    (hs : s.all isIdentChar = true) (h1 : startsLower s = true)
    (h2 : (s.any (fun c => isUpperLetter c || isDigitChar c) || underscoresFollowed s) = true) :
    (snakeCaseToCamelCase u (camelCaseToSnakeCase u s)).map (camelCaseToSnakeCase u)
      = some (camelCaseToSnakeCase u s) := by
  cases s with
  | nil => simp [startsLower] at h1
  | cons a rest =>
    have ha : isLowerLetter a = true := h1
    have hs0 := hs
    rw [List.all_cons, Bool.and_eq_true] at hs
    by_cases hsn : isSnakeCase u (a :: rest) = true
    · have hsnake : camelCaseToSnakeCase u (a :: rest) = a :: rest := by
        rw [camelCaseToSnakeCase_eq, if_pos hsn]
      have hall : (a :: rest).all (fun c => isLowerLetter c || c == '_') = true := by
        rw [isSnakeCase_eq, List.all_eq_true] at hsn
        rw [List.all_eq_true]
        intro x hx
        have hid : isIdentChar x = true := by
          rcases List.mem_cons.mp hx with h | h
          · rw [h]; exact isLowerLetter_ident a ha
          · exact (List.all_eq_true.mp hs.2) x h
        rw [← snakeCond_ident u x hid]
        exact hsn x hx
      have hruns : snakeRuns rest = true := by
        rw [← snakeRuns_cons_lower a rest ha]
        exact snakeRuns_of_followed _ hall (followed_of_snake _ hs0 hall h2)
      rw [hsnake, camel_of_snakeIdent u a rest ha, Option.map_some',
        snake_of_camelTail u a rest ha hruns]
    · have hsnake : camelCaseToSnakeCase u (a :: rest) = snakeExpand u (a :: rest) := by
        rw [camelCaseToSnakeCase_eq, if_neg hsn]
      rw [hsnake, camel_of_snakeExpand u a rest ha hs.2, Option.map_some', hsnake]

/-- C1, the amended statement at the identifier `user_id2Name`. -/
theorem snake_camel_snake_witness :
    "user_id2Name".toList.all isIdentChar = true ∧
      startsLower "user_id2Name".toList = true ∧
      ("user_id2Name".toList.any (fun c => isUpperLetter c || isDigitChar c)
        || underscoresFollowed "user_id2Name".toList) = true ∧
      (snakeCaseToCamelCase noTables (camelCaseToSnakeCase noTables "user_id2Name".toList)).map
          (camelCaseToSnakeCase noTables)
        = some (camelCaseToSnakeCase noTables "user_id2Name".toList) :=
  ⟨by decide, by decide, by decide,
    snake_camel_snake noTables "user_id2Name".toList (by decide) (by decide) (by decide)⟩

/-- C1 as stated fails at the identifier `AB`: its snake form is `_a_b`, the camel
form of that is `_aB`, and the snake form of that is `__a_b`; no choice of the
Unicode tables changes this, the input being ASCII.  It also fails at `a_`,
which is its own snake form, has the camel form `a`, and `a` is its own snake
form. -/
theorem snake_camel_snake_counterexample :
    "AB".toList.all isIdentChar = true ∧
      camelCaseToSnakeCase noTables "AB".toList = "_a_b".toList ∧
      (snakeCaseToCamelCase noTables (camelCaseToSnakeCase noTables "AB".toList)).map
          (camelCaseToSnakeCase noTables) = some "__a_b".toList ∧
      "a_".toList.all isIdentChar = true ∧
      camelCaseToSnakeCase noTables "a_".toList = "a_".toList ∧
      (snakeCaseToCamelCase noTables (camelCaseToSnakeCase noTables "a_".toList)).map
          (camelCaseToSnakeCase noTables) = some "a".toList ∧
      ¬ ∃ u : UnicodeTables,
        (snakeCaseToCamelCase u (camelCaseToSnakeCase u "AB".toList)).map
            (camelCaseToSnakeCase u) = some (camelCaseToSnakeCase u "AB".toList) := by
  refine ⟨by decide, by decide, by decide, by decide, by decide, by decide, ?_⟩
  rintro ⟨u, h⟩
  have e1 : camelCaseToSnakeCase u "AB".toList = "_a_b".toList := by
    simp [camelCaseToSnakeCase_eq, isSnakeCase_eq, snakeExpand, snakeRune, unicodeToUpper,
      unicodeToLower]
  have e2 : snakeCaseToCamelCase u "_a_b".toList = some "_aB".toList := by
    simp [snakeCaseToCamelCase_cons, camelTail, firstByte, utf8Bytes, unicodeToUpper,
      unicodeToLower]
  have e3 : camelCaseToSnakeCase u "_aB".toList = "__a_b".toList := by
    simp [camelCaseToSnakeCase_eq, isSnakeCase_eq, snakeExpand, snakeRune, unicodeToUpper,
      unicodeToLower]
  rw [e1, e2, Option.map_some', e3] at h
  exact absurd h (by decide)

/-- C2: the two conversions are inverse to each other on identifiers without
digits or upper-case runs: the camel form of the snake form of a camelCase
identifier is the identifier, and the snake form of the camel form of a
snake_case identifier is the identifier. -/
theorem camel_snake_inverse (u : UnicodeTables) (c t : List Char)
    (hc : isCamelIdent c = true) (ht : isSnakeIdent t = true) :
    snakeCaseToCamelCase u (camelCaseToSnakeCase u c) = some c ∧
      (snakeCaseToCamelCase u t).map (camelCaseToSnakeCase u) = some t := by
  constructor
  · cases c with
    | nil => simp [isCamelIdent, startsLower] at hc
    | cons a rest =>
      simp only [isCamelIdent, Bool.and_eq_true, List.all_cons] at hc
      obtain ⟨⟨⟨_, hrest⟩, ha⟩, _⟩ := hc
      have ha : isLowerLetter a = true := ha
      have hid : rest.all isIdentChar = true := by
        rw [List.all_eq_true] at hrest ⊢
        intro x hx
        have := hrest x hx
        simp only [isLetterChar, Bool.or_eq_true] at this
        simp only [isIdentChar, Bool.or_eq_true]
        rcases this with h | h
        · exact Or.inl (Or.inl (Or.inl h))
        · exact Or.inl (Or.inl (Or.inr h))
      by_cases hsn : isSnakeCase u (a :: rest) = true
      · have hno : ∀ x ∈ rest, x ≠ '_' := by
          intro x hx hx2
          have := (List.all_eq_true.mp hrest) x hx
          rw [hx2] at this
          exact absurd this (by decide)
        rw [camelCaseToSnakeCase_eq, if_pos hsn, camel_of_snakeIdent u a rest ha,
          camelTail_no_underscore u rest hno]
      · rw [camelCaseToSnakeCase_eq, if_neg hsn]
        exact camel_of_snakeExpand u a rest ha hid
  · cases t with
    | nil => simp [isSnakeIdent, startsLower] at ht
    | cons a rest =>
      simp only [isSnakeIdent, Bool.and_eq_true] at ht
      have ha : isLowerLetter a = true := ht.1
      have hruns : snakeRuns rest = true := by
        rw [← snakeRuns_cons_lower a rest ha]
        exact ht.2
      rw [camel_of_snakeIdent u a rest ha, Option.map_some',
        snake_of_camelTail u a rest ha hruns]

/-- C2 at the identifiers `userIdName` and `user_id_name`. -/
theorem camel_snake_inverse_witness :
    isCamelIdent "userIdName".toList = true ∧ isSnakeIdent "user_id_name".toList = true ∧
      snakeCaseToCamelCase noTables (camelCaseToSnakeCase noTables "userIdName".toList)
        = some "userIdName".toList ∧
      (snakeCaseToCamelCase noTables "user_id_name".toList).map (camelCaseToSnakeCase noTables)
        = some "user_id_name".toList :=
  ⟨by decide, by decide,
    camel_snake_inverse noTables "userIdName".toList "user_id_name".toList (by decide)
      (by decide)⟩

/-- C3 (as amended): for every snake_case identifier the snake form of its Pascal
form is the identifier with one underscore put in front (the capitalised first
letter gets an underscore like every capital); the identifier itself comes back
when the Pascal form is first passed through the camel conversion. -/
theorem pascal_snake (u : UnicodeTables) (t : List Char) (ht : isSnakeIdent t = true) :
    (snakeCaseToPascalCase u t).map (camelCaseToSnakeCase u) = some ('_' :: t) ∧
      ((snakeCaseToPascalCase u t).bind (snakeCaseToCamelCase u)).map (camelCaseToSnakeCase u)
        = some t := by
  cases t with
  | nil => simp [isSnakeIdent, startsLower] at ht
  | cons a rest =>
    simp only [isSnakeIdent, Bool.and_eq_true] at ht
    have ha : isLowerLetter a = true := ht.1
    have hruns : snakeRuns rest = true := by
      rw [← snakeRuns_cons_lower a rest ha]
      exact ht.2
    have hasc := isIdentChar_ascii a (isLowerLetter_ident a ha)
    have hf := ascii_lower_facts a hasc ha
    have hu := upper_of_lower u a ha
    have hp : snakeCaseToPascalCase u (a :: rest)
        = some (asciiUpper a :: camelTail u false rest) := by
      rw [snakeCaseToPascalCase_cons, firstByte_ascii a hasc, hu.1]
    rw [hp]
    constructor
    · have hns : isSnakeCase u (asciiUpper a :: camelTail u false rest) = false := by
        rw [isSnakeCase_eq, List.all_cons, hu.2.2.2]
        rfl
      rw [Option.map_some', camelCaseToSnakeCase_eq, hns]
      simp only [Bool.false_eq_true, if_false]
      rw [snakeExpand_cons, hu.2.1, snakeExpand_camelTail u rest hruns]
      rfl
    · rw [Option.some_bind, snakeCaseToCamelCase_cons,
        firstByte_ascii _ hf.2.2.2.2.2.1, unicodeToLower_ascii u _ hf.2.2.2.2.2.1, hf.2.2.1,
        camelTail_no_underscore u _ (camelTail_mem_ne u rest hruns), Option.map_some',
        snake_of_camelTail u a rest ha hruns]

/-- C3, the amended statement at the identifier `user_id`. -/
theorem pascal_snake_witness :
    isSnakeIdent "user_id".toList = true ∧
      (snakeCaseToPascalCase noTables "user_id".toList).map (camelCaseToSnakeCase noTables)
        = some ('_' :: "user_id".toList) ∧
      ((snakeCaseToPascalCase noTables "user_id".toList).bind
          (snakeCaseToCamelCase noTables)).map (camelCaseToSnakeCase noTables)
        = some "user_id".toList :=
  ⟨by decide, pascal_snake noTables "user_id".toList (by decide)⟩

/-- C3 as stated fails at the snake_case identifier `user_id`: its Pascal form is
`UserId` and the snake form of that is `_user_id`. -/
theorem pascal_snake_counterexample :
    isSnakeIdent "user_id".toList = true ∧
      snakeCaseToPascalCase noTables "user_id".toList = some "UserId".toList ∧
      camelCaseToSnakeCase noTables "UserId".toList = "_user_id".toList ∧
      ¬ ∃ u : UnicodeTables,
        (snakeCaseToPascalCase u "user_id".toList).map (camelCaseToSnakeCase u)
          = some "user_id".toList := by
  refine ⟨by decide, by decide, by decide, ?_⟩
  rintro ⟨u, h⟩
  have e1 : snakeCaseToPascalCase u "user_id".toList = some "UserId".toList := by
    simp [snakeCaseToPascalCase_cons, camelTail, firstByte, utf8Bytes, unicodeToUpper]
  have e2 : camelCaseToSnakeCase u "UserId".toList = "_user_id".toList := by
    simp [camelCaseToSnakeCase_eq, isSnakeCase_eq, snakeExpand, snakeRune, unicodeToUpper,
      unicodeToLower]
  rw [e1, Option.map_some', e2] at h
  exact absurd h (by decide)

/-- Joined output and underscore-split segments agree when no two underscores
are adjacent. -/
theorem camelTail_split (u : UnicodeTables) :
    ∀ l : List Char, noDoubleUnderscore l = true →
      (camelTail u false l
          = match splitOn '_' l with
            | seg :: segs => seg ++ segs.flatMap (upperFirst u)
            | [] => []) ∧
        (noLeadingUnderscore l = true →
          camelTail u true l = (splitOn '_' l).flatMap (upperFirst u)) := by
  intro l
  induction l with
  | nil => intro _; simp [camelTail, splitOn, upperFirst]
  | cons c rest ih =>
    intro h
    have hrest : noDoubleUnderscore rest = true := by
      cases rest with
      | nil => simp [noDoubleUnderscore]
      | cons d rest =>
        simp only [noDoubleUnderscore, Bool.and_eq_true] at h
        exact h.2
    obtain ⟨ih1, ih2⟩ := ih hrest
    constructor
    · by_cases hc : c = '_'
      · subst hc
        have hlead : noLeadingUnderscore rest = true := by
          cases rest with
          | nil => simp [noLeadingUnderscore]
          | cons d rest =>
            simp only [noDoubleUnderscore, Bool.and_eq_true, beq_self_eq_true, Bool.true_and,
              Bool.not_eq_true', beq_eq_false_iff_ne, ne_eq] at h
            simpa [noLeadingUnderscore] using h.1
        rw [camelTail]
        simp only [if_true]
        rw [ih2 hlead]
        simp [splitOn]
      · rw [camelTail]
        simp only [hc, if_false]
        rw [ih1]
        cases hsp : splitOn '_' rest with
        | nil => simp [splitOn, hc, hsp]
        | cons seg segs => simp [splitOn, hc, hsp]
    · intro hlead
      have hc : c ≠ '_' := by simpa [noLeadingUnderscore] using hlead
      rw [camelTail, ih1]
      cases hsp : splitOn '_' rest with
      | nil => simp [splitOn, hc, hsp, upperFirst]
      | cons seg segs => simp [splitOn, hc, hsp, upperFirst]

/-- C4 (as amended): for every string of ASCII letters, digits and underscores
that does not begin with an underscore and has no two adjacent underscores,
`snakeCaseToCamelCase` returns the segments between the underscores
concatenated, the first segment with its first character lower-cased (the rest
of it kept as it is) and every later segment with its first character
upper-cased. -/
theorem camel_is_split (u : UnicodeTables) (s : List Char)
    (hs : s.all isIdentChar = true) (h1 : noLeadingUnderscore s = true)
    (h2 : noDoubleUnderscore s = true) :
    snakeCaseToCamelCase u s = some (camelCaseFirstLetters u s) := by
  cases s with
  | nil => simp [snakeCaseToCamelCase_nil, camelCaseFirstLetters, splitOn, lowerFirst]
  | cons a rest =>
    rw [List.all_cons, Bool.and_eq_true] at hs
    have hasc := isIdentChar_ascii a hs.1
    have ha : a ≠ '_' := by simpa [noLeadingUnderscore] using h1
    have hrest : noDoubleUnderscore rest = true := by
      cases rest with
      | nil => simp [noDoubleUnderscore]
      | cons d rest =>
        simp only [noDoubleUnderscore, Bool.and_eq_true] at h2
        exact h2.2
    rw [snakeCaseToCamelCase_cons, firstByte_ascii a hasc, (camelTail_split u rest hrest).1]
    unfold camelCaseFirstLetters
    cases hsp : splitOn '_' rest with
    | nil => simp [splitOn, ha, hsp, lowerFirst]
    | cons seg segs => simp [splitOn, ha, hsp, lowerFirst]

/-- C4, the amended statement at the string `userID_name_2`. -/
theorem camel_is_split_witness :
    "userID_name_2".toList.all isIdentChar = true ∧
      noLeadingUnderscore "userID_name_2".toList = true ∧
      noDoubleUnderscore "userID_name_2".toList = true ∧
      snakeCaseToCamelCase noTables "userID_name_2".toList
        = some (camelCaseFirstLetters noTables "userID_name_2".toList) :=
  ⟨by decide, by decide, by decide,
    camel_is_split noTables "userID_name_2".toList (by decide) (by decide) (by decide)⟩

/-- C4 as stated fails at the string `aB_c`: the code returns `aBC`, keeping the
capital of the first segment, where the reference lower-cases the whole first
segment and gives `abC`.  The reference is also missed at `_a` (the code keeps a
leading underscore: `_a` against `A`) and at `a__b` (the code keeps the second
of two underscores: `a_b` against `aB`). -/
theorem camel_is_split_counterexample :
    "aB_c".toList.all isIdentChar = true ∧
      snakeCaseToCamelCase noTables "aB_c".toList = some "aBC".toList ∧
      camelCaseReference noTables "aB_c".toList = "abC".toList ∧
      snakeCaseToCamelCase noTables "_a".toList = some "_a".toList ∧
      camelCaseReference noTables "_a".toList = "A".toList ∧
      snakeCaseToCamelCase noTables "a__b".toList = some "a_b".toList ∧
      camelCaseReference noTables "a__b".toList = "aB".toList ∧
      ¬ ∃ u : UnicodeTables,
        snakeCaseToCamelCase u "aB_c".toList = some (camelCaseReference u "aB_c".toList) := by
  refine ⟨by decide, by decide, by decide, by decide, by decide, by decide, by decide, ?_⟩
  rintro ⟨u, h⟩
  have e1 : snakeCaseToCamelCase u "aB_c".toList = some "aBC".toList := by
    simp [snakeCaseToCamelCase_cons, camelTail, firstByte, utf8Bytes, unicodeToUpper,
      unicodeToLower]
  have e2 : camelCaseReference u "aB_c".toList = "abC".toList := by
    simp [camelCaseReference, splitOn, stringsToLower, upperFirst, unicodeToUpper,
      unicodeToLower]
  rw [e1, e2] at h
  exact absurd h (by decide)

/-- C5: evaluation at two identifiers where the code leaves the stated
reference.  At `a1` (no upper-case letter) the reference is `a1` and the code
returns `a_1`; at `a_B` the reference is `a__b` and the code returns `a___b`:
the loop tests "is upper-case" by `v == ToUpper(v)`, which digits and the
underscore also pass. -/
theorem snake_reference_divergence :
    "a1".toList.all isIdentChar = true ∧
      camelCaseToSnakeCase noTables "a1".toList = "a_1".toList ∧
      snakeCaseReference noTables "a1".toList = "a1".toList ∧
      "a_B".toList.all isIdentChar = true ∧
      camelCaseToSnakeCase noTables "a_B".toList = "a___b".toList ∧
      snakeCaseReference noTables "a_B".toList = "a__b".toList ∧
      isSnakeCase noTables "a1".toList = false ∧
      ¬ ∃ u : UnicodeTables,
        camelCaseToSnakeCase u "a1".toList = snakeCaseReference u "a1".toList := by
  refine ⟨by decide, by decide, by decide, by decide, by decide, by decide, by decide, ?_⟩
  rintro ⟨u, h⟩
  have e1 : camelCaseToSnakeCase u "a1".toList = "a_1".toList := by
    simp [camelCaseToSnakeCase_eq, isSnakeCase_eq, snakeExpand, snakeRune, unicodeToUpper,
      unicodeToLower]
  have e2 : snakeCaseReference u "a1".toList = "a1".toList := by
    simp [snakeCaseReference, isUpperLetter]
  rw [e1, e2] at h
  exact absurd h (by decide)

set_option maxRecDepth 100000 in
theorem byte_case_facts : ∀ n : Fin 256,
    byteUpper (byteLower (Char.ofNat n)) = byteUpper (Char.ofNat n) ∧
      (Char.ofNat n).toNat < 256 ∧ (byteLower (Char.ofNat n)).toNat < 256 := by
  decide

/-- C6: for every string the Pascal form is the camel form with its first
character upper-cased, both are empty for the empty string, and the method keys
`get`, `post`, `put` and `delete` map to `Get`, `Post`, `Put` and `Delete`, which
are the variants of the emitted `Method` enum. -/
theorem pascal_is_upper_camel (u : UnicodeTables) (s : List Char) :
    snakeCaseToPascalCase u s = (snakeCaseToCamelCase u s).map (upperFirst u) ∧
      snakeCaseToPascalCase u [] = some [] ∧ snakeCaseToCamelCase u [] = some [] ∧
      snakeCaseToPascalCase u "get".toList = some "Get".toList ∧
      snakeCaseToPascalCase u "post".toList = some "Post".toList ∧
      snakeCaseToPascalCase u "put".toList = some "Put".toList ∧
      snakeCaseToPascalCase u "delete".toList = some "Delete".toList ∧
      (∀ m ∈ ["Get".toList, "Post".toList, "Put".toList, "Delete".toList],
        m ∈ methodVariants) := by
  refine ⟨?_, snakeCaseToPascalCase_nil u, snakeCaseToCamelCase_nil u, ?_, ?_, ?_, ?_, ?_⟩
  · cases s with
    | nil => simp [snakeCaseToPascalCase_nil, snakeCaseToCamelCase_nil, upperFirst]
    | cons c rest =>
      have hb := byte_case_facts ⟨firstByte c, firstByte_lt c⟩
      simp only [] at hb
      rw [snakeCaseToPascalCase_cons, snakeCaseToCamelCase_cons, Option.map_some', upperFirst,
        unicodeToLower_byte u _ hb.2.1, unicodeToUpper_byte u _ hb.2.2,
        unicodeToUpper_byte u _ hb.2.1, hb.1]
  · simp [snakeCaseToPascalCase_cons, camelTail, firstByte, utf8Bytes, unicodeToUpper]
  · simp [snakeCaseToPascalCase_cons, camelTail, firstByte, utf8Bytes, unicodeToUpper]
  · simp [snakeCaseToPascalCase_cons, camelTail, firstByte, utf8Bytes, unicodeToUpper]
  · simp [snakeCaseToPascalCase_cons, camelTail, firstByte, utf8Bytes, unicodeToUpper]
  · decide

/-- C7: the four normalisers return a string for every input: the two functions
that index `input[0]` never panic, the other two have no failing operation;
the access `input[0]` is in range at every iteration of the loop, the loop has
no iteration on the empty string (where the access would be out of range), and
each of the four functions returns the empty string on the empty string. -/
theorem normalisers_total (u : UnicodeTables) (s : List Char) :
    (∃ r, snakeCaseToCamelCase u s = some r) ∧ (∃ r, snakeCaseToPascalCase u s = some r) ∧
      (∃ r, camelCaseToSnakeCase u s = r) ∧ (∃ r, convertRefToClassName u s = r) ∧
      (∀ kv ∈ range s, ∃ b, index s 0 = some b) ∧
      range [] = [] ∧ index [] 0 = none ∧
      snakeCaseToCamelCase u [] = some [] ∧ snakeCaseToPascalCase u [] = some [] ∧
      camelCaseToSnakeCase u [] = [] ∧ convertRefToClassName u [] = [] := by
  refine ⟨?_, ?_, ⟨_, rfl⟩, ⟨_, rfl⟩, ?_, rfl, rfl, snakeCaseToCamelCase_nil u,
    snakeCaseToPascalCase_nil u, ?_, ?_⟩
  · cases s with
    | nil => exact ⟨_, snakeCaseToCamelCase_nil u⟩
    | cons c rest => exact ⟨_, snakeCaseToCamelCase_cons u c rest⟩
  · cases s with
    | nil => exact ⟨_, snakeCaseToPascalCase_nil u⟩
    | cons c rest => exact ⟨_, snakeCaseToPascalCase_cons u c rest⟩
  · cases s with
    | nil => intro kv hkv; simp [range, rangeFrom] at hkv
    | cons c rest => intro _ _; exact ⟨_, index_zero_cons c rest⟩
  · simp [camelCaseToSnakeCase, isSnakeCase]
  · simp [convertRefToClassName, stringsTrimPrefix, stringsTitle, titleFrom]

/-! ## The properties of the struct emission -/

theorem stringsTrimPrefix_append (pre n : List Char) : stringsTrimPrefix (pre ++ n) pre = n := by
  have h : pre.isPrefixOf (pre ++ n) = true := by
    rw [List.isPrefixOf_iff_prefix]
    exact List.prefix_append pre n
  simp [stringsTrimPrefix, h]

theorem convertRefToClassName_ref (u : UnicodeTables) (n : List Char) :
    convertRefToClassName u ("#/definitions/".toList ++ n) = className u n := by
  unfold convertRefToClassName className
  rw [stringsTrimPrefix_append]

/-- C8: for every definition name `n`, `convertRefToClassName` applied to the
reference `#/definitions/n` strips the marker and title-cases `n`, and that is
the name of the struct emitted for the definition `n`. -/
theorem ref_names_struct (u : UnicodeTables) (n description : List Char) :
    convertRefToClassName u ("#/definitions/".toList ++ n) = stringsTitle u n ∧
      convertRefToClassName u ("#/definitions/".toList ++ n) = className u n ∧
      structOpen u n description
        = "\n\n/// ".toList ++ stripNewlines description
          ++ "\n#[derive(Debug, DeJson, Default)]\n#[nserde(default)]\npub struct ".toList
          ++ convertRefToClassName u ("#/definitions/".toList ++ n) ++ " \x7b".toList := by
  refine ⟨convertRefToClassName_ref u n, convertRefToClassName_ref u n, ?_⟩
  rw [convertRefToClassName_ref]
  rfl

/-- C9: for every property whose kind is a primitive, an array of a primitive,
an array of a reference or a reference, the struct field emitted for it is
named by the snake form of the property name and typed by the mapping table:
`i32`, `f32`, `bool`, `String`, `Vec` of the element type, `Vec` of the class
name, or the class name. -/
theorem field_follows_table (u : UnicodeTables) (propname : List Char) (p : Property)
    (k : Kind) (hk : p.hasKind k) (hm : k.isMap = false) :
    structField u propname p
      = .done ("\n    pub ".toList ++ camelCaseToSnakeCase u propname ++ ": ".toList
          ++ k.targetType u ++ ",".toList) := by
  cases k with
  | primitive q =>
    cases q <;> simp only [Property.hasKind, Primitive.schemaName] at hk <;>
      simp [structField, hk, Kind.targetType, Primitive.targetType]
  | arrayOf q =>
    cases q <;> simp only [Property.hasKind, Primitive.schemaName] at hk <;>
      simp [structField, hk.1, hk.2, Kind.targetType, Primitive.targetType]
  | arrayOfRef r =>
    simp only [Property.hasKind] at hk
    simp [structField, hk.1, hk.2.1, hk.2.2, Kind.targetType]
    exact convertRefToClassName_ref u r
  | mapOf q => simp [Kind.isMap] at hm
  | reference r =>
    simp only [Property.hasKind] at hk
    simp [structField, hk.1, hk.2, Kind.targetType]
    exact convertRefToClassName_ref u r

/-- C9 at a property `friendList` that is an array of references to the
definition `apiUser`. -/
theorem field_follows_table_witness :
    usersProperty.hasKind (.arrayOfRef "apiUser".toList) ∧
      (Kind.arrayOfRef "apiUser".toList).isMap = false ∧
      structField noTables "friendList".toList usersProperty
        = .done "\n    pub friend_list: Vec<ApiUser>,".toList :=
  ⟨⟨rfl, rfl, rfl⟩, rfl,
    (field_follows_table noTables "friendList".toList usersProperty
      (.arrayOfRef "apiUser".toList) ⟨rfl, rfl, rfl⟩ rfl).trans (by decide)⟩

/-- C10: evaluation at map properties.  A map of strings gets
`HashMap<String, String>`.  For a map of integers the table promises
`HashMap<String, i32>`, but the template tests `$property.Items.Type` where the
value type is in `$property.AdditionalProperties.Type`, so the property falls
through to the last alternative and execution stops with an error after
`HashMap<string, `; a map of booleans ends the same way. -/
theorem map_field_divergence :
    countsProperty.hasKind (.mapOf .integer) ∧
      (Kind.mapOf .integer).targetType noTables = "HashMap<String, i32>".toList ∧
      structField noTables "counts".toList countsProperty
        = .stopped "\n    pub counts: HashMap<string, ".toList ∧
      flagsProperty.hasKind (.mapOf .boolean) ∧
      structField noTables "flags".toList flagsProperty
        = .stopped "\n    pub flags: HashMap<string, ".toList ∧
      labelsProperty.hasKind (.mapOf .string) ∧
      structField noTables "labels".toList labelsProperty
        = .done "\n    pub labels: HashMap<String, String>,".toList ∧
      ¬ ∃ u : UnicodeTables,
        structField u "counts".toList countsProperty
          = .done ("\n    pub ".toList ++ camelCaseToSnakeCase u "counts".toList ++ ": ".toList
              ++ (Kind.mapOf .integer).targetType u ++ ",".toList) := by
  refine ⟨⟨rfl, rfl⟩, by decide, by decide, ⟨rfl, rfl⟩, by decide, ⟨rfl, rfl⟩, by decide, ?_⟩
  rintro ⟨u, h⟩
  simp [structField, countsProperty] at h

/-! ## Maps are iterated in key order -/

theorem char_eq_of_toNat (a b : Char) (h : a.toNat = b.toNat) : a = b := by
  rw [← Char.ofNat_toNat a, ← Char.ofNat_toNat b, h]

theorem strLE_total : ∀ a b : List Char, strLE a b = true ∨ strLE b a = true := by
  intro a
  induction a with
  | nil => intro b; left; cases b <;> simp [strLE]
  | cons x xs ih =>
    intro b
    cases b with
    | nil => right; simp [strLE]
    | cons y ys =>
      simp only [strLE, Bool.or_eq_true, decide_eq_true_eq, Bool.and_eq_true, beq_iff_eq]
      rcases Nat.lt_trichotomy x.toNat y.toNat with h | h | h
      · exact Or.inl (Or.inl h)
      · have hxy := char_eq_of_toNat x y h
        rcases ih ys with h2 | h2
        · exact Or.inl (Or.inr ⟨hxy, h2⟩)
        · exact Or.inr (Or.inr ⟨hxy.symm, h2⟩)
      · exact Or.inr (Or.inl h)

theorem strLE_trans : ∀ a b c : List Char,
    strLE a b = true → strLE b c = true → strLE a c = true := by
  intro a
  induction a with
  | nil => intro b c _ _; cases c <;> simp [strLE]
  | cons x xs ih =>
    intro b c hab hbc
    cases b with
    | nil => simp [strLE] at hab
    | cons y ys =>
      cases c with
      | nil => simp [strLE] at hbc
      | cons z zs =>
        simp only [strLE, Bool.or_eq_true, decide_eq_true_eq, Bool.and_eq_true,
          beq_iff_eq] at hab hbc ⊢
        rcases hab with h1 | ⟨h1, h1r⟩
        · rcases hbc with h2 | ⟨h2, _⟩
          · exact Or.inl (by omega)
          · subst h2; exact Or.inl h1
        · subst h1
          rcases hbc with h2 | ⟨h2, h2r⟩
          · exact Or.inl h2
          · exact Or.inr ⟨h2, ih ys zs h1r h2r⟩

theorem rangeMap_sorted {α : Type} (m : GoMap α) :
    List.Sorted (fun a b => strLE a.1 b.1 = true) (rangeMap m) :=
  @List.sorted_insertionSort _ (fun a b => strLE a.1 b.1 = true) _
    ⟨fun a b => strLE_total a.1 b.1⟩ ⟨fun a b c => strLE_trans a.1 b.1 c.1⟩ m

theorem rangeMap_perm {α : Type} (m : GoMap α) : (rangeMap m).Perm m :=
  List.perm_insertionSort _ m

theorem mem_rangeMap {α : Type} (m : GoMap α) (kv : List Char × α) :
    kv ∈ rangeMap m ↔ kv ∈ m :=
  (rangeMap_perm m).mem_iff

/-! ## The serializer in closed form -/

theorem intercalate_cons (sep x : List Char) (xs : List (List Char)) :
    sep.intercalate (x :: xs) = x ++ xs.flatMap fun y => sep ++ y := by
  induction xs generalizing x with
  | nil => simp [List.intercalate]
  | cons y ys ih =>
    have h := ih y
    simp only [List.intercalate, List.intersperse, List.flatten_cons, List.flatMap_cons] at h ⊢
    rw [h]
    simp

theorem runSerializer_fold (self : List Char → Value) :
    ∀ (stmts : List SerStmt) (acc t : List Char),
      runSerializer self stmts = some t →
        stmts.foldlM (fun output s => (s.appended self).map fun t => output ++ t) acc
          = some (acc ++ t) := by
  intro stmts
  induction stmts using List.reverseRecOn with
  | nil =>
    intro acc t h
    simp [runSerializer] at h
    simp [← h]
  | append_singleton stmts s ih =>
    intro acc t h
    unfold runSerializer at h
    rw [List.foldlM_append] at h ⊢
    cases hr : stmts.foldlM (fun output s => (s.appended self).map fun t => output ++ t) []
      with
    | none => rw [hr] at h; simp at h
    | some t1 =>
      rw [hr] at h
      rw [ih acc t1 hr]
      cases hs : s.appended self with
      | none => simp [hs] at h
      | some t2 =>
        simp [hs] at h ⊢
        rw [← h]

theorem runSerializer_append (self : List Char → Value) (a b : List SerStmt)
    (ta tb : List Char) (ha : runSerializer self a = some ta)
    (hb : runSerializer self b = some tb) :
    runSerializer self (a ++ b) = some (ta ++ tb) := by
  unfold runSerializer
  rw [List.foldlM_append]
  unfold runSerializer at ha
  rw [ha]
  exact runSerializer_fold self b ta tb hb

theorem runSerializer_single (self : List Char → Value) (s : SerStmt) (t : List Char)
    (h : s.appended self = some t) : runSerializer self [s] = some t := by
  simp [runSerializer, h]

theorem rustIdent_chars (s : List Char) (h : isRustIdent s = true) :
    ∀ c ∈ s, isIdentChar c = true := by
  cases s with
  | nil => simp [isRustIdent] at h
  | cons c rest =>
    simp only [isRustIdent, Bool.and_eq_true] at h
    exact List.all_eq_true.mp h.1.1.2

theorem plain_of_rustIdent (s : List Char) (h : isRustIdent s = true) :
    plainText s = true := by
  unfold plainText
  rw [List.all_eq_true]
  intro c hc
  have hi := rustIdent_chars s h c hc
  simp only [Bool.and_eq_true, bne_iff_ne, ne_eq]
  refine ⟨⟨⟨?_, ?_⟩, ?_⟩, ?_⟩ <;> (rintro rfl; exact absurd hi (by decide))

theorem special_mem_snake (u : UnicodeTables) (n : List Char) (c : Char)
    (hc : c = '"' ∨ c = '\\' ∨ c = '\x7b' ∨ c = '\x7d') (hm : c ∈ n) :
    c ∈ camelCaseToSnakeCase u n := by
  rw [camelCaseToSnakeCase_eq]
  split
  · exact hm
  · unfold snakeExpand
    rw [List.mem_flatMap]
    refine ⟨c, hm, ?_⟩
    rcases hc with rfl | rfl | rfl | rfl <;>
      simp [snakeRune, unicodeToUpper, unicodeToLower]

theorem plain_of_ident (u : UnicodeTables) (n : List Char)
    (h : isRustIdent (camelCaseToSnakeCase u n) = true) : plainText n = true := by
  unfold plainText
  rw [List.all_eq_true]
  intro c hc
  by_contra hne
  have hs : c = '"' ∨ c = '\\' ∨ c = '\x7b' ∨ c = '\x7d' := by
    simp only [Bool.and_eq_true, bne_iff_ne, ne_eq, not_and, Classical.not_not] at hne
    by_cases h1 : c = '"'
    · exact Or.inl h1
    by_cases h2 : c = '\\'
    · exact Or.inr (Or.inl h2)
    by_cases h3 : c = '\x7b'
    · exact Or.inr (Or.inr (Or.inl h3))
    exact Or.inr (Or.inr (Or.inr (hne ⟨⟨h1, h2⟩, h3⟩)))
  have hi := rustIdent_chars _ h c (special_mem_snake u n c hs hc)
  rcases hs with rfl | rfl | rfl | rfl <;> exact absurd hi (by decide)

theorem valueStmt_scalar (u : UnicodeTables) (values : List Char → List Char)
    (n : List Char) (p : Property) (hk : isScalarType p.Type_ = true)
    (hi : isRustIdent (camelCaseToSnakeCase u n) = true) :
    (valueStmt u n p).appended (fun f => Value.shown (values f))
      = some (scalarPair u values (n, p)) := by
  have hp := plain_of_ident u n hi
  simp only [isScalarType, Bool.or_eq_true, decide_eq_true_eq] at hk
  rcases hk with ((h | h) | h) | h <;>
    simp [valueStmt, h, SerStmt.appended, hp, hi, scalarPair]

theorem propertyStmts_scalar (u : UnicodeTables) (values : List Char → List Char) :
    ∀ props : List (List Char × Property),
      (∀ kv ∈ props, isScalarType kv.2.Type_ = true) →
      (∀ kv ∈ props, isRustIdent (camelCaseToSnakeCase u kv.1) = true) →
      runSerializer (fun f => Value.shown (values f)) (propertyStmts u true props)
        = some (props.flatMap fun kv => ",".toList ++ scalarPair u values kv) := by
  intro props
  induction props with
  | nil => intro _ _; simp [propertyStmts, runSerializer]
  | cons kv rest ih =>
    intro hk hp
    obtain ⟨n, p⟩ := kv
    have h1 := valueStmt_scalar u values n p (hk (n, p) (List.mem_cons_self _ _))
      (hp (n, p) (List.mem_cons_self _ _))
    have h2 := ih (fun kv h => hk kv (List.mem_cons_of_mem _ h))
      (fun kv h => hp kv (List.mem_cons_of_mem _ h))
    have hb : runSerializer (fun f => Value.shown (values f)) [SerStmt.blank] = some [] :=
      runSerializer_single _ _ _ rfl
    have hc : runSerializer (fun f => Value.shown (values f)) [SerStmt.pushStr ",".toList]
        = some ",".toList :=
      runSerializer_single _ _ _ (by simp [SerStmt.appended])
    have h3 := runSerializer_append _ _ _ _ _
      (runSerializer_append _ _ _ _ _ hb hc) (runSerializer_single _ _ _ h1)
    have h4 := runSerializer_append _ _ _ _ _ h3 h2
    simpa [propertyStmts] using h4

theorem serializerStmts_scalar (u : UnicodeTables) (values : List Char → List Char)
    (props : List (List Char × Property))
    (hk : ∀ kv ∈ props, isScalarType kv.2.Type_ = true)
    (hp : ∀ kv ∈ props, isRustIdent (camelCaseToSnakeCase u kv.1) = true) :
    runSerializer (fun f => Value.shown (values f))
        ([SerStmt.pushStr "\x7b".toList] ++ propertyStmts u false props
          ++ [SerStmt.pushStr "\x7d".toList])
      = some ("\x7b".toList ++ ",".toList.intercalate (props.map (scalarPair u values))
          ++ "\x7d".toList) := by
  have hopen : runSerializer (fun f => Value.shown (values f))
      [SerStmt.pushStr "\x7b".toList] = some "\x7b".toList := by
    apply runSerializer_single
    simp [SerStmt.appended]
  have hclose : runSerializer (fun f => Value.shown (values f))
      [SerStmt.pushStr "\x7d".toList] = some "\x7d".toList := by
    apply runSerializer_single
    simp [SerStmt.appended]
  cases props with
  | nil =>
    have h := runSerializer_append _ _ _ _ _ hopen hclose
    simpa [propertyStmts, List.intercalate] using h
  | cons kv rest =>
    obtain ⟨n, p⟩ := kv
    have h1 := valueStmt_scalar u values n p (hk (n, p) (List.mem_cons_self _ _))
      (hp (n, p) (List.mem_cons_self _ _))
    have h2 := propertyStmts_scalar u values rest
      (fun kv h => hk kv (List.mem_cons_of_mem _ h))
      (fun kv h => hp kv (List.mem_cons_of_mem _ h))
    have hb : runSerializer (fun f => Value.shown (values f)) [SerStmt.blank] = some [] :=
      runSerializer_single _ _ _ rfl
    have h3 := runSerializer_append _ _ _ _ _ hb (runSerializer_single _ _ _ h1)
    have h4 := runSerializer_append _ _ _ _ _ h3 h2
    have h5 := runSerializer_append _ _ _ _ _ hopen h4
    have h6 := runSerializer_append _ _ _ _ _ h5 hclose
    rw [List.map_cons, intercalate_cons]
    simpa [propertyStmts, List.flatMap_map] using h6

/-! ## The properties of the serializer -/

set_option maxRecDepth 100000 in
/-- C14: evaluation at definitions with an array property.  The statement the
template writes for an array ends its format string with `],`, so the
serializer of a definition whose only property is the array `ids` returns
`{"ids": [a, b],}`, with a comma before the closing brace, and when the
property `wins` follows, the separator comes on top: `{"ids": [a, b],,"wins": 3}`. -/
theorem array_comma_divergence :
    serializerStmts noTables idsDefinition
        = [.pushStr "\x7b".toList, .blank, .pushArray "ids".toList "ids".toList,
            .pushStr "\x7d".toList] ∧
      (SerStmt.pushArray "ids".toList "ids".toList).text
        = ("\n        output.push_str(&format!(\"\\\"ids\\\": [\x7b\x7d],\", \x7b\n".toList
            ++ "            let vec_string = self.ids.iter().map(|x| x.to_string()).collect::<Vec<_>>();\n".toList
            ++ "            vec_string.join(\", \")\n        \x7d));".toList) ∧
      runSerializer idsValues (serializerStmts noTables idsDefinition)
        = some "\x7b\"ids\": [a, b],\x7d".toList ∧
      runSerializer idsValues (serializerStmts noTables idsWinsDefinition)
        = some "\x7b\"ids\": [a, b],,\"wins\": 3\x7d".toList ∧
      ¬ ∃ u : UnicodeTables,
        runSerializer idsValues (serializerStmts u idsDefinition)
          = some "\x7b\"ids\": [a, b]\x7d".toList := by
  refine ⟨by decide, by decide, by decide, by decide, ?_⟩
  rintro ⟨u, h⟩
  have e : camelCaseToSnakeCase u "ids".toList = "ids".toList := by
    simp [camelCaseToSnakeCase_eq, isSnakeCase_eq, unicodeToUpper]
  have hr : rangeMap idsDefinition.Properties = idsDefinition.Properties := by decide
  have hi : isRustIdent "ids".toList = true := by decide
  simp only [String.toList] at e hi
  simp [serializerStmts, hr, idsDefinition, propertyStmts, valueStmt, e, hi, runSerializer,
    SerStmt.appended, idsValues, plainText, List.intercalate] at h

/-- C15: evaluation at a definition with the map property `vars`.  The statement
the template writes for a map formats every entry as the quoted key, ` = ` and
the value, so the serializer returns `{"vars": { "a" = b, "c" = d }}` where the
claim has a colon between key and value. -/
theorem map_entry_divergence :
    serializerStmts noTables varsDefinition
        = [.pushStr "\x7b".toList, .blank, .pushMap "vars".toList "vars".toList,
            .pushStr "\x7d".toList] ∧
      runSerializer varsValues (serializerStmts noTables varsDefinition)
        = some "\x7b\"vars\": \x7b \"a\" = b, \"c\" = d \x7d\x7d".toList ∧
      ¬ ∃ u : UnicodeTables,
        runSerializer varsValues (serializerStmts u varsDefinition)
          = some "\x7b\"vars\": \x7b \"a\": b, \"c\": d \x7d\x7d".toList := by
  refine ⟨by decide, by decide, ?_⟩
  rintro ⟨u, h⟩
  have e : camelCaseToSnakeCase u "vars".toList = "vars".toList := by
    simp [camelCaseToSnakeCase_eq, isSnakeCase_eq, unicodeToUpper]
  have hr : rangeMap varsDefinition.Properties = varsDefinition.Properties := by decide
  have hi : isRustIdent "vars".toList = true := by decide
  simp only [String.toList] at e hi
  simp [serializerStmts, hr, varsDefinition, labelsProperty, propertyStmts, valueStmt, e, hi,
    runSerializer, SerStmt.appended, varsValues, plainText, List.intercalate] at h

/-! ## The properties of the request builder: signature -/

/-- C11 (as amended): for a parameter in the path or in the body the type
emitted in the signature is wrapped in `Option<...>` exactly when the parameter
is not required; for a parameter of any other location the required flag is
not consulted: an array is never wrapped and every other type the template
gives an argument for is always wrapped.  The declaration written is the
argument name, the type (inside `Option<...>` when wrapped) and a comma. -/
theorem arg_wrapping (u : UnicodeTables) (p : Parameter) (t : ArgType)
    (h : argType u p = some t) :
    ((p.In = "path".toList ∨ p.In = "body".toList) →
        (t.wrapped = true ↔ p.Required = false)) ∧
      (p.In ≠ "path".toList → p.In ≠ "body".toList →
        (t.wrapped = true ↔ p.Type_ ≠ "array".toList)) ∧
      paramDecl u p
        = .done ("\n    ".toList ++ argName u p ++ ": ".toList
            ++ (if t.wrapped = true then "Option<".toList ++ t.base ++ ">".toList else t.base)
            ++ ",".toList) := by
  refine ⟨?_, ?_, ?_⟩
  · intro hin
    unfold argType at h
    rcases hin with hin | hin
    · rw [if_pos hin] at h
      split at h <;> (cases h; simp)
    · have hne : ¬ p.In = "path".toList := by rw [hin]; decide
      rw [if_neg hne, if_pos hin] at h
      split at h <;> (cases h; simp)
  · intro h1 h2
    unfold argType at h
    rw [if_neg h1, if_neg h2] at h
    by_cases ha : p.Type_ = "array".toList
    · rw [if_pos ha] at h
      split at h <;> (cases h; simp [ha])
    · rw [if_neg ha] at h
      by_cases ho : p.Type_ = "object".toList
      · rw [if_pos ho] at h
        simp at h
      · rw [if_neg ho] at h
        repeat' split at h
        all_goals (cases h; simp only [true_iff]; exact ha)
  · simp [paramDecl, h, ArgType.text]

/-- C11, the amended statement at the optional path parameter `id: string`. -/
theorem arg_wrapping_witness :
    argType noTables idOptional = some ⟨true, "&str".toList⟩ ∧
      idOptional.Required = false ∧
      paramDecl noTables idOptional = .done "\n    id: Option<&str>,".toList :=
  ⟨rfl, rfl,
    (arg_wrapping noTables idOptional ⟨true, "&str".toList⟩ rfl).2.2.trans (by decide)⟩

/-- C11 as stated fails at the required query parameter `limit: integer`, whose
type is written `Option<i32>`, and at the optional query parameter
`ids: array of string`, whose type is written `&[String]`. -/
theorem arg_wrapping_counterexample :
    limitRequired.Required = true ∧
      argType noTables limitRequired = some ⟨true, "i32".toList⟩ ∧
      paramDecl noTables limitRequired = .done "\n    limit: Option<i32>,".toList ∧
      idsOptional.Required = false ∧
      argType noTables idsOptional = some ⟨false, "&[String]".toList⟩ ∧
      paramDecl noTables idsOptional = .done "\n    ids: &[String],".toList ∧
      ¬ ∃ u : UnicodeTables, ∀ t : ArgType,
        argType u limitRequired = some t → (t.wrapped = true ↔ limitRequired.Required = false) := by
  refine ⟨rfl, rfl, by decide, rfl, rfl, by decide, ?_⟩
  rintro ⟨u, h⟩
  have h2 := h ⟨true, "i32".toList⟩ rfl
  simp [limitRequired] at h2

theorem seq_done_text (a : List Char) (b : Emit) : ((Emit.done a).seq b).text = a ++ b.text := by
  cases b <;> rfl

theorem seq_done_done (a b : List Char) : (Emit.done a).seq (.done b) = .done (a ++ b) := rfl

theorem emitRange_done {α : Type} (f : α → Emit) :
    ∀ l : List α, (∀ x ∈ l, ∃ t, f x = .done t) →
      emitRange f l = .done (l.flatMap fun x => (f x).text) := by
  intro l
  induction l with
  | nil => intro _; rfl
  | cons x rest ih =>
    intro h
    obtain ⟨t, ht⟩ := h x (List.mem_cons_self _ _)
    have hr := ih fun y hy => h y (List.mem_cons_of_mem _ hy)
    simp [emitRange, ht, hr, Emit.seq, Emit.text]

theorem snakeCaseToCamelCase_some (u : UnicodeTables) (s : List Char) :
    ∃ r, snakeCaseToCamelCase u s = some r := by
  cases s with
  | nil => exact ⟨_, snakeCaseToCamelCase_nil u⟩
  | cons c rest => exact ⟨_, snakeCaseToCamelCase_cons u c rest⟩

theorem snakeCaseToPascalCase_some (u : UnicodeTables) (s : List Char) :
    ∃ r, snakeCaseToPascalCase u s = some r := by
  cases s with
  | nil => exact ⟨_, snakeCaseToPascalCase_nil u⟩
  | cons c rest => exact ⟨_, snakeCaseToPascalCase_cons u c rest⟩

theorem operationName_some (u : UnicodeTables) (op : Operation) :
    ∃ name, operationName u op = some name := by
  obtain ⟨r, hr⟩ := snakeCaseToCamelCase_some u (stripOperationPrefix op.OperationId)
  unfold operationName
  rw [hr]
  exact ⟨_, rfl⟩

theorem operationOpen_done (u : UnicodeTables) (op : Operation) (name : List Char)
    (h : operationName u op = some name) :
    operationOpen u op
      = .done ("\n/// ".toList ++ stripNewlines op.Summary ++ "\npub fn ".toList ++ name
          ++ "(".toList) := by
  simp [operationOpen, h]

theorem operationClose_done (u : UnicodeTables) (method : List Char) :
    ∃ t, operationClose u method = .done t := by
  obtain ⟨r, hr⟩ := snakeCaseToPascalCase_some u method
  unfold operationClose
  rw [hr]
  exact ⟨_, rfl⟩

theorem argType_some (u : UnicodeTables) (p : Parameter) (h : p.stops = false) :
    ∃ t, argType u p = some t := by
  unfold argType
  repeat' split
  all_goals first
    | exact ⟨_, rfl⟩
    | (simp_all [Parameter.stops])

theorem paramDecl_done (u : UnicodeTables) (p : Parameter) (h : p.stops = false) :
    ∃ t, paramDecl u p = .done t := by
  obtain ⟨t, ht⟩ := argType_some u p h
  unfold paramDecl
  rw [ht]
  exact ⟨_, rfl⟩

/-- The text of a builder all of whose parameters get a declaration. -/
theorem emitOperation_done (u : UnicodeTables) (url method : List Char) (op : Operation)
    (h : ∀ p ∈ op.Parameters, p.stops = false) :
    emitOperation u url method op
      = .done ((operationOpen u op).text ++ authParams op
          ++ (op.Parameters.flatMap fun p => (paramDecl u p).text)
          ++ returnType u op ++ urlpathInit url
          ++ (pathStmts u op).flatMap PathStmt.text
          ++ "\n\n    #[allow(unused_mut)]\n    let mut query_params = String::new();".toList
          ++ (queryStmts u op).flatMap QueryStmt.text
          ++ "\n\n    let authentication =".toList ++ authValue op
          ++ (bodyStmts op).flatMap BodyStmt.text
          ++ (operationClose u method).text) := by
  obtain ⟨name, hn⟩ := operationName_some u op
  obtain ⟨c, hc⟩ := operationClose_done u method
  have hp := emitRange_done (paramDecl u) op.Parameters fun p hp => paramDecl_done u p (h p hp)
  unfold emitOperation
  rw [operationOpen_done u op name hn, hp, hc]
  simp [Emit.seq, Emit.text]

theorem emitOperation_begins (u : UnicodeTables) (url method : List Char) (op : Operation)
    (name : List Char) (h : operationName u op = some name) :
    ∃ rest, (emitOperation u url method op).text
      = "\n/// ".toList ++ stripNewlines op.Summary ++ "\npub fn ".toList ++ name
          ++ "(".toList ++ authParams op ++ rest := by
  unfold emitOperation
  rw [operationOpen_done u op name h]
  simp only [seq_done_text]
  rw [← List.append_assoc]
  exact ⟨_, rfl⟩

theorem flatMap_single {α β : Type} (f : List Char × α → List β) (key : List Char)
    (text : List β) :
    ∀ l : List (List Char × α), (∀ kv ∈ l, kv.1 ≠ key → f kv = []) →
      (∀ kv ∈ l, kv.1 = key → f kv = text) → (l.map Prod.fst).count key = 1 →
      l.flatMap f = text := by
  intro l
  induction l with
  | nil =>
    intro _ _ h
    rw [List.map_nil, List.count_nil] at h
    omega
  | cons kv rest ih =>
    intro h1 h2 h3
    have h1r : ∀ x ∈ rest, x.1 ≠ key → f x = [] := fun x hx => h1 x (List.mem_cons_of_mem _ hx)
    have h2r : ∀ x ∈ rest, x.1 = key → f x = text := fun x hx => h2 x (List.mem_cons_of_mem _ hx)
    by_cases hk : kv.1 = key
    · have hc : (rest.map Prod.fst).count key = 0 := by
        rw [List.map_cons, List.count_cons, hk] at h3
        simp only [beq_self_eq_true, if_true] at h3
        omega
      have hnil : rest.flatMap f = [] := by
        rw [List.flatMap_eq_nil_iff]
        intro x hx
        apply h1r x hx
        intro hxk
        have : key ∈ rest.map Prod.fst := List.mem_map.mpr ⟨x, hx, hxk⟩
        exact absurd (List.count_pos_iff.mpr this) (by omega)
      rw [List.flatMap_cons, hnil, h2 kv (List.mem_cons_self _ _) hk]
      simp
    · have hc : (rest.map Prod.fst).count key = 1 := by
        have hb : (kv.1 == key) = false := beq_eq_false_iff_ne.mpr hk
        rw [List.map_cons, List.count_cons, hb] at h3
        simpa using h3
      rw [List.flatMap_cons, h1 kv (List.mem_cons_self _ _) hk, ih h1r h2r hc]
      simp

theorem rangeMap_flatMap_single {α β : Type} (f : List Char × α → List β) (key : List Char)
    (text : List β) (m : GoMap α) (h1 : ∀ kv ∈ m, kv.1 ≠ key → f kv = [])
    (h2 : ∀ kv ∈ m, kv.1 = key → f kv = text) (hc : (m.map Prod.fst).count key = 1) :
    (rangeMap m).flatMap f = text := by
  apply flatMap_single f key text (rangeMap m)
  · exact fun kv h => h1 kv ((mem_rangeMap m kv).mp h)
  · exact fun kv h => h2 kv ((mem_rangeMap m kv).mp h)
  · exact (List.Perm.countP_eq (fun x => x == key) ((rangeMap_perm m).map Prod.fst)).trans hc

theorem auth_of_basic (first : GoMap (List Unit))
    (hc : (first.map Prod.fst).count "BasicAuth".toList = 1)
    (hno : "HttpKeyAuth".toList ∉ first.map Prod.fst) (a b : List Char) :
    ((rangeMap first).flatMap fun kv =>
        if kv.1 = "BasicAuth".toList then a else if kv.1 = "HttpKeyAuth".toList then b else [])
      = a := by
  apply rangeMap_flatMap_single _ "BasicAuth".toList _ first _ _ hc
  · intro kv hkv hk
    have hk2 : ¬ kv.1 = "HttpKeyAuth".toList := fun heq =>
      hno (List.mem_map.mpr ⟨kv, hkv, heq⟩)
    rw [if_neg hk, if_neg hk2]
  · intro kv _ hk
    rw [if_pos hk]

theorem auth_of_bearer (first : GoMap (List Unit))
    (hc : (first.map Prod.fst).count "HttpKeyAuth".toList = 1)
    (hno : "BasicAuth".toList ∉ first.map Prod.fst) (a b : List Char) :
    ((rangeMap first).flatMap fun kv =>
        if kv.1 = "BasicAuth".toList then a else if kv.1 = "HttpKeyAuth".toList then b else [])
      = b := by
  apply rangeMap_flatMap_single _ "HttpKeyAuth".toList _ first _ _ hc
  · intro kv hkv hk
    have hk2 : ¬ kv.1 = "BasicAuth".toList := fun heq =>
      hno (List.mem_map.mpr ⟨kv, hkv, heq⟩)
    rw [if_neg hk2, if_neg hk]
  · intro kv hkv hk
    have hk2 : ¬ kv.1 = "BasicAuth".toList := fun heq =>
      hno (List.mem_map.mpr ⟨kv, hkv, heq⟩)
    rw [if_neg hk2, if_pos hk]

theorem auth_of_scheme (op : Operation) (s : Scheme) (hs : op.selects s) :
    authParams op = s.params ∧ authValue op = s.value := by
  cases s with
  | basic =>
    obtain ⟨hne, hc, hno⟩ := hs
    cases hsec : op.Security with
    | nil => exact absurd hsec hne
    | cons first rest =>
      simp only [schemeKeys, hsec] at hc hno
      constructor
      · simp only [authParams, hsec]
        exact auth_of_basic first hc hno _ _
      · simp only [authValue, hsec]
        exact auth_of_basic first hc hno _ _
  | bearer =>
    cases hsec : op.Security with
    | nil =>
      constructor
      · simp only [authParams, hsec]
        rfl
      · simp only [authValue, hsec]
        rfl
    | cons first rest =>
      rcases hs with hnil | ⟨hc, hno⟩
      · rw [hsec] at hnil
        exact absurd hnil (by simp)
      · simp only [schemeKeys, hsec] at hc hno
        constructor
        · simp only [authParams, hsec]
          exact auth_of_bearer first hc hno _ _
        · simp only [authValue, hsec]
          exact auth_of_bearer first hc hno _ _

/-- C12: for every operation that selects a scheme, the parameter list of the
emitted builder begins with the authentication parameters of that scheme
(`basic_auth_username` and `basic_auth_password` for Basic, the single
`bearer_token` for Bearer, which is also the scheme of an operation that
declares none), and the value bound to `authentication` is the one built from
these parameters; when every parameter gets a declaration, the builder is
written in full with both in place. -/
theorem auth_first (u : UnicodeTables) (url method : List Char) (op : Operation) (s : Scheme)
    (hs : op.selects s) :
    authParams op = s.params ∧ authValue op = s.value ∧
      (∃ name rest, operationName u op = some name ∧
        (emitOperation u url method op).text
          = "\n/// ".toList ++ stripNewlines op.Summary ++ "\npub fn ".toList ++ name
              ++ "(".toList ++ s.params ++ rest) ∧
      ((∀ p ∈ op.Parameters, p.stops = false) →
        emitOperation u url method op
          = .done ((operationOpen u op).text ++ s.params
              ++ (op.Parameters.flatMap fun p => (paramDecl u p).text)
              ++ returnType u op ++ urlpathInit url
              ++ (pathStmts u op).flatMap PathStmt.text
              ++ "\n\n    #[allow(unused_mut)]\n    let mut query_params = String::new();".toList
              ++ (queryStmts u op).flatMap QueryStmt.text
              ++ "\n\n    let authentication =".toList ++ s.value
              ++ (bodyStmts op).flatMap BodyStmt.text
              ++ (operationClose u method).text)) := by
  obtain ⟨h1, h2⟩ := auth_of_scheme op s hs
  refine ⟨h1, h2, ?_, ?_⟩
  · obtain ⟨name, hn⟩ := operationName_some u op
    obtain ⟨rest, hr⟩ := emitOperation_begins u url method op name hn
    exact ⟨name, rest, hn, by rw [hr, h1]⟩
  · intro hp
    rw [emitOperation_done u url method op hp, h1, h2]

/-- C12 at an operation that selects the Basic scheme. -/
theorem auth_first_witness :
    basicOperation.selects .basic ∧
      authParams basicOperation
        = "\n    basic_auth_username: &str,\n    basic_auth_password: &str,".toList ∧
      authValue basicOperation = Scheme.basic.value :=
  ⟨⟨by decide, by decide, by decide⟩,
    (auth_first noTables "/v2/x".toList "post".toList basicOperation .basic
      ⟨by decide, by decide, by decide⟩).1,
    (auth_first noTables "/v2/x".toList "post".toList basicOperation .basic
      ⟨by decide, by decide, by decide⟩).2.1⟩

/-! ## The properties of the request builder: query, path and body -/

theorem runQuery_fold (args : List Char → Arg) :
    ∀ (stmts : List QueryStmt) (texts : List (List Char)) (acc : List Char),
      List.Forall₂ (fun s t => s.appended args = some t) stmts texts →
        stmts.foldlM (fun query s => (s.appended args).map fun t => query ++ t) acc
          = some (acc ++ texts.flatten) := by
  intro stmts texts acc h
  induction h generalizing acc with
  | nil => simp
  | cons hst _ ih =>
    rw [List.foldlM_cons, hst]
    simp only [Option.map_some', Option.some_bind, Option.bind_eq_bind]
    rw [ih]
    simp

theorem queryStmt_kind (u : UnicodeTables) (p : Parameter) (hin : p.In = "query".toList)
    (hk : isQueryKind p = true) : queryStmt u p = some (appendBlock u p) := by
  simp only [isQueryKind, Bool.or_eq_true, Bool.and_eq_true, decide_eq_true_eq] at hk
  unfold queryStmt appendBlock
  rw [if_pos hin]
  rcases hk with ((ht | ht) | ht) | ⟨ht, hi⟩
  · rw [if_pos ht, ht]
    rfl
  · have h1 : ¬ p.Type_ = "integer".toList := by rw [ht]; decide
    rw [if_neg h1, if_pos ht, ht]
    rfl
  · have h1 : ¬ p.Type_ = "integer".toList := by rw [ht]; decide
    have h2 : ¬ p.Type_ = "string".toList := by rw [ht]; decide
    rw [if_neg h1, if_neg h2, if_pos ht, ht]
    rfl
  · have h1 : ¬ p.Type_ = "integer".toList := by rw [ht]; decide
    have h2 : ¬ p.Type_ = "string".toList := by rw [ht]; decide
    have h3 : ¬ p.Type_ = "boolean".toList := by rw [ht]; decide
    rw [if_neg h1, if_neg h2, if_neg h3, if_pos ht, if_pos ht]
    unfold elemType
    rw [if_pos hi]

theorem queryStmts_eq (u : UnicodeTables) :
    ∀ ps : List Parameter,
      (∀ p ∈ ps, p.In = "query".toList → isQueryKind p = true) →
        ps.filterMap (queryStmt u)
          = (ps.filter fun p => decide (p.In = "query".toList)).map (appendBlock u) := by
  intro ps
  induction ps with
  | nil => intro _; rfl
  | cons p rest ih =>
    intro h
    have hr := ih fun q hq => h q (List.mem_cons_of_mem _ hq)
    by_cases hin : p.In = "query".toList
    · have hs := queryStmt_kind u p hin (h p (List.mem_cons_self _ _) hin)
      rw [List.filter_cons_of_pos (by simpa using hin), List.filterMap_cons_some hs,
        List.map_cons, hr]
    · have hn : queryStmt u p = none := by
        unfold queryStmt
        rw [if_neg hin]
      rw [List.filter_cons_of_neg (by simpa using hin), List.filterMap_cons_none hn]
      exact hr

theorem paramDecl_kind (u : UnicodeTables) (p : Parameter) (hin : p.In = "query".toList)
    (hk : isQueryKind p = true) :
    paramDecl u p
      = .done ("\n    ".toList ++ argName u p ++ ": ".toList ++ queryArgText p ++ ",".toList) := by
  have h1 : ¬ p.In = "path".toList := by rw [hin]; decide
  have h2 : ¬ p.In = "body".toList := by rw [hin]; decide
  simp only [isQueryKind, Bool.or_eq_true, Bool.and_eq_true, decide_eq_true_eq] at hk
  rcases hk with ((ht | ht) | ht) | ⟨ht, hi⟩
  · simp [paramDecl, argType, h1, h2, ht, queryArgText, ArgType.text, hin]
  · simp [paramDecl, argType, h1, h2, ht, queryArgText, ArgType.text, hin]
  · simp [paramDecl, argType, h1, h2, ht, queryArgText, ArgType.text, hin]
  · simp [paramDecl, argType, h1, h2, ht, hi, queryArgText, ArgType.text, hin]

theorem builderAccepted_args (u : UnicodeTables) (declared : List (List Char))
    (url method : List Char) (op : Operation)
    (hb : builderAccepted u declared url method op = true) :
    argsAccepted u op = true ∧ ∀ p ∈ op.Parameters, paramAccepted u declared p = true := by
  simp only [builderAccepted, Bool.and_eq_true, List.all_eq_true] at hb
  exact ⟨hb.1.2, hb.2⟩

theorem paramAccepted_query (u : UnicodeTables) (declared : List (List Char)) (p : Parameter)
    (h : paramAccepted u declared p = true) (hin : p.In = "query".toList) :
    isQueryKind p = true := by
  have h1 : ¬ p.In = "path".toList := by rw [hin]; decide
  have h2 : ¬ p.In = "body".toList := by rw [hin]; decide
  unfold paramAccepted at h
  rw [if_neg h1, if_neg h2] at h
  exact h

theorem paramAccepted_stops (u : UnicodeTables) (declared : List (List Char)) (p : Parameter)
    (h : paramAccepted u declared p = true) : p.stops = false := by
  unfold Parameter.stops
  by_cases h1 : p.In = "path".toList
  · rw [decide_eq_true h1]
    rfl
  by_cases h2 : p.In = "body".toList
  · rw [decide_eq_true h2]
    simp
  unfold paramAccepted at h
  rw [if_neg h1, if_neg h2] at h
  simp only [isQueryKind, Bool.or_eq_true, Bool.and_eq_true, decide_eq_true_eq] at h
  have ho : ¬ p.Type_ = "object".toList := by
    rcases h with ((ht | ht) | ht) | ⟨ht, _⟩ <;> (rw [ht]; decide)
  rw [decide_eq_false ho]
  simp

theorem argName_accepted (u : UnicodeTables) (op : Operation)
    (hn : argsAccepted u op = true) :
    ∀ p ∈ op.Parameters, plainText (camelCaseToSnakeCase u p.Name) = true := by
  intro p hp
  simp only [argsAccepted, Bool.and_eq_true, List.all_eq_true] at hn
  have hm : argName u p ∈ argNames u op := by
    unfold argNames
    exact List.mem_append_right _ (List.mem_map_of_mem _ hp)
  exact plain_of_rustIdent _ (hn.1 _ hm).1

set_option maxHeartbeats 1000000 in
/-- C16 (as amended): for every operation whose emitted builder Rust accepts
(its query parameters are of kind integer, string, boolean or array of string,
its argument names are identifiers, none a keyword, no two the same, its path
and body parameters are required ones the body can use), the emitted query
assembly consists of exactly one append block per query parameter, in the
order the parameters are declared, and of no block for path or body
parameters; each block reads the argument the signature declares for its
parameter (an `Option` for a scalar, a slice of `String` for an array) and has
the text the template writes, in place after the initialisation of
`query_params`; the block of a scalar appends nothing when the argument is
absent and its pair when it is present, the block of an array appends one pair
per element in element order, and the query string is what the blocks append,
in order; with optional `limit: integer` and `cursor: string`, `limit` present
and `cursor` absent, it is `limit=<value>&`. -/
theorem query_assembly (u : UnicodeTables) (declared : List (List Char))
    (url method : List Char) (op : Operation) (args : List Char → Arg)
    (hb : builderAccepted u declared url method op = true) :
    queryStmts u op
        = (op.Parameters.filter fun p => decide (p.In = "query".toList)).map (appendBlock u) ∧
      (∀ p ∈ op.Parameters, p.In = "query".toList →
        paramDecl u p
          = .done ("\n    ".toList ++ camelCaseToSnakeCase u p.Name ++ ": ".toList
              ++ queryArgText p ++ ",".toList)) ∧
      (∀ p : Parameter, p.Type_ ≠ "array".toList → p.Type_ ≠ "boolean".toList →
        (appendBlock u p).text
          = "\nif let Some(param) = ".toList ++ camelCaseToSnakeCase u p.Name
              ++ " \x7b\n    query_params.push_str(&format!(\"".toList
              ++ camelCaseToSnakeCase u p.Name ++ "=\x7b\x7d&\", param));\n\x7d".toList) ∧
      (∀ p : Parameter, p.Type_ = "boolean".toList →
        (appendBlock u p).text
          = "\nif let Some(param) = ".toList ++ camelCaseToSnakeCase u p.Name
              ++ " \x7b\n    query_params.push_str(&format!(\"".toList
              ++ camelCaseToSnakeCase u p.Name ++ "=\x7b:?\x7d&\", param));\n\x7d".toList) ∧
      (∀ p : Parameter, p.Type_ = "array".toList →
        (appendBlock u p).text
          = "\nfor elem in ".toList ++ camelCaseToSnakeCase u p.Name
              ++ "\n\x7b\n    query_params.push_str(&format!(\"".toList
              ++ camelCaseToSnakeCase u p.Name ++ "=\x7b:?\x7d&\", elem));\n\x7d".toList) ∧
      emitOperation u url method op
        = .done ((operationOpen u op).text ++ authParams op
            ++ (op.Parameters.flatMap fun p => (paramDecl u p).text)
            ++ returnType u op ++ urlpathInit url
            ++ (pathStmts u op).flatMap PathStmt.text
            ++ "\n\n    #[allow(unused_mut)]\n    let mut query_params = String::new();".toList
            ++ ((op.Parameters.filter fun p => decide (p.In = "query".toList)).flatMap
                fun p => (appendBlock u p).text)
            ++ "\n\n    let authentication =".toList ++ authValue op
            ++ (bodyStmts op).flatMap BodyStmt.text
            ++ (operationClose u method).text) ∧
      (∀ p ∈ op.Parameters, p.In = "query".toList → p.Type_ ≠ "array".toList →
        args (camelCaseToSnakeCase u p.Name) = .absent →
        (appendBlock u p).appended args = some []) ∧
      (∀ p ∈ op.Parameters, ∀ v : Shown, p.In = "query".toList → p.Type_ ≠ "array".toList →
        args (camelCaseToSnakeCase u p.Name) = .present v →
        (appendBlock u p).appended args
          = some (camelCaseToSnakeCase u p.Name ++ "=".toList
              ++ (if p.Type_ = "boolean".toList then v.debug else v.display) ++ "&".toList)) ∧
      (∀ p ∈ op.Parameters, ∀ vs : List Shown, p.In = "query".toList →
        p.Type_ = "array".toList →
        args (camelCaseToSnakeCase u p.Name) = .slice vs →
        (appendBlock u p).appended args
          = some (vs.flatMap fun v =>
              camelCaseToSnakeCase u p.Name ++ "=".toList ++ v.debug ++ "&".toList)) ∧
      (∀ texts,
        List.Forall₂ (fun p t => (appendBlock u p).appended args = some t)
          (op.Parameters.filter fun p => decide (p.In = "query".toList)) texts →
        queryResult u declared url method op args = some texts.flatten) ∧
      (∀ v : Shown, runQuery (limitOnly v) (queryStmts u listOperation)
        = some ("limit=".toList ++ v.display ++ "&".toList)) := by
  obtain ⟨hn, hpa⟩ := builderAccepted_args u declared url method op hb
  have hq : ∀ p ∈ op.Parameters, p.In = "query".toList → isQueryKind p = true :=
    fun p hp hin => paramAccepted_query u declared p (hpa p hp) hin
  have hs := queryStmts_eq u op.Parameters hq
  have hplain := argName_accepted u op hn
  refine ⟨hs, ?_, ?_, ?_, ?_, ?_, ?_, ?_, ?_, ?_, ?_⟩
  · intro p hp hin
    exact paramDecl_kind u p hin (hq p hp hin)
  · intro p ha hb
    unfold appendBlock
    rw [if_neg ha, decide_eq_false hb]
    rfl
  · intro p hb
    have ha : ¬ p.Type_ = "array".toList := by rw [hb]; decide
    unfold appendBlock
    rw [if_neg ha, decide_eq_true hb]
    rfl
  · intro p ha
    unfold appendBlock
    rw [if_pos ha]
    rfl
  · rw [emitOperation_done u url method op
      fun p hp => paramAccepted_stops u declared p (hpa p hp)]
    have e : (queryStmts u op).flatMap QueryStmt.text
        = (op.Parameters.filter fun p => decide (p.In = "query".toList)).flatMap
            fun p => (appendBlock u p).text := by
      unfold queryStmts
      rw [hs, List.flatMap_map]
    rw [e]
  · intro p hp _ ha hv
    have hk := hplain p hp
    unfold appendBlock
    rw [if_neg ha]
    simp only [QueryStmt.appended, argName, hk, hv, if_true]
  · intro p hp v _ ha hv
    have hk := hplain p hp
    unfold appendBlock
    rw [if_neg ha]
    simp only [QueryStmt.appended, argName, hk, hv, if_true, decide_eq_true_eq]
  · intro p hp vs _ ha hv
    have hk := hplain p hp
    have hl : sliceElemTypes.contains "String".toList = true := by decide
    unfold appendBlock
    rw [if_pos ha]
    simp only [QueryStmt.appended, argName, hk, hv, hl, Bool.and_self, if_true]
  · intro texts h
    unfold queryResult
    rw [if_pos hb]
    have h2 : List.Forall₂ (fun s t => s.appended args = some t) (queryStmts u op) texts := by
      unfold queryStmts
      rw [hs]
      exact List.forall₂_map_left_iff.mpr h
    have := runQuery_fold args _ texts [] h2
    simpa [runQuery] using this
  · intro v
    have e1 : camelCaseToSnakeCase u "limit".toList = "limit".toList := by
      simp [camelCaseToSnakeCase_eq, isSnakeCase_eq, unicodeToUpper]
    have e2 : camelCaseToSnakeCase u "cursor".toList = "cursor".toList := by
      simp [camelCaseToSnakeCase_eq, isSnakeCase_eq, unicodeToUpper]
    have hl : queryStmts u listOperation
        = [.ifSome "limit".toList "limit".toList false,
            .ifSome "cursor".toList "cursor".toList false] := by
      simp only [String.toList] at e1 e2
      simp [queryStmts, listOperation, queryStmt, argName, e1, e2]
    rw [hl]
    simp [runQuery, QueryStmt.appended, limitOnly, plainText]

set_option maxRecDepth 1000000 in
/-- C16, the amended statement at scenario C, `GET /v2/things` with the optional
query parameters `limit: integer` and `cursor: string`, `limit` being `10`. -/
theorem query_assembly_witness :
    builderAccepted noTables [] "/v2/things".toList "get".toList listOperation = true ∧
      queryStmts noTables listOperation
        = [.ifSome "limit".toList "limit".toList false,
            .ifSome "cursor".toList "cursor".toList false] ∧
      (queryStmts noTables listOperation).flatMap QueryStmt.text
        = ("\nif let Some(param) = limit \x7b\n".toList
            ++ "    query_params.push_str(&format!(\"limit=\x7b\x7d&\", param));\n\x7d".toList
            ++ "\nif let Some(param) = cursor \x7b\n".toList
            ++ "    query_params.push_str(&format!(\"cursor=\x7b\x7d&\", param));\n\x7d".toList) ∧
      queryResult noTables [] "/v2/things".toList "get".toList listOperation
          (limitOnly ⟨"10".toList, "10".toList⟩)
        = some "limit=10&".toList :=
  ⟨by decide,
    (query_assembly noTables [] "/v2/things".toList "get".toList listOperation
      (limitOnly ⟨"10".toList, "10".toList⟩) (by decide)).1.trans (by decide),
    by decide, by decide⟩

set_option maxRecDepth 1000000 in
/-- C16 as stated fails at an operation with the query parameter
`ratio: number`: the template has no append block for this kind and writes the
decoded parameter followed by `// ERROR` in its place; at an operation with the
query parameter `ids: array of integer`: the signature declares the slice as
`&[integer]`, a type Rust does not know, so that the loop over it appends
nothing at all; and at an operation with the query parameter `type: string`,
whose argument is declared under a keyword of Rust. -/
theorem query_assembly_counterexample :
    queryStmts noTables ratioOperation
        = [.error "\x7bratio query false number \x7b\x7d \x7b \x7d \x7d".toList] ∧
      (queryStmts noTables ratioOperation).flatMap QueryStmt.text
        = "\n\x7bratio query false number \x7b\x7d \x7b \x7d \x7d // ERROR".toList ∧
      (queryStmts noTables ratioOperation).all QueryStmt.isAppend = false ∧
      (¬ ∃ u : UnicodeTables, (queryStmts u ratioOperation).all QueryStmt.isAppend = true) ∧
      paramDecl noTables idsInteger = .done "\n    ids: &[integer],".toList ∧
      queryStmts noTables idsIntegerOperation
        = [.forElem "ids".toList "ids".toList "integer".toList] ∧
      runQuery allOnes (queryStmts noTables idsIntegerOperation) = none ∧
      (¬ ∃ u : UnicodeTables,
        runQuery allOnes (queryStmts u idsIntegerOperation) = some "ids=1&".toList) ∧
      typeOperation.Parameters.map (paramDecl noTables)
        = [.done "\n    type: Option<&str>,".toList] ∧
      queryResult noTables [] "/v2/things".toList "get".toList typeOperation allSeven = none ∧
      ¬ ∃ u : UnicodeTables,
        queryResult u [] "/v2/things".toList "get".toList typeOperation allSeven
          = some "type=7&".toList := by
  refine ⟨by decide, by decide, by decide, ?_, by decide, by decide, by decide, ?_, by decide,
    by decide, ?_⟩
  · rintro ⟨u, h⟩
    simp [queryStmts, ratioOperation, queryStmt, QueryStmt.isAppend] at h
  · rintro ⟨u, h⟩
    have hl : "integer".toList ∉ sliceElemTypes := by decide
    simp only [String.toList] at hl
    simp [queryStmts, idsIntegerOperation, idsInteger, queryStmt, elemType, runQuery,
      QueryStmt.appended, hl] at h
  · rintro ⟨u, h⟩
    have e : camelCaseToSnakeCase u "type".toList = "type".toList := by
      simp [camelCaseToSnakeCase_eq, isSnakeCase_eq, unicodeToUpper]
    have hacc : argsAccepted u typeOperation = false := by
      unfold argsAccepted argNames
      simp only [typeOperation, List.map_cons, List.map_nil, argName, e]
      decide
    have hb : builderAccepted u [] "/v2/things".toList "get".toList typeOperation = false := by
      unfold builderAccepted
      rw [hacc]
      simp
    unfold queryResult at h
    rw [hb] at h
    simp at h

theorem queryStmt_handled (u : UnicodeTables) (p : Parameter) (hin : p.In = "query".toList)
    (ht : isQueryType p.Type_ = true) :
    queryStmt u p
      = some (if p.Type_ = "array".toList then
            .forElem (argName u p) (argName u p) (elemType p)
          else .ifSome (argName u p) (argName u p) (decide (p.Type_ = "boolean".toList))) := by
  simp only [isQueryType, Bool.or_eq_true, decide_eq_true_eq] at ht
  unfold queryStmt
  rw [if_pos hin]
  rcases ht with ((ht | ht) | ht) | ht
  · rw [if_pos ht, ht]
    rfl
  · have h1 : ¬ p.Type_ = "integer".toList := by rw [ht]; decide
    rw [if_neg h1, if_pos ht, ht]
    rfl
  · have h1 : ¬ p.Type_ = "integer".toList := by rw [ht]; decide
    have h2 : ¬ p.Type_ = "string".toList := by rw [ht]; decide
    rw [if_neg h1, if_neg h2, if_pos ht, ht]
    rfl
  · have h1 : ¬ p.Type_ = "integer".toList := by rw [ht]; decide
    have h2 : ¬ p.Type_ = "string".toList := by rw [ht]; decide
    have h3 : ¬ p.Type_ = "boolean".toList := by rw [ht]; decide
    rw [if_neg h1, if_neg h2, if_neg h3, if_pos ht, ht]
    rfl

/-- C17 (as amended): for every query parameter of kind integer, string, boolean
or array, the key the emitted builder writes into the query string is the snake
form of the declared name, the same text as the argument name of the signature;
it is the declared name itself when that name is already in snake form; with a
scalar argument present the appended text is the key, `=`, the value and `&`. -/
theorem query_key (u : UnicodeTables) (p : Parameter) (hin : p.In = "query".toList)
    (ht : isQueryType p.Type_ = true) :
    (∃ s, queryStmt u p = some s ∧ s.key = some (camelCaseToSnakeCase u p.Name)) ∧
      (isSnakeCase u p.Name = true → ∃ s, queryStmt u p = some s ∧ s.key = some p.Name) ∧
      (∀ (args : List Char → Arg) (v : Shown), p.Type_ ≠ "array".toList →
        plainText (camelCaseToSnakeCase u p.Name) = true →
        args (camelCaseToSnakeCase u p.Name) = .present v →
        ∃ s, queryStmt u p = some s ∧
          s.appended args
            = some (camelCaseToSnakeCase u p.Name ++ "=".toList
                ++ (if p.Type_ = "boolean".toList then v.debug else v.display)
                ++ "&".toList)) := by
  have hs := queryStmt_handled u p hin ht
  have hkey : ∃ s, queryStmt u p = some s ∧ s.key = some (camelCaseToSnakeCase u p.Name) := by
    refine ⟨_, hs, ?_⟩
    split <;> rfl
  refine ⟨hkey, ?_, ?_⟩
  · intro hsn
    have e : camelCaseToSnakeCase u p.Name = p.Name := by
      unfold camelCaseToSnakeCase
      rw [if_pos hsn]
    rw [e] at hkey
    exact hkey
  · intro args v ha hk hv
    refine ⟨_, hs, ?_⟩
    rw [if_neg ha]
    simp only [QueryStmt.appended, argName, hk, hv, if_true, decide_eq_true_eq]

/-- C17, the amended statement at the optional query parameter `userId: string`,
whose key is `user_id`. -/
theorem query_key_witness :
    userIdOptional.In = "query".toList ∧ isQueryType userIdOptional.Type_ = true ∧
      ∃ s, queryStmt noTables userIdOptional = some s ∧ s.key = some "user_id".toList :=
  ⟨rfl, by decide,
    (query_key noTables userIdOptional rfl (by decide)).1.imp
      fun _ hs => ⟨hs.1, hs.2.trans (by decide)⟩⟩

/-- C17 as stated fails at an operation with the query parameter `userId`: the
key the block puts into the format string is the snake form of the name, not
the declared name, so that with the argument `7` the builder appends
`user_id=7&`, not `userId=7&`. -/
theorem query_key_counterexample :
    queryStmts noTables userIdOperation
        = [.ifSome "user_id".toList "user_id".toList false] ∧
      (queryStmts noTables userIdOperation).flatMap QueryStmt.text
        = ("\nif let Some(param) = user_id \x7b\n".toList
            ++ "    query_params.push_str(&format!(\"user_id=\x7b\x7d&\", param));\n\x7d".toList) ∧
      runQuery allSeven (queryStmts noTables userIdOperation) = some "user_id=7&".toList ∧
      ¬ ∃ u : UnicodeTables,
        runQuery allSeven (queryStmts u userIdOperation) = some "userId=7&".toList := by
  refine ⟨by decide, by decide, by decide, ?_⟩
  rintro ⟨u, h⟩
  have e : camelCaseToSnakeCase u "userId".toList = "user_id".toList := by
    simp [camelCaseToSnakeCase_eq, isSnakeCase_eq, snakeExpand, snakeRune, unicodeToUpper,
      unicodeToLower]
  simp only [String.toList] at e
  simp [queryStmts, userIdOperation, queryStmt, argName, e, runQuery, QueryStmt.appended,
    allSeven, plainText] at h

theorem pathStmts_eq (u : UnicodeTables) :
    ∀ ps : List Parameter,
      (ps.filterMap fun p =>
          if p.In = "path".toList then
            some (PathStmt.mk ("\x7b".toList ++ p.Name ++ "\x7d".toList) (argName u p))
          else none)
        = (ps.filter fun p => decide (p.In = "path".toList)).map fun p =>
            PathStmt.mk ("\x7b".toList ++ p.Name ++ "\x7d".toList) (argName u p) := by
  intro ps
  induction ps with
  | nil => rfl
  | cons p rest ih =>
    by_cases hin : p.In = "path".toList
    · rw [List.filterMap_cons_some (by rw [if_pos hin]),
        List.filter_cons_of_pos (by simpa using hin), List.map_cons, ih]
    · rw [List.filterMap_cons_none (by rw [if_neg hin]),
        List.filter_cons_of_neg (by simpa using hin), ih]

set_option maxHeartbeats 1000000 in
/-- C18: for every operation the emitted builder initialises `urlpath` from the
URL template and has exactly one replacement per path parameter, in declaration
order, of the placeholder made of the declared name between braces by the
argument declared for the parameter in the signature, and none for other
parameters; for `GET /v2/account/{id}` with the required path parameter
`id: string` and no security scheme the builder takes `bearer_token` and `id`,
replaces `{id}`, so that the path is `/v2/account/<id>`, and appends nothing to
the query string. -/
theorem path_substitution (u : UnicodeTables) (url method : List Char) (op : Operation)
    (v : Shown) :
    pathStmts u op
        = (op.Parameters.filter fun p => decide (p.In = "path".toList)).map
            (fun p => PathStmt.mk ("\x7b".toList ++ p.Name ++ "\x7d".toList) (camelCaseToSnakeCase u p.Name)) ∧
      (∀ s : PathStmt,
        s.text = "\n    urlpath = urlpath.replace(\"".toList ++ s.placeholder ++ "\", ".toList
            ++ s.arg ++ ");".toList) ∧
      (∀ p ∈ op.Parameters, ∀ t, argType u p = some t →
        paramDecl u p
          = .done ("\n    ".toList ++ camelCaseToSnakeCase u p.Name ++ ": ".toList ++ t.text
              ++ ",".toList)) ∧
      ((∀ p ∈ op.Parameters, p.stops = false) →
        emitOperation u url method op
          = .done ((operationOpen u op).text ++ authParams op
              ++ (op.Parameters.flatMap fun p => (paramDecl u p).text)
              ++ returnType u op
              ++ "\n    #[allow(unused_mut)]\n    let mut urlpath = \"".toList ++ url
              ++ "\".to_string();".toList
              ++ (pathStmts u op).flatMap PathStmt.text
              ++ "\n\n    #[allow(unused_mut)]\n    let mut query_params = String::new();".toList
              ++ (queryStmts u op).flatMap QueryStmt.text
              ++ "\n\n    let authentication =".toList ++ authValue op
              ++ (bodyStmts op).flatMap BodyStmt.text
              ++ (operationClose u method).text)) ∧
      authParams accountByIdOperation
          ++ (accountByIdOperation.Parameters.flatMap fun p => (paramDecl u p).text)
        = "\n    bearer_token: &str,\n    id: &str,".toList ∧
      pathStmts u accountByIdOperation = [⟨"\x7bid\x7d".toList, "id".toList⟩] ∧
      queryStmts u accountByIdOperation = [] ∧
      runPath (allPlain v) "/v2/account/\x7bid\x7d".toList (pathStmts u accountByIdOperation)
        = some ("/v2/account/".toList ++ v.display) ∧
      runQuery (allPlain v) (queryStmts u accountByIdOperation) = some [] := by
  have e : camelCaseToSnakeCase u "id".toList = "id".toList := by
    simp [camelCaseToSnakeCase_eq, isSnakeCase_eq, unicodeToUpper]
  simp only [String.toList] at e
  have hp : pathStmts u accountByIdOperation = [⟨"\x7bid\x7d".toList, "id".toList⟩] := by
    simp [pathStmts, accountByIdOperation, argName, e]
  have hq : queryStmts u accountByIdOperation = [] := by
    simp [queryStmts, accountByIdOperation, queryStmt]
  refine ⟨pathStmts_eq u op.Parameters, ?_, ?_, ?_, ?_, hp, hq, ?_, ?_⟩
  · intro s
    simp [PathStmt.text]
  · intro p _ t ht
    simp [paramDecl, ht, argName]
  · intro h
    rw [emitOperation_done u url method op h]
    simp only [urlpathInit, List.append_assoc]
  · simp [authParams, accountByIdOperation, paramDecl, argType, argName, e, ArgType.text,
      Emit.text]
  · rw [hp]
    simp [runPath, PathStmt.applied, plainLiteral, allPlain, replaceFrom]
  · rw [hq]
    rfl

/-- C19: evaluation at an operation with the body parameter `friendRequest`.
The signature declares the argument under the snake form of the name,
`friend_request`, while the statement that binds the body serialises the
identifier `friendRequest`, the declared name as it stands: the body is bound
once, but not from the argument of the signature. -/
theorem body_identifier_divergence :
    friendOperation.Parameters.map (paramDecl noTables)
        = [.done "\n    friend_request: ApiFriend,".toList] ∧
      bodyStmts friendOperation = [.fromArg "friendRequest".toList, .blank] ∧
      (bodyStmts friendOperation).flatMap BodyStmt.text
        = "\n    let body_json = friendRequest.to_string();\n    ".toList ∧
      bodyStmts accountByIdOperation = [.blank, .empty] ∧
      ¬ ∃ u : UnicodeTables,
        bodyStmts friendOperation
          = (friendOperation.Parameters.map fun p => BodyStmt.fromArg (argName u p))
              ++ [.blank] := by
  refine ⟨by decide, by decide, by decide, by decide, ?_⟩
  rintro ⟨u, h⟩
  have e : camelCaseToSnakeCase u "friendRequest".toList = "friend_request".toList := by
    simp [camelCaseToSnakeCase_eq, isSnakeCase_eq, snakeExpand, snakeRune, unicodeToUpper,
      unicodeToLower]
  simp only [String.toList] at e
  simp [bodyStmts, friendOperation, argName, e] at h

/-! ## The properties of a whole run -/

theorem structField_done (u : UnicodeTables) (propname : List Char) (p : Property)
    (h : p.stops = false) : ∃ t, structField u propname p = .done t := by
  by_cases ho : p.Type_ = "object".toList
  · have hi : ¬ p.Type_ = "integer".toList := by rw [ho]; decide
    have hn : ¬ p.Type_ = "number".toList := by rw [ho]; decide
    have hb : ¬ p.Type_ = "boolean".toList := by rw [ho]; decide
    have hs : ¬ p.Type_ = "string".toList := by rw [ho]; decide
    have ha : ¬ p.Type_ = "array".toList := by rw [ho]; decide
    unfold structField
    simp only []
    rw [if_neg hi, if_neg hn, if_neg hb, if_neg hs, if_neg ha, if_pos ho]
    by_cases h1 : p.AdditionalProperties.Type_ = "string".toList
    · rw [if_pos h1]; exact ⟨_, rfl⟩
    rw [if_neg h1]
    by_cases h2 : p.Items.Type_ = "integer".toList
    · rw [if_pos h2]; exact ⟨_, rfl⟩
    rw [if_neg h2]
    by_cases h3 : p.Items.Type_ = "number".toList
    · rw [if_pos h3]; exact ⟨_, rfl⟩
    rw [if_neg h3]
    by_cases h4 : p.Items.Type_ = "boolean".toList
    · rw [if_pos h4]; exact ⟨_, rfl⟩
    exfalso
    unfold Property.stops at h
    rw [decide_eq_true ho, decide_eq_false h1, decide_eq_false h2, decide_eq_false h3,
      decide_eq_false h4] at h
    exact absurd h (by decide)
  · unfold structField
    simp only []
    repeat' (first | exact ⟨_, rfl⟩ | split)

theorem emitDefinition_done (u : UnicodeTables) (defname : List Char) (d : Definition)
    (h : ∀ kv ∈ d.Properties, kv.2.stops = false) :
    emitDefinition u defname d
      = .done (structOpen u defname d.Description
          ++ ((rangeMap d.Properties).flatMap fun kv => (structField u kv.1 kv.2).text)
          ++ serializerText u defname d) := by
  have hf := emitRange_done (fun kv => structField u kv.1 kv.2) (rangeMap d.Properties)
    fun kv hkv => structField_done u kv.1 kv.2 (h kv ((mem_rangeMap _ kv).mp hkv))
  unfold emitDefinition
  rw [hf]
  rfl

theorem emitDefinition_isDone (u : UnicodeTables) (defname : List Char) (d : Definition)
    (h : ∀ kv ∈ d.Properties, kv.2.stops = false) :
    ∃ t, emitDefinition u defname d = .done t :=
  Exists.intro _ (emitDefinition_done u defname d h)

theorem emitOperation_isDone (u : UnicodeTables) (url method : List Char) (op : Operation)
    (h : ∀ p ∈ op.Parameters, p.stops = false) :
    ∃ t, emitOperation u url method op = .done t :=
  Exists.intro _ (emitOperation_done u url method op h)

theorem seq_four (a b c d : List Char) (x y : Emit) (hx : x = .done b) (hy : y = .done c) :
    (Emit.done a).seq (x.seq (y.seq (.done d))) = .done (a ++ b ++ c ++ d) := by
  subst hx hy
  simp [Emit.seq]

theorem emitRange_texts {α : Type} (f : α → Emit) (g : α → List Char) :
    ∀ l : List α, (∀ x ∈ l, f x = .done (g x)) → emitRange f l = .done (l.flatMap g) := by
  intro l
  induction l with
  | nil => intro _; rfl
  | cons x rest ih =>
    intro h
    have hx := h x (List.mem_cons_self _ _)
    have hr := ih fun y hy => h y (List.mem_cons_of_mem _ hy)
    rw [emitRange, hx, hr, List.flatMap_cons]
    rfl

theorem emitDefinitions_done (u : UnicodeTables) (schema : Schema)
    (hd : ∀ d ∈ schema.Definitions, ∀ kv ∈ d.2.Properties, kv.2.stops = false) :
    emitRange (fun d => emitDefinition u d.1 d.2) (rangeMap schema.Definitions)
      = .done ((rangeMap schema.Definitions).flatMap fun d => (emitDefinition u d.1 d.2).text) := by
  apply emitRange_done
  intro d hdm
  exact emitDefinition_isDone u d.1 d.2 (hd d ((mem_rangeMap _ d).mp hdm))

theorem emitPath_done (u : UnicodeTables) (path : List Char × GoMap Operation)
    (ho : ∀ mo ∈ path.2, ∀ p ∈ mo.2.Parameters, p.stops = false) :
    emitPath u path
      = .done ((rangeMap path.2).flatMap fun mo => (emitOperation u path.1 mo.1 mo.2).text) := by
  unfold emitPath
  apply emitRange_done
  intro mo hmo
  exact emitOperation_isDone u path.1 mo.1 mo.2 (ho mo ((mem_rangeMap _ mo).mp hmo))

theorem emitPaths_done (u : UnicodeTables) (schema : Schema)
    (ho : ∀ path ∈ schema.Paths, ∀ mo ∈ path.2, ∀ p ∈ mo.2.Parameters, p.stops = false) :
    emitRange (emitPath u) (rangeMap schema.Paths)
      = .done ((rangeMap schema.Paths).flatMap fun path =>
              (rangeMap path.2).flatMap fun mo => (emitOperation u path.1 mo.1 mo.2).text) :=
  emitRange_texts (emitPath u) _ _
    fun path hpath => emitPath_done u path (ho path ((mem_rangeMap _ path).mp hpath))

theorem executeTemplate_done (u : UnicodeTables) (schema : Schema)
    (hd : ∀ d ∈ schema.Definitions, ∀ kv ∈ d.2.Properties, kv.2.stops = false)
    (ho : ∀ path ∈ schema.Paths, ∀ mo ∈ path.2, ∀ p ∈ mo.2.Parameters, p.stops = false) :
    executeTemplate u schema
      = .done (banner
          ++ ((rangeMap schema.Definitions).flatMap fun d => (emitDefinition u d.1 d.2).text)
          ++ ((rangeMap schema.Paths).flatMap fun path =>
              (rangeMap path.2).flatMap fun mo => (emitOperation u path.1 mo.1 mo.2).text)
          ++ "\n".toList) :=
  seq_four _ _ _ _ _ _ (emitDefinitions_done u schema hd) (emitPaths_done u schema ho)

theorem reference_field (u : UnicodeTables) (propname r : List Char) (p : Property)
    (h : p.hasKind (.reference r)) :
    structField u propname p
        = .done ("\n    pub ".toList ++ camelCaseToSnakeCase u propname ++ ": ".toList
            ++ className u r ++ ",".toList) ∧
      p.stops = false := by
  simp only [Property.hasKind] at h
  constructor
  · simp [structField, h.1, h.2]
    exact convertRefToClassName_ref u r
  · simp [Property.stops, h.1]

/-- C20 (as amended): generation resolves no reference.  For every schema in
which no struct field and no parameter declaration stops the template (a
condition on map-typed properties and object-typed parameters only), whether or
not the definitions its properties reference are declared, the template runs to
its end and the whole output is written: the banner, every definition with its
struct and serializer, every builder, a final newline; a property that
references a definition name, declared or not, never stops the template and
becomes a struct field typed by the title-cased name. -/
theorem no_reference_check (u : UnicodeTables) (schema : Schema)
    (hd : ∀ d ∈ schema.Definitions, ∀ kv ∈ d.2.Properties, kv.2.stops = false)
    (ho : ∀ path ∈ schema.Paths, ∀ mo ∈ path.2, ∀ p ∈ mo.2.Parameters, p.stops = false) :
    executeTemplate u schema
        = .done (banner
            ++ ((rangeMap schema.Definitions).flatMap fun d =>
                structOpen u d.1 d.2.Description
                  ++ ((rangeMap d.2.Properties).flatMap fun kv => (structField u kv.1 kv.2).text)
                  ++ serializerText u d.1 d.2)
            ++ ((rangeMap schema.Paths).flatMap fun path =>
                (rangeMap path.2).flatMap fun mo => (emitOperation u path.1 mo.1 mo.2).text)
            ++ "\n".toList) ∧
      generate u schema = (executeTemplate u schema).text ∧
      (∀ (propname r : List Char) (p : Property), p.hasKind (.reference r) →
        structField u propname p
            = .done ("\n    pub ".toList ++ camelCaseToSnakeCase u propname ++ ": ".toList
                ++ className u r ++ ",".toList) ∧
          p.stops = false) := by
  refine ⟨?_, rfl, fun propname r p h => reference_field u propname r p h⟩
  rw [executeTemplate_done u schema hd ho]
  have h : ((rangeMap schema.Definitions).flatMap fun d => (emitDefinition u d.1 d.2).text)
      = (rangeMap schema.Definitions).flatMap fun d =>
          structOpen u d.1 d.2.Description
            ++ ((rangeMap d.2.Properties).flatMap fun kv => (structField u kv.1 kv.2).text)
            ++ serializerText u d.1 d.2 := by
    apply List.flatMap_congr
    intro d hdm
    rw [emitDefinition_done u d.1 d.2 (hd d ((mem_rangeMap _ d).mp hdm))]
    rfl
  rw [h]

set_option maxRecDepth 1000000 in
/-- C20, the amended statement at a schema whose definition `Account` references
the undeclared definition `Missing`. -/
theorem no_reference_check_witness :
    (∀ d ∈ danglingSchema.Definitions, ∀ kv ∈ d.2.Properties, kv.2.stops = false) ∧
      (∀ path ∈ danglingSchema.Paths, ∀ mo ∈ path.2, ∀ p ∈ mo.2.Parameters,
        p.stops = false) ∧
      danglingSchema.declares "Missing".toList = false ∧
      executeTemplate noTables danglingSchema
        = .done (banner
            ++ "\n\n/// \n#[derive(Debug, DeJson, Default)]\n#[nserde(default)]\npub struct Account \x7b".toList
            ++ "\n    pub owner: Missing,".toList
            ++ "\n\x7d\n\nimpl ToRestString for Account \x7b\n    fn to_string(&self) -> String \x7b".toList
            ++ "\n\tlet mut output = String::new();\n\n        \n        output.push_str(\"\x7b\");".toList
            ++ "\n        \n\toutput.push_str(&format!(\"\\\"owner\\\": \x7b\x7d\", self.owner.to_string()));".toList
            ++ "\n        output.push_str(\"\x7d\");\n\treturn output;\n    \x7d\n\x7d".toList
            ++ "\n".toList) :=
  ⟨by decide, by decide, by decide,
    (no_reference_check noTables danglingSchema (by decide) (by decide)).1.trans (by decide)⟩

set_option maxRecDepth 1000000 in
/-- C20 as stated fails at a schema whose definition `Account` has the property
`owner` referencing the definition `Missing`, which is not declared: the
template runs to its end whatever the Unicode tables, the struct is written
with the field `pub owner: Missing,`, and the output is not empty. -/
theorem no_reference_check_counterexample :
    danglingSchema.declares "Missing".toList = false ∧
      (∃ text, executeTemplate noTables danglingSchema = .done text) ∧
      emitDefinition noTables "Account".toList
          ⟨[("owner".toList, { Ref := "#/definitions/Missing".toList })], []⟩
        = .done ("\n\n/// \n#[derive(Debug, DeJson, Default)]\n#[nserde(default)]\npub struct Account \x7b".toList
            ++ "\n    pub owner: Missing,".toList
            ++ "\n\x7d\n\nimpl ToRestString for Account \x7b\n    fn to_string(&self) -> String \x7b".toList
            ++ "\n\tlet mut output = String::new();\n\n        \n        output.push_str(\"\x7b\");".toList
            ++ "\n        \n\toutput.push_str(&format!(\"\\\"owner\\\": \x7b\x7d\", self.owner.to_string()));".toList
            ++ "\n        output.push_str(\"\x7d\");\n\treturn output;\n    \x7d\n\x7d".toList) ∧
      generate noTables danglingSchema ≠ [] ∧
      (¬ ∃ u : UnicodeTables, ∃ text, executeTemplate u danglingSchema = .stopped text) ∧
      ¬ ∃ u : UnicodeTables, generate u danglingSchema = [] := by
  refine ⟨by decide,
    Exists.intro _ (executeTemplate_done noTables danglingSchema (by decide) (by decide)),
    by decide, by decide, ?_, ?_⟩
  · rintro ⟨u, text, h⟩
    rw [executeTemplate_done u danglingSchema (by decide) (by decide)] at h
    cases h
  rintro ⟨u, h⟩
  have h2 : generate u danglingSchema
      = banner ++ ((emitRange (fun kv => emitDefinition u kv.1 kv.2)
          (rangeMap danglingSchema.Definitions)).seq
            ((emitRange (emitPath u) (rangeMap danglingSchema.Paths)).seq
              (Emit.done "\n".toList))).text := by
    unfold generate executeTemplate
    exact seq_done_text _ _
  rw [h2] at h
  have h3 := congrArg List.length h
  rw [List.length_append, List.length_nil] at h3
  have h4 : 0 < banner.length := by decide
  omega

/-! ## The properties of the serializer of a definition with scalar properties -/

theorem scalar_not_stops (p : Property) (hk : isScalarType p.Type_ = true) :
    p.stops = false := by
  simp only [isScalarType, Bool.or_eq_true, decide_eq_true_eq] at hk
  have ho : ¬ p.Type_ = "object".toList := by
    rcases hk with ((h | h) | h) | h <;> (rw [h]; decide)
  unfold Property.stops
  rw [decide_eq_false ho]
  rfl

theorem structField_scalar (u : UnicodeTables) (n : List Char) (p : Property)
    (hk : isScalarType p.Type_ = true) :
    (structField u n p).text = scalarFieldText u (n, p) := by
  simp only [isScalarType, Bool.or_eq_true, decide_eq_true_eq] at hk
  rcases hk with ((h | h) | h) | h <;>
    simp [structField, scalarFieldText, scalarRustType, h, Emit.text]

theorem valueStmt_text (u : UnicodeTables) (n : List Char) (p : Property)
    (hk : isScalarType p.Type_ = true) :
    (valueStmt u n p).text = scalarStmtText u (n, p) := by
  simp only [isScalarType, Bool.or_eq_true, decide_eq_true_eq] at hk
  rcases hk with ((h | h) | h) | h <;>
    simp [valueStmt, scalarStmtText, SerStmt.text, h]

theorem propertyStmts_text (u : UnicodeTables) :
    ∀ props : List (List Char × Property),
      (∀ kv ∈ props, isScalarType kv.2.Type_ = true) →
      (propertyStmts u true props).flatMap SerStmt.text
        = props.flatMap fun kv2 =>
            "\n        ".toList ++ "\n        output.push_str(\",\");".toList ++ scalarStmtText u kv2 := by
  intro props
  induction props with
  | nil => intro _; rfl
  | cons kv rest ih =>
    intro hk
    obtain ⟨n, p⟩ := kv
    have h1 := valueStmt_text u n p (hk (n, p) (List.mem_cons_self _ _))
    have h2 := ih fun kv h => hk kv (List.mem_cons_of_mem _ h)
    simp only [propertyStmts, if_true, List.flatMap_append, List.flatMap_cons, List.flatMap_nil,
      List.append_nil, h1, h2]
    simp [SerStmt.text]

theorem serializerStmts_text (u : UnicodeTables) (d : Definition)
    (hk : ∀ kv ∈ d.Properties, isScalarType kv.2.Type_ = true) :
    (serializerStmts u d).flatMap SerStmt.text
      = "\n        output.push_str(\"\x7b\");".toList ++ scalarStmtsText u (rangeMap d.Properties)
          ++ "\n        output.push_str(\"\x7d\");".toList := by
  have hk2 : ∀ kv ∈ rangeMap d.Properties, isScalarType kv.2.Type_ = true :=
    fun kv h => hk kv ((mem_rangeMap _ kv).mp h)
  unfold serializerStmts
  generalize rangeMap d.Properties = props at hk2
  cases props with
  | nil => simp [propertyStmts, scalarStmtsText, SerStmt.text]
  | cons kv rest =>
    obtain ⟨n, p⟩ := kv
    have h1 := valueStmt_text u n p (hk2 (n, p) (List.mem_cons_self _ _))
    have h2 := propertyStmts_text u rest fun kv h => hk2 kv (List.mem_cons_of_mem _ h)
    simp only [propertyStmts, List.flatMap_append, List.flatMap_cons, List.flatMap_nil,
      List.append_nil, h1, h2, scalarStmtsText]
    simp [SerStmt.text]

theorem toStringResult_scalar (u : UnicodeTables) (defname : List Char) (d : Definition)
    (values : List Char → List Char)
    (hk : ∀ kv ∈ d.Properties, isScalarType kv.2.Type_ = true)
    (ha : structAccepted u defname d = true) :
    toStringResult u defname d (fun f => Value.shown (values f))
      = some ("\x7b".toList
          ++ ",".toList.intercalate ((rangeMap d.Properties).map (scalarPair u values))
          ++ "\x7d".toList) := by
  unfold toStringResult
  rw [if_pos ha]
  simp only [structAccepted, structFields, Bool.and_eq_true, List.all_eq_true, List.mem_map,
    forall_exists_index, and_imp, forall_apply_eq_imp_iff₂] at ha
  exact serializerStmts_scalar u values (rangeMap d.Properties)
    (fun kv h => hk kv ((mem_rangeMap _ kv).mp h)) (fun kv h => ha.1.2 kv h)

/-- C13 (as amended): for every definition whose properties are all of kind
string, integer, number or boolean and whose names Rust accepts (the struct
name is an identifier the generated file does not use already, the snake forms
of the property names are identifiers, none a keyword, no two the same), the
template writes the struct with one field per property and the serializer whose
statements push an opening brace, the pairs of the properties in ascending
order of their names, and a closing brace, with the statement that pushes a
comma before every pair but the first; run on a value, the serializer returns
the brace, the pairs `"name": "value"` for a string and `"name": value`
otherwise, joined by single commas, and the closing brace; for `Account` with
`display_name: string` and `wins: integer` the result is
`{"display_name": "<value>","wins": <value>}`. -/
theorem serializer_scalars (u : UnicodeTables) (defname : List Char) (d : Definition)
    (values : List Char → List Char)
    (hk : ∀ kv ∈ d.Properties, isScalarType kv.2.Type_ = true)
    (ha : structAccepted u defname d = true) :
    emitDefinition u defname d
        = .done (structOpen u defname d.Description
            ++ (rangeMap d.Properties).flatMap (scalarFieldText u)
            ++ "\n\x7d\n\nimpl ToRestString for ".toList ++ className u defname
            ++ " \x7b\n    fn to_string(&self) -> String \x7b\n\tlet mut output = String::new();\n\n        ".toList
            ++ "\n        output.push_str(\"\x7b\");".toList
            ++ scalarStmtsText u (rangeMap d.Properties)
            ++ "\n        output.push_str(\"\x7d\");".toList
            ++ "\n\treturn output;\n    \x7d\n\x7d".toList) ∧
      toStringResult u defname d (fun f => Value.shown (values f))
        = some ("\x7b".toList
            ++ ",".toList.intercalate ((rangeMap d.Properties).map (scalarPair u values))
            ++ "\x7d".toList) ∧
      List.Sorted (fun a b => strLE a.1 b.1 = true) (rangeMap d.Properties) ∧
      (rangeMap d.Properties).Perm d.Properties ∧
      toStringResult u "Account".toList accountDefinition (fun f => Value.shown (values f))
        = some ("\x7b\"display_name\": \"".toList ++ values "display_name".toList
            ++ "\",\"wins\": ".toList ++ values "wins".toList ++ "\x7d".toList) := by
  refine ⟨?_, toStringResult_scalar u defname d values hk ha, rangeMap_sorted _,
    rangeMap_perm _, ?_⟩
  · rw [emitDefinition_done u defname d fun kv h => scalar_not_stops kv.2 (hk kv h)]
    have hf : ((rangeMap d.Properties).flatMap fun kv => (structField u kv.1 kv.2).text)
        = (rangeMap d.Properties).flatMap (scalarFieldText u) := by
      apply List.flatMap_congr
      intro kv h
      exact structField_scalar u kv.1 kv.2 (hk kv ((mem_rangeMap _ kv).mp h))
    rw [hf]
    unfold serializerText
    rw [serializerStmts_text u d hk]
    simp only [List.append_assoc]
  · have hr : rangeMap accountDefinition.Properties
        = [("display_name".toList, { Type_ := "string".toList }),
            ("wins".toList, { Type_ := "integer".toList })] := by
      decide
    have e1 : camelCaseToSnakeCase u "display_name".toList = "display_name".toList := by
      simp [camelCaseToSnakeCase_eq, isSnakeCase_eq, unicodeToUpper]
    have e2 : camelCaseToSnakeCase u "wins".toList = "wins".toList := by
      simp [camelCaseToSnakeCase_eq, isSnakeCase_eq, unicodeToUpper]
    have ec : className u "Account".toList = "Account".toList := by
      simp [className, stringsTitle, titleFrom, isSeparator, unicodeToTitle]
    have hacc : structAccepted u "Account".toList accountDefinition = true := by
      unfold structAccepted structFields
      rw [ec, hr]
      simp only [List.map_cons, List.map_nil, e1, e2]
      decide
    have h := toStringResult_scalar u "Account".toList accountDefinition values
      (by decide) hacc
    rw [h, hr]
    simp only [String.toList] at e1 e2
    simp [scalarPair, e1, e2, List.intercalate]

set_option maxRecDepth 1000000 in
/-- C13, the amended statement at the definition `Account` with `display_name`
being `Ann` and `wins` being `3`: the text written and the value returned. -/
theorem serializer_scalars_witness :
    (∀ kv ∈ accountDefinition.Properties, isScalarType kv.2.Type_ = true) ∧
      structAccepted noTables "Account".toList accountDefinition = true ∧
      emitDefinition noTables "Account".toList accountDefinition
        = .done ("\n\n/// \n#[derive(Debug, DeJson, Default)]\n#[nserde(default)]\npub struct Account \x7b".toList
            ++ "\n    pub display_name: String,\n    pub wins: i32,".toList
            ++ "\n\x7d\n\nimpl ToRestString for Account \x7b\n    fn to_string(&self) -> String \x7b".toList
            ++ "\n\tlet mut output = String::new();\n\n        \n        output.push_str(\"\x7b\");".toList
            ++ "\n        \n\toutput.push_str(&format!(\"\\\"display_name\\\": \\\"\x7b\x7d\\\"\", self.display_name));".toList
            ++ "\n        \n        output.push_str(\",\");".toList
            ++ "\n\toutput.push_str(&format!(\"\\\"wins\\\": \x7b\x7d\", self.wins.to_string()));".toList
            ++ "\n        output.push_str(\"\x7d\");\n\treturn output;\n    \x7d\n\x7d".toList) ∧
      toStringResult noTables "Account".toList accountDefinition
          (fun f => Value.shown (accountValues f))
        = some "\x7b\"display_name\": \"Ann\",\"wins\": 3\x7d".toList :=
  ⟨by decide, by decide,
    (serializer_scalars noTables "Account".toList accountDefinition accountValues (by decide)
      (by decide)).1.trans (by decide),
    (serializer_scalars noTables "Account".toList accountDefinition accountValues (by decide)
      (by decide)).2.1.trans (by decide)⟩

set_option maxRecDepth 1000000 in
/-- C13 as stated fails at a definition with the scalar property `type: string`:
the struct declares the field `pub type: String,` and the serializer reads
`self.type`, and `type` is a keyword of Rust, so that no serializer comes out of
the emitted text; and at a definition with the properties `userId` and
`user_id`, for which the struct declares the field `user_id` twice; and at
`Account` declared under the name `string`, for which the struct is named
`String` and hides the type of its own fields. -/
theorem serializer_scalars_counterexample :
    (∀ kv ∈ typeDefinition.Properties, isScalarType kv.2.Type_ = true) ∧
      emitDefinition noTables "Account".toList typeDefinition
        = .done ("\n\n/// \n#[derive(Debug, DeJson, Default)]\n#[nserde(default)]\npub struct Account \x7b".toList
            ++ "\n    pub type: String,".toList
            ++ "\n\x7d\n\nimpl ToRestString for Account \x7b\n    fn to_string(&self) -> String \x7b".toList
            ++ "\n\tlet mut output = String::new();\n\n        \n        output.push_str(\"\x7b\");".toList
            ++ "\n        \n\toutput.push_str(&format!(\"\\\"type\\\": \\\"\x7b\x7d\\\"\", self.type));".toList
            ++ "\n        output.push_str(\"\x7d\");\n\treturn output;\n    \x7d\n\x7d".toList) ∧
      isRustIdent "type".toList = false ∧
      toStringResult noTables "Account".toList typeDefinition (fun _ => Value.shown "x".toList)
        = none ∧
      (¬ ∃ u : UnicodeTables,
        toStringResult u "Account".toList typeDefinition (fun _ => Value.shown "x".toList)
          = some "\x7b\"type\": \"x\"\x7d".toList) ∧
      (∀ kv ∈ clashDefinition.Properties, isScalarType kv.2.Type_ = true) ∧
      structFields noTables clashDefinition = ["user_id".toList, "user_id".toList] ∧
      toStringResult noTables "Account".toList clashDefinition (fun _ => Value.shown "x".toList)
        = none ∧
      className noTables "string".toList = "String".toList ∧
      toStringResult noTables "string".toList accountDefinition
          (fun f => Value.shown (accountValues f))
        = none := by
  refine ⟨by decide, by decide, by decide, by decide, ?_, by decide, by decide, by decide,
    by decide, by decide⟩
  rintro ⟨u, h⟩
  have e : camelCaseToSnakeCase u "type".toList = "type".toList := by
    simp [camelCaseToSnakeCase_eq, isSnakeCase_eq, unicodeToUpper]
  have hr : rangeMap typeDefinition.Properties = typeDefinition.Properties := by decide
  have hi : isRustIdent "type".toList = false := by decide
  have hacc : structAccepted u "Account".toList typeDefinition = false := by
    unfold structAccepted structFields
    rw [hr]
    simp only [typeDefinition, List.map_cons, List.map_nil, e, List.all_cons, hi,
      Bool.false_and, Bool.and_false]
  unfold toStringResult at h
  rw [hacc] at h
  simp at h
end Codegen
